import Mathlib

/-!
Verification of the substitution engine, renaming machinery, closure
conversion and lowering validation of the `enum_trait` crate
(`src/enum_trait/src/subst.rs`, `src/enum_trait/src/item.rs`).

The development shallowly embeds the fragment of the `syn` abstract syntax
tree that the `ParamSubst` visitor traverses, in a first-order style
(lists rendered as dedicated inductive types so that mutual structural
recursion and induction stay simple).  Identifiers and lifetimes are
strings; source spans are dropped, with the occurrence list
`Result<Vec<Span>>` of `ParamSubst::result` rendered as an occurrence
counter `SRes` keeping the first error, exactly as the Rust code keeps the
first error and ignores later pushes.
-/

namespace EnumTrait

/-! ## Core AST

First-order rendering of the `syn` nodes visited by `ParamSubst`:
types (`Type::Path`, `Type::Tuple`), paths with optional qualified self
type and leading colon, generic arguments (lifetime / type / const), and
expressions (`Expr::Path`, `Expr::Call`, the `{ let id: ty = val; body }`
block produced by `visit_expr_mut`, binary `+`, literals). -/

mutual

inductive Ty where
  | pathN (p : Path)
  | pathQ (qself : Ty) (p : Path)
  | tup (elems : TyList)

inductive TyList where
  | nil
  | cons (hd : Ty) (tl : TyList)

inductive Path where
  | mk (leadingColon : Bool) (segs : SegList)

inductive SegList where
  | nil
  | cons (ident : String) (args : GArgList) (tl : SegList)

inductive GArgList where
  | nil
  | cons (hd : GArg) (tl : GArgList)

inductive GArg where
  | lt (name : String)
  | ty (t : Ty)
  | constE (e : Expr)

inductive Expr where
  | pathN (p : Path)
  | pathQ (qself : Ty) (p : Path)
  | call (fn : Expr) (args : ExprList)
  | letIn (name : String) (ty : Ty) (val : Expr) (body : Expr)
  | add (a b : Expr)
  | lit (n : Nat)

inductive ExprList where
  | nil
  | cons (hd : Expr) (tl : ExprList)

end

/-- `syn::GenericParam`: lifetime parameter with lifetime bounds, type
parameter with trait-bound paths, const parameter with a value type. -/
inductive GenParam where
  | ltP (name : String) (bounds : List String)
  | tyP (name : String) (bounds : List Path)
  | ctP (name : String) (ty : Ty)

/-- The name (`ident`) of a generic parameter. -/
def GenParam.pname : GenParam → String
  | .ltP n _ => n
  | .tyP n _ => n
  | .ctP n _ => n

/-- The kind of a generic parameter (lifetime / type / const). -/
inductive PKind where
  | lt
  | ty
  | ct
deriving DecidableEq

/-- Kind of a generic parameter. -/
def GenParam.pkind : GenParam → PKind
  | .ltP _ _ => .lt
  | .tyP _ _ => .ty
  | .ctP _ _ => .ct

/-- `ParamSubstArg`: test-only traversal, parameter argument, or concrete
generic argument. -/
inductive SubstArg where
  | testOnly
  | param (p : GenParam)
  | arg (g : GArg)

/-- `ParamSubst::result : Result<Vec<Span>>`, with the span list replaced
by its length: an occurrence counter, or the first recorded error. -/
inductive SRes where
  | ok (n : Nat)
  | err (msg : String)

/-- Record one occurrence (`result.push(span)` guarded by `is_ok`). -/
def SRes.pushOcc : SRes → SRes
  | .ok n => .ok (n + 1)
  | .err m => .err m

/-- Record an error only if no earlier error exists
(`if self.result.is_ok() { self.result = Err(..) }`). -/
def SRes.pushErr (m : String) : SRes → SRes
  | .ok _ => .err m
  | .err m0 => .err m0

/-- Add `k` occurrences at once (used to state test-only counting). -/
def SRes.addN (s : SRes) (k : Nat) : SRes :=
  match s with
  | .ok n => .ok (n + k)
  | .err m => .err m

/-- `ParamSubstArg::get_lifetime` (spans dropped). -/
def getLifetime : SubstArg → Except String (Option String)
  | .testOnly => .ok none
  | .param q =>
    match q with
    | .ltP n _ => .ok (some n)
    | _ => .error "non-lifetime arg for lifetime param"
  | .arg g =>
    match g with
    | .lt n => .ok (some n)
    | _ => .error "non-lifetime arg for lifetime param"

/-- A path consisting of exactly one plain segment with the given ident
(`syn::Path::is_ident`): no leading colon, one segment, no arguments. -/
def pathIsIdent (n : String) : Path → Bool
  | .mk lead segs =>
    match lead, segs with
    | false, .cons id .nil .nil => id = n
    | _, _ => false

/-- A path made of a single plain segment naming `n`. -/
def identPath (n : String) : Path := .mk false (.cons n .nil .nil)

/-- `ParamSubstArg::get_expr` (spans dropped): a const parameter argument
becomes a one-segment path expression. -/
def getExpr : SubstArg → Except String (Option Expr)
  | .testOnly => .ok none
  | .param q =>
    match q with
    | .ctP n _ => .ok (some (.pathN (identPath n)))
    | _ => .error "non-const arg for const param"
  | .arg g =>
    match g with
    | .constE e => .ok (some e)
    | _ => .error "non-const arg for const param"

/-- `ParamSubstArg::get_type` (spans dropped): a type parameter argument
becomes a one-segment path type. -/
def getType : SubstArg → Except String (Option Ty)
  | .testOnly => .ok none
  | .param q =>
    match q with
    | .tyP n _ => .ok (some (.pathN (identPath n)))
    | _ => .error "non-type arg for type param"
  | .arg g =>
    match g with
    | .ty t => .ok (some t)
    | _ => .error "non-type arg for type param"

/-- `ParamSubst::substituted`: on a successful argument record the
occurrence and return it; on a kind error keep the first error. -/
def applySub {α : Type} (s : SRes) (g : Except String (Option α)) :
    SRes × Option α :=
  match g with
  | .ok o => (s.pushOcc, o)
  | .error m => (s.pushErr m, none)

/-- Modelled from the spec: `type_is_ident` (helpers.rs, not under src/):
the type is exactly a bare one-segment path naming the ident, as pinned by
the unit tests in subst.rs (`A` matches; `::A`, `A::C`, `<A>::C` do not). -/
def typeIsIdent (n : String) : Ty → Bool
  | .pathN p => pathIsIdent n p
  | _ => false

/-- Whether the parameter is a type parameter whose ident the type is
(`visit_type_mut`'s guard). -/
def tyHeadMatch (p : GenParam) (t : Ty) : Bool :=
  match p with
  | .tyP n _ => typeIsIdent n t
  | _ => false

/-! ## The substitution visitor

`substTy` / `substExpr` / … are `ParamSubst`'s overridden `visit_*_mut`
methods together with the default `syn::visit_mut` traversal of the
embedded node kinds, threading the `result` state.  `substInPath` is
`ParamSubst::subst_in_path` for a path without qualified self type; it
returns `none` when the path is not handled (the Rust function returns
`false`) and otherwise the new state plus the optional new qualified self
type and the rewritten path. -/

def substInPath (p : GenParam) (a : SubstArg) (s : SRes) :
    Path → Option (SRes × Option Ty × Path)
  | .mk lead segs =>
    match p with
    | .tyP pn _ =>
      match lead, segs with
      | false, .cons id args tl =>
        match args with
        | .nil =>
          if id = pn then
            some (match a with
              | .testOnly => (s.pushOcc, none, Path.mk false (.cons id args tl))
              | .param q =>
                match q with
                | .tyP qn _ =>
                  ((s.pushOcc : SRes), none, Path.mk false (.cons qn .nil tl))
                | _ =>
                  ((s.pushErr "non-type arg for type param").pushOcc, none,
                    Path.mk false (.cons id args tl))
              | .arg g =>
                match g with
                | .ty t2 =>
                  let s1 := match tl with
                    | .nil => SRes.err "cannot replace single-segment path with type arg"
                    | .cons _ _ _ => s
                  (s1.pushOcc, some t2, Path.mk true tl)
                | _ =>
                  ((s.pushErr "non-type arg for type param").pushOcc, none,
                    Path.mk false (.cons id args tl)))
          else none
        | .cons _ _ => none
      | _, _ => none
    | _ => none

/-- The wrapping branch of `visit_expr_mut` for a const parameter at a
non-path expression with a real argument: bind the parameter's name to
the argument in a `let` block around the untouched expression.  Returns
`none` when that branch does not apply (non-const parameter, or
test-only mode). -/
def constWrap (p : GenParam) (a : SubstArg) (s : SRes) (e : Expr) :
    Option (SRes × Expr) :=
  match p with
  | .ctP pn pty =>
    match a with
    | .testOnly => none
    | _ =>
      some (match getExpr a with
        | .ok (some ae) => (s.pushOcc, .letIn pn pty ae e)
        | .ok none => (s.pushOcc, e)
        | .error m => (s.pushErr m, e))
  | _ => none

mutual

/-- `visit_type_mut`: whole-type replacement at `type_is_ident` sites
(which are exactly the bare one-segment paths, so the check is folded
into the path case), otherwise `visit_type_path_mut` (`subst_in_path`,
then the default traversal) or the tuple traversal. -/
def substTy (p : GenParam) (a : SubstArg) (s : SRes) : Ty → SRes × Ty
  | .pathN pth =>
    if tyHeadMatch p (.pathN pth) then
      let (s', o) := applySub s (getType a)
      (s', o.getD (.pathN pth))
    else
      match substInPath p a s pth with
      | some (s', oq, pth') =>
        match oq with
        | none => (s', .pathN pth')
        | some q => (s', .pathQ q pth')
      | none =>
        let (s', pth') := substPathArgs p a s pth
        (s', .pathN pth')
  | .pathQ q pth =>
    let (s1, q') := substTy p a s q
    let (s2, pth') := substPathArgs p a s1 pth
    (s2, .pathQ q' pth')
  | .tup es =>
    let (s', es') := substTyList p a s es
    (s', .tup es')

/-- Default traversal of a type list (tuple elements). -/
def substTyList (p : GenParam) (a : SubstArg) (s : SRes) :
    TyList → SRes × TyList
  | .nil => (s, .nil)
  | .cons t tl =>
    let (s1, t') := substTy p a s t
    let (s2, tl') := substTyList p a s1 tl
    (s2, .cons t' tl')

/-- Default `visit_path_mut`: visit every segment's arguments.  This is
the traversal used for plain paths (for example trait-bound paths), which
do not go through `subst_in_path`. -/
def substPathArgs (p : GenParam) (a : SubstArg) (s : SRes) :
    Path → SRes × Path
  | .mk lead segs =>
    let (s', segs') := substSegList p a s segs
    (s', .mk lead segs')

/-- Default traversal of path segments. -/
def substSegList (p : GenParam) (a : SubstArg) (s : SRes) :
    SegList → SRes × SegList
  | .nil => (s, .nil)
  | .cons id args tl =>
    let (s1, args') := substGArgList p a s args
    let (s2, tl') := substSegList p a s1 tl
    (s2, .cons id args' tl')

/-- Default traversal of a generic-argument list. -/
def substGArgList (p : GenParam) (a : SubstArg) (s : SRes) :
    GArgList → SRes × GArgList
  | .nil => (s, .nil)
  | .cons g tl =>
    let (s1, g') := substGArg p a s g
    let (s2, tl') := substGArgList p a s1 tl
    (s2, .cons g' tl')

/-- `visit_generic_argument_mut`: a type argument that is exactly a const
parameter's ident becomes a const argument; otherwise the default
dispatch on the argument kind. -/
def substGArg (p : GenParam) (a : SubstArg) (s : SRes) : GArg → SRes × GArg
  | .ty t =>
    match p with
    | .ctP pn _ =>
      if typeIsIdent pn t then
        let (s', o) := applySub s (getExpr a)
        match o with
        | some e => (s', .constE e)
        | none => (s', .ty t)
      else
        let (s', t') := substTy p a s t
        (s', .ty t')
    | _ =>
      let (s', t') := substTy p a s t
      (s', .ty t')
  | .lt l =>
    let (s', l') := substLifetime p a s l
    (s', .lt l')
  | .constE e =>
    let (s', e') := substExpr p a s e
    (s', .constE e')

/-- `visit_expr_mut`: for a const parameter, replace a bare ident path
expression, and wrap any other expression in a `let` block binding the
parameter's name to the argument (unless in test-only mode); for other
parameter kinds, `visit_expr_path_mut` (`subst_in_path` then default) or
the default child traversal. -/
def substExpr (p : GenParam) (a : SubstArg) (s : SRes) : Expr → SRes × Expr
  | .pathN pth =>
    match p with
    | .ctP pn _ =>
      if pathIsIdent pn pth then
        let (s', o) := applySub s (getExpr a)
        (s', o.getD (.pathN pth))
      else
        let (s', pth') := substPathArgs p a s pth
        (s', .pathN pth')
    | _ =>
      match substInPath p a s pth with
      | some (s', oq, pth') =>
        match oq with
        | none => (s', .pathN pth')
        | some q => (s', .pathQ q pth')
      | none =>
        let (s', pth') := substPathArgs p a s pth
        (s', .pathN pth')
  | .pathQ q pth =>
    let (s1, q') := substTy p a s q
    let (s2, pth') := substPathArgs p a s1 pth
    (s2, .pathQ q' pth')
  | .call fn args =>
    match constWrap p a s (.call fn args) with
    | some r => r
    | none =>
      let (s1, fn') := substExpr p a s fn
      let (s2, args') := substExprList p a s1 args
      (s2, .call fn' args')
  | .letIn n t v b =>
    match constWrap p a s (.letIn n t v b) with
    | some r => r
    | none =>
      let (s1, t') := substTy p a s t
      let (s2, v') := substExpr p a s1 v
      let (s3, b') := substExpr p a s2 b
      (s3, .letIn n t' v' b')
  | .add x y =>
    match constWrap p a s (.add x y) with
    | some r => r
    | none =>
      let (s1, x') := substExpr p a s x
      let (s2, y') := substExpr p a s1 y
      (s2, .add x' y')
  | .lit n =>
    match constWrap p a s (.lit n) with
    | some r => r
    | none => (s, .lit n)

/-- Default traversal of call arguments. -/
def substExprList (p : GenParam) (a : SubstArg) (s : SRes) :
    ExprList → SRes × ExprList
  | .nil => (s, .nil)
  | .cons e tl =>
    let (s1, e') := substExpr p a s e
    let (s2, tl') := substExprList p a s1 tl
    (s2, .cons e' tl')

/-- `visit_lifetime_mut` on a bare lifetime occurrence. -/
def substLifetime (p : GenParam) (a : SubstArg) (s : SRes) :
    String → SRes × String
  | l =>
    match p with
    | .ltP pn _ =>
      if l = pn then
        let (s', o) := applySub s (getLifetime a)
        (s', o.getD l)
      else (s, l)
    | _ => (s, l)

end

/-! ## Occurrence counting

`cnt*` computes, purely, the number of occurrences the test-only
traversal records (`Substitutable::get_param_references`, with spans
replaced by their count).  `inPathSite` is the guard of `subst_in_path`. -/

/-- The guard of `subst_in_path`: no qualified self type (callers check
this), no leading colon, type parameter, first segment argument-free and
named like the parameter. -/
def inPathSite : GenParam → Path → Bool
  | .tyP pn _, .mk false (.cons id .nil _) => id = pn
  | _, _ => false

mutual

/-- Occurrences of `p` recorded in a type by the test-only traversal. -/
def cntTy (p : GenParam) : Ty → Nat
  | .pathN pth =>
    if tyHeadMatch p (.pathN pth) then 1
    else if inPathSite p pth then 1
    else cntPath p pth
  | .pathQ q pth => cntTy p q + cntPath p pth
  | .tup es => cntTyList p es

/-- Occurrences in a type list. -/
def cntTyList (p : GenParam) : TyList → Nat
  | .nil => 0
  | .cons t tl => cntTy p t + cntTyList p tl

/-- Occurrences in the segments of a path (default traversal). -/
def cntPath (p : GenParam) : Path → Nat
  | .mk _ segs => cntSegList p segs

/-- Occurrences in a segment list. -/
def cntSegList (p : GenParam) : SegList → Nat
  | .nil => 0
  | .cons _ args tl => cntGArgList p args + cntSegList p tl

/-- Occurrences in a generic-argument list. -/
def cntGArgList (p : GenParam) : GArgList → Nat
  | .nil => 0
  | .cons g tl => cntGArg p g + cntGArgList p tl

/-- Occurrences in a generic argument. -/
def cntGArg (p : GenParam) : GArg → Nat
  | .ty t =>
    match p with
    | .ctP pn _ => if typeIsIdent pn t then 1 else cntTy p t
    | .ltP pn bs => cntTy (.ltP pn bs) t
    | .tyP pn bs => cntTy (.tyP pn bs) t
  | .lt l =>
    match p with
    | .ltP pn _ => if l = pn then 1 else 0
    | .tyP _ _ => 0
    | .ctP _ _ => 0
  | .constE e => cntExpr p e

/-- Occurrences in an expression. -/
def cntExpr (p : GenParam) : Expr → Nat
  | .pathN pth =>
    match p with
    | .ctP pn _ => if pathIsIdent pn pth then 1 else cntPath p pth
    | .ltP pn bs =>
      if inPathSite (.ltP pn bs) pth then 1 else cntPath (.ltP pn bs) pth
    | .tyP pn bs =>
      if inPathSite (.tyP pn bs) pth then 1 else cntPath (.tyP pn bs) pth
  | .pathQ q pth => cntTy p q + cntPath p pth
  | .call fn args => cntExpr p fn + cntExprList p args
  | .letIn _ t v b => cntTy p t + cntExpr p v + cntExpr p b
  | .add x y => cntExpr p x + cntExpr p y
  | .lit _ => 0

/-- Occurrences in an expression list. -/
def cntExprList (p : GenParam) : ExprList → Nat
  | .nil => 0
  | .cons e tl => cntExpr p e + cntExprList p tl

end

theorem SRes.addN_zero (s : SRes) : s.addN 0 = s := by
  cases s <;> rfl

theorem SRes.addN_one (s : SRes) : s.addN 1 = s.pushOcc := by
  cases s <;> rfl

theorem SRes.addN_addN (s : SRes) (a b : Nat) :
    (s.addN a).addN b = s.addN (a + b) := by
  cases s <;> simp [SRes.addN, Nat.add_assoc]

/-- `subst_in_path` does not apply when its guard fails, in any mode. -/
theorem substInPath_not_site (p : GenParam) (a : SubstArg) (s : SRes)
    (pth : Path) (h : inPathSite p pth = false) :
    substInPath p a s pth = none := by
  rcases pth with ⟨lead, segs⟩
  cases p <;> simp only [substInPath]
  cases lead
  · cases segs with
    | nil => rfl
    | cons id args tl =>
      cases args with
      | nil =>
        have h' := of_decide_eq_false (by simpa [inPathSite] using h)
        simp [h']
      | cons g gtl => rfl
  · rfl

/-- `subst_in_path` in test-only mode at an applicable site records one
occurrence and leaves the path unchanged. -/
theorem substInPath_testOnly_site (p : GenParam) (s : SRes) (pth : Path)
    (h : inPathSite p pth = true) :
    substInPath p .testOnly s pth = some (s.pushOcc, none, pth) := by
  rcases pth with ⟨lead, segs⟩
  cases p with
  | ltP n bs => simp [inPathSite] at h
  | ctP n t => simp [inPathSite] at h
  | tyP pn bs =>
    cases lead
    · cases segs with
      | nil => simp [inPathSite] at h
      | cons id args tl =>
        cases args with
        | nil =>
          simp only [inPathSite, decide_eq_true_eq] at h
          simp [substInPath, h]
        | cons g gtl => simp [inPathSite] at h
    · simp [inPathSite] at h

set_option maxHeartbeats 1000000 in
/-- Joint statement, by induction on node size: the test-only traversal
(`ParamSubstArg::TestOnly`) never rewrites anything and records exactly
the occurrence count `cnt*`. -/
theorem testOnly_bundle (p : GenParam) : ∀ (n : Nat),
    (∀ t : Ty, sizeOf t < n → ∀ s,
      substTy p .testOnly s t = (s.addN (cntTy p t), t))
    ∧ (∀ ts : TyList, sizeOf ts < n → ∀ s,
      substTyList p .testOnly s ts = (s.addN (cntTyList p ts), ts))
    ∧ (∀ pth : Path, sizeOf pth < n → ∀ s,
      substPathArgs p .testOnly s pth = (s.addN (cntPath p pth), pth))
    ∧ (∀ segs : SegList, sizeOf segs < n → ∀ s,
      substSegList p .testOnly s segs = (s.addN (cntSegList p segs), segs))
    ∧ (∀ gs : GArgList, sizeOf gs < n → ∀ s,
      substGArgList p .testOnly s gs = (s.addN (cntGArgList p gs), gs))
    ∧ (∀ g : GArg, sizeOf g < n → ∀ s,
      substGArg p .testOnly s g = (s.addN (cntGArg p g), g))
    ∧ (∀ e : Expr, sizeOf e < n → ∀ s,
      substExpr p .testOnly s e = (s.addN (cntExpr p e), e))
    ∧ (∀ es : ExprList, sizeOf es < n → ∀ s,
      substExprList p .testOnly s es = (s.addN (cntExprList p es), es)) := by
  intro n
  induction n with
  | zero =>
    exact ⟨fun x hx => absurd hx (by omega), fun x hx => absurd hx (by omega),
      fun x hx => absurd hx (by omega), fun x hx => absurd hx (by omega),
      fun x hx => absurd hx (by omega), fun x hx => absurd hx (by omega),
      fun x hx => absurd hx (by omega), fun x hx => absurd hx (by omega)⟩
  | succ n ih =>
    obtain ⟨ihTy, ihTL, ihP, ihSL, ihGL, ihG, ihE, ihEL⟩ := ih
    have hTy : ∀ t : Ty, sizeOf t < n + 1 → ∀ s,
        substTy p .testOnly s t = (s.addN (cntTy p t), t) := by
      intro t hx s
      cases t with
      | pathN pth =>
        by_cases h1 : tyHeadMatch p (.pathN pth) = true
        · simp [substTy, cntTy, h1, applySub, getType, SRes.addN_one]
        · rw [Bool.not_eq_true] at h1
          by_cases h2 : inPathSite p pth = true
          · simp [substTy, cntTy, h1, h2, substInPath_testOnly_site p s pth h2,
              SRes.addN_one]
          · rw [Bool.not_eq_true] at h2
            have hp : sizeOf pth < n := by simp at hx; omega
            simp [substTy, cntTy, h1, h2, substInPath_not_site p _ s pth h2,
              ihP pth hp]
      | pathQ q pth =>
        have hq : sizeOf q < n := by simp at hx; omega
        have hp : sizeOf pth < n := by simp at hx; omega
        simp [substTy, cntTy, ihTy q hq, ihP pth hp,
          SRes.addN_addN]
      | tup es =>
        have he : sizeOf es < n := by simp at hx; omega
        simp [substTy, cntTy, ihTL es he]
    have hTL : ∀ ts : TyList, sizeOf ts < n + 1 → ∀ s,
        substTyList p .testOnly s ts = (s.addN (cntTyList p ts), ts) := by
      intro ts hx s
      cases ts with
      | nil => simp [substTyList, cntTyList, SRes.addN_zero]
      | cons t tl =>
        have h1 : sizeOf t < n := by simp at hx; omega
        have h2 : sizeOf tl < n := by simp at hx; omega
        simp [substTyList, cntTyList, ihTy t h1, ihTL tl h2,
          SRes.addN_addN]
    have hP : ∀ pth : Path, sizeOf pth < n + 1 → ∀ s,
        substPathArgs p .testOnly s pth = (s.addN (cntPath p pth), pth) := by
      intro pth hx s
      rcases pth with ⟨lead, segs⟩
      have h1 : sizeOf segs < n := by simp at hx; cases lead <;> omega
      simp [substPathArgs, cntPath, ihSL segs h1]
    have hSL : ∀ segs : SegList, sizeOf segs < n + 1 → ∀ s,
        substSegList p .testOnly s segs = (s.addN (cntSegList p segs), segs) := by
      intro segs hx s
      cases segs with
      | nil => simp [substSegList, cntSegList, SRes.addN_zero]
      | cons id args tl =>
        have h1 : sizeOf args < n := by simp at hx; omega
        have h2 : sizeOf tl < n := by simp at hx; omega
        simp [substSegList, cntSegList, ihGL args h1,
          ihSL tl h2, SRes.addN_addN]
    have hGL : ∀ gs : GArgList, sizeOf gs < n + 1 → ∀ s,
        substGArgList p .testOnly s gs = (s.addN (cntGArgList p gs), gs) := by
      intro gs hx s
      cases gs with
      | nil => simp [substGArgList, cntGArgList, SRes.addN_zero]
      | cons g tl =>
        have h1 : sizeOf g < n := by simp at hx; omega
        have h2 : sizeOf tl < n := by simp at hx; omega
        simp [substGArgList, cntGArgList, ihG g h1,
          ihGL tl h2, SRes.addN_addN]
    have hG : ∀ g : GArg, sizeOf g < n + 1 → ∀ s,
        substGArg p .testOnly s g = (s.addN (cntGArg p g), g) := by
      intro g hx s
      cases g with
      | ty t =>
        have h1 : sizeOf t < n := by simp at hx; omega
        cases p with
        | ctP pn pty =>
          by_cases h : typeIsIdent pn t = true
          · simp [substGArg, cntGArg, h, applySub, getExpr, SRes.addN_one]
          · rw [Bool.not_eq_true] at h
            simp [substGArg, cntGArg, h, ihTy t h1]
        | ltP pn bs => simp [substGArg, cntGArg, ihTy t h1]
        | tyP pn bs => simp [substGArg, cntGArg, ihTy t h1]
      | lt l =>
        cases p with
        | ltP pn bs =>
          by_cases h : l = pn
          · simp [substGArg, cntGArg, substLifetime, h, applySub, getLifetime,
              SRes.addN_one]
          · simp [substGArg, cntGArg, substLifetime, h, SRes.addN_zero]
        | tyP pn bs => simp [substGArg, cntGArg, substLifetime, SRes.addN_zero]
        | ctP pn pty => simp [substGArg, cntGArg, substLifetime, SRes.addN_zero]
      | constE e =>
        have h1 : sizeOf e < n := by simp at hx; omega
        simp [substGArg, cntGArg, ihE e h1]
    have hE : ∀ e : Expr, sizeOf e < n + 1 → ∀ s,
        substExpr p .testOnly s e = (s.addN (cntExpr p e), e) := by
      intro e hx s
      cases e with
      | pathN pth =>
        have h1 : sizeOf pth < n := by simp at hx; omega
        cases p with
        | ctP pn pty =>
          by_cases h : pathIsIdent pn pth = true
          · simp [substExpr, cntExpr, h, applySub, getExpr, SRes.addN_one]
          · rw [Bool.not_eq_true] at h
            simp [substExpr, cntExpr, h, ihP pth h1]
        | ltP pn bs =>
          have h2 : inPathSite (.ltP pn bs) pth = false := by
            rcases pth with ⟨lead, segs⟩; rfl
          simp [substExpr, cntExpr, h2, substInPath_not_site _ _ s pth h2,
            ihP pth h1]
        | tyP pn bs =>
          by_cases h2 : inPathSite (.tyP pn bs) pth = true
          · simp [substExpr, cntExpr, h2, substInPath_testOnly_site _ s pth h2,
              SRes.addN_one]
          · rw [Bool.not_eq_true] at h2
            simp [substExpr, cntExpr, h2, substInPath_not_site _ _ s pth h2,
              ihP pth h1]
      | pathQ q pth =>
        have h1 : sizeOf q < n := by simp at hx; omega
        have h2 : sizeOf pth < n := by simp at hx; omega
        cases p with
        | ctP pn pty =>
          simp [substExpr, cntExpr, ihTy q h1, ihP pth h2,
            SRes.addN_addN]
        | ltP pn bs =>
          simp [substExpr, cntExpr, ihTy q h1, ihP pth h2,
            SRes.addN_addN]
        | tyP pn bs =>
          simp [substExpr, cntExpr, ihTy q h1, ihP pth h2,
            SRes.addN_addN]
      | call fn args =>
        have h1 : sizeOf fn < n := by simp at hx; omega
        have h2 : sizeOf args < n := by simp at hx; omega
        have hw : constWrap p .testOnly s (.call fn args) = none := by
          cases p <;> rfl
        simp [substExpr, cntExpr, hw, ihE fn h1,
          ihEL args h2, SRes.addN_addN]
      | letIn nm t v b =>
        have h1 : sizeOf t < n := by simp at hx; omega
        have h2 : sizeOf v < n := by simp at hx; omega
        have h3 : sizeOf b < n := by simp at hx; omega
        have hw : constWrap p .testOnly s (.letIn nm t v b) = none := by
          cases p <;> rfl
        simp [substExpr, cntExpr, hw, ihTy t h1, ihE v h2,
          ihE b h3, SRes.addN_addN]
      | add x y =>
        have h1 : sizeOf x < n := by simp at hx; omega
        have h2 : sizeOf y < n := by simp at hx; omega
        have hw : constWrap p .testOnly s (.add x y) = none := by
          cases p <;> rfl
        simp [substExpr, cntExpr, hw, ihE x h1, ihE y h2,
          SRes.addN_addN]
      | lit k =>
        have hw : constWrap p .testOnly s (.lit k) = none := by
          cases p <;> rfl
        simp [substExpr, cntExpr, hw, SRes.addN_zero]
    have hEL : ∀ es : ExprList, sizeOf es < n + 1 → ∀ s,
        substExprList p .testOnly s es = (s.addN (cntExprList p es), es) := by
      intro es hx s
      cases es with
      | nil => simp [substExprList, cntExprList, SRes.addN_zero]
      | cons e tl =>
        have h1 : sizeOf e < n := by simp at hx; omega
        have h2 : sizeOf tl < n := by simp at hx; omega
        simp [substExprList, cntExprList, ihE e h1,
          ihEL tl h2, SRes.addN_addN]
    exact ⟨hTy, hTL, hP, hSL, hGL, hG, hE, hEL⟩

/-- The test-only traversal of a type: no rewriting, occurrences counted
(`get_param_references` on a `Type`). -/
theorem substTy_testOnly (p : GenParam) (t : Ty) (s : SRes) :
    substTy p .testOnly s t = (s.addN (cntTy p t), t) :=
  (testOnly_bundle p (sizeOf t + 1)).1 t (by omega) s

/-- The test-only traversal of an expression: no rewriting, occurrences
counted (`get_param_references` on an `Expr`). -/
theorem substExpr_testOnly (p : GenParam) (e : Expr) (s : SRes) :
    substExpr p .testOnly s e = (s.addN (cntExpr p e), e) :=
  (testOnly_bundle p (sizeOf e + 1)).2.2.2.2.2.2.1 e (by omega) s

/-- The test-only traversal of a generic argument. -/
theorem substGArg_testOnly (p : GenParam) (g : GArg) (s : SRes) :
    substGArg p .testOnly s g = (s.addN (cntGArg p g), g) :=
  (testOnly_bundle p (sizeOf g + 1)).2.2.2.2.2.1 g (by omega) s

/-- The test-only traversal of a plain path. -/
theorem substPathArgs_testOnly (p : GenParam) (pth : Path) (s : SRes) :
    substPathArgs p .testOnly s pth = (s.addN (cntPath p pth), pth) :=
  (testOnly_bundle p (sizeOf pth + 1)).2.2.1 pth (by omega) s

/-- The test-only traversal of a type list. -/
theorem substTyList_testOnly (p : GenParam) (ts : TyList) (s : SRes) :
    substTyList p .testOnly s ts = (s.addN (cntTyList p ts), ts) :=
  (testOnly_bundle p (sizeOf ts + 1)).2.1 ts (by omega) s

/-! ## No-occurrence substitution is the identity (non-const parameters) -/

theorem SRes.pushOcc_pushErr (m : String) (s : SRes) :
    (s.pushErr m).pushOcc = s.pushErr m := by
  cases s <;> rfl

set_option maxHeartbeats 1000000 in
/-- Joint statement: for a lifetime or type parameter, a node with no
recorded occurrence is left untouched and the state is unchanged, in any
argument mode. -/
theorem noOcc_bundle (p : GenParam) (a : SubstArg) (hk : p.pkind ≠ .ct) :
    ∀ (n : Nat),
    (∀ t : Ty, sizeOf t < n → cntTy p t = 0 → ∀ s, substTy p a s t = (s, t))
    ∧ (∀ ts : TyList, sizeOf ts < n → cntTyList p ts = 0 → ∀ s,
      substTyList p a s ts = (s, ts))
    ∧ (∀ pth : Path, sizeOf pth < n → cntPath p pth = 0 → ∀ s,
      substPathArgs p a s pth = (s, pth))
    ∧ (∀ segs : SegList, sizeOf segs < n → cntSegList p segs = 0 → ∀ s,
      substSegList p a s segs = (s, segs))
    ∧ (∀ gs : GArgList, sizeOf gs < n → cntGArgList p gs = 0 → ∀ s,
      substGArgList p a s gs = (s, gs))
    ∧ (∀ g : GArg, sizeOf g < n → cntGArg p g = 0 → ∀ s,
      substGArg p a s g = (s, g))
    ∧ (∀ e : Expr, sizeOf e < n → cntExpr p e = 0 → ∀ s,
      substExpr p a s e = (s, e))
    ∧ (∀ es : ExprList, sizeOf es < n → cntExprList p es = 0 → ∀ s,
      substExprList p a s es = (s, es)) := by
  intro n
  induction n with
  | zero =>
    exact ⟨fun x hx => absurd hx (by omega), fun x hx => absurd hx (by omega),
      fun x hx => absurd hx (by omega), fun x hx => absurd hx (by omega),
      fun x hx => absurd hx (by omega), fun x hx => absurd hx (by omega),
      fun x hx => absurd hx (by omega), fun x hx => absurd hx (by omega)⟩
  | succ n ih =>
    obtain ⟨ihTy, ihTL, ihP, ihSL, ihGL, ihG, ihE, ihEL⟩ := ih
    have hTy : ∀ t : Ty, sizeOf t < n + 1 → cntTy p t = 0 → ∀ s,
        substTy p a s t = (s, t) := by
      intro t hx hc s
      cases t with
      | pathN pth =>
        have h1 : tyHeadMatch p (.pathN pth) = false := by
          by_contra hcon
          rw [Bool.not_eq_false] at hcon
          simp [cntTy, hcon] at hc
        have h2 : inPathSite p pth = false := by
          by_contra hcon
          rw [Bool.not_eq_false] at hcon
          simp [cntTy, h1, hcon] at hc
        have hc' : cntPath p pth = 0 := by simpa [cntTy, h1, h2] using hc
        have hp : sizeOf pth < n := by simp at hx; omega
        simp [substTy, h1, substInPath_not_site p a s pth h2, ihP pth hp hc']
      | pathQ q pth =>
        have hq : sizeOf q < n := by simp at hx; omega
        have hp : sizeOf pth < n := by simp at hx; omega
        have hc1 : cntTy p q = 0 := by simp [cntTy] at hc; omega
        have hc2 : cntPath p pth = 0 := by simp [cntTy] at hc; omega
        simp [substTy, ihTy q hq hc1, ihP pth hp hc2]
      | tup es =>
        have he : sizeOf es < n := by simp at hx; omega
        have hc1 : cntTyList p es = 0 := by simpa [cntTy] using hc
        simp [substTy, ihTL es he hc1]
    have hTL : ∀ ts : TyList, sizeOf ts < n + 1 → cntTyList p ts = 0 → ∀ s,
        substTyList p a s ts = (s, ts) := by
      intro ts hx hc s
      cases ts with
      | nil => simp [substTyList]
      | cons t tl =>
        have h1 : sizeOf t < n := by simp at hx; omega
        have h2 : sizeOf tl < n := by simp at hx; omega
        have hc1 : cntTy p t = 0 := by simp [cntTyList] at hc; omega
        have hc2 : cntTyList p tl = 0 := by simp [cntTyList] at hc; omega
        simp [substTyList, ihTy t h1 hc1, ihTL tl h2 hc2]
    have hP : ∀ pth : Path, sizeOf pth < n + 1 → cntPath p pth = 0 → ∀ s,
        substPathArgs p a s pth = (s, pth) := by
      intro pth hx hc s
      rcases pth with ⟨lead, segs⟩
      have h1 : sizeOf segs < n := by simp at hx; cases lead <;> omega
      have hc1 : cntSegList p segs = 0 := by simpa [cntPath] using hc
      simp [substPathArgs, ihSL segs h1 hc1]
    have hSL : ∀ segs : SegList, sizeOf segs < n + 1 → cntSegList p segs = 0 →
        ∀ s, substSegList p a s segs = (s, segs) := by
      intro segs hx hc s
      cases segs with
      | nil => simp [substSegList]
      | cons id args tl =>
        have h1 : sizeOf args < n := by simp at hx; omega
        have h2 : sizeOf tl < n := by simp at hx; omega
        have hc1 : cntGArgList p args = 0 := by simp [cntSegList] at hc; omega
        have hc2 : cntSegList p tl = 0 := by simp [cntSegList] at hc; omega
        simp [substSegList, ihGL args h1 hc1, ihSL tl h2 hc2]
    have hGL : ∀ gs : GArgList, sizeOf gs < n + 1 → cntGArgList p gs = 0 →
        ∀ s, substGArgList p a s gs = (s, gs) := by
      intro gs hx hc s
      cases gs with
      | nil => simp [substGArgList]
      | cons g tl =>
        have h1 : sizeOf g < n := by simp at hx; omega
        have h2 : sizeOf tl < n := by simp at hx; omega
        have hc1 : cntGArg p g = 0 := by simp [cntGArgList] at hc; omega
        have hc2 : cntGArgList p tl = 0 := by simp [cntGArgList] at hc; omega
        simp [substGArgList, ihG g h1 hc1, ihGL tl h2 hc2]
    have hG : ∀ g : GArg, sizeOf g < n + 1 → cntGArg p g = 0 → ∀ s,
        substGArg p a s g = (s, g) := by
      intro g hx hc s
      cases g with
      | ty t =>
        have h1 : sizeOf t < n := by simp at hx; omega
        cases p with
        | ctP pn pty => exact absurd rfl hk
        | ltP pn bs =>
          have hc1 : cntTy (.ltP pn bs) t = 0 := by simpa [cntGArg] using hc
          simp [substGArg, ihTy t h1 hc1]
        | tyP pn bs =>
          have hc1 : cntTy (.tyP pn bs) t = 0 := by simpa [cntGArg] using hc
          simp [substGArg, ihTy t h1 hc1]
      | lt l =>
        cases p with
        | ctP pn pty => exact absurd rfl hk
        | ltP pn bs =>
          have hne : ¬ l = pn := by
            intro hcon
            simp [cntGArg, hcon] at hc
          simp [substGArg, substLifetime, hne]
        | tyP pn bs => simp [substGArg, substLifetime]
      | constE e =>
        have h1 : sizeOf e < n := by simp at hx; omega
        have hc1 : cntExpr p e = 0 := by simpa [cntGArg] using hc
        simp [substGArg, ihE e h1 hc1]
    have hE : ∀ e : Expr, sizeOf e < n + 1 → cntExpr p e = 0 → ∀ s,
        substExpr p a s e = (s, e) := by
      intro e hx hc s
      have hwAll : ∀ e0 : Expr, constWrap p a s e0 = none := by
        intro e0
        cases p with
        | ctP pn pty => exact absurd rfl hk
        | ltP pn bs => rfl
        | tyP pn bs => rfl
      cases e with
      | pathN pth =>
        have h1 : sizeOf pth < n := by simp at hx; omega
        cases p with
        | ctP pn pty => exact absurd rfl hk
        | ltP pn bs =>
          have h2 : inPathSite (.ltP pn bs) pth = false := by
            rcases pth with ⟨lead, segs⟩; rfl
          have hc1 : cntPath (.ltP pn bs) pth = 0 := by
            simpa [cntExpr, h2] using hc
          simp [substExpr, substInPath_not_site _ a s pth h2, ihP pth h1 hc1]
        | tyP pn bs =>
          have h2 : inPathSite (.tyP pn bs) pth = false := by
            by_contra hcon
            rw [Bool.not_eq_false] at hcon
            simp [cntExpr, hcon] at hc
          have hc1 : cntPath (.tyP pn bs) pth = 0 := by
            simpa [cntExpr, h2] using hc
          simp [substExpr, substInPath_not_site _ a s pth h2, ihP pth h1 hc1]
      | pathQ q pth =>
        have h1 : sizeOf q < n := by simp at hx; omega
        have h2 : sizeOf pth < n := by simp at hx; omega
        have hc1 : cntTy p q = 0 := by simp [cntExpr] at hc; omega
        have hc2 : cntPath p pth = 0 := by simp [cntExpr] at hc; omega
        cases p with
        | ctP pn pty => exact absurd rfl hk
        | ltP pn bs => simp [substExpr, ihTy q h1 hc1, ihP pth h2 hc2]
        | tyP pn bs => simp [substExpr, ihTy q h1 hc1, ihP pth h2 hc2]
      | call fn args =>
        have h1 : sizeOf fn < n := by simp at hx; omega
        have h2 : sizeOf args < n := by simp at hx; omega
        have hc1 : cntExpr p fn = 0 := by simp [cntExpr] at hc; omega
        have hc2 : cntExprList p args = 0 := by simp [cntExpr] at hc; omega
        simp [substExpr, hwAll, ihE fn h1 hc1, ihEL args h2 hc2]
      | letIn nm t v b =>
        have h1 : sizeOf t < n := by simp at hx; omega
        have h2 : sizeOf v < n := by simp at hx; omega
        have h3 : sizeOf b < n := by simp at hx; omega
        have hc1 : cntTy p t = 0 := by simp [cntExpr] at hc; omega
        have hc2 : cntExpr p v = 0 := by simp [cntExpr] at hc; omega
        have hc3 : cntExpr p b = 0 := by simp [cntExpr] at hc; omega
        simp [substExpr, hwAll, ihTy t h1 hc1, ihE v h2 hc2, ihE b h3 hc3]
      | add x y =>
        have h1 : sizeOf x < n := by simp at hx; omega
        have h2 : sizeOf y < n := by simp at hx; omega
        have hc1 : cntExpr p x = 0 := by simp [cntExpr] at hc; omega
        have hc2 : cntExpr p y = 0 := by simp [cntExpr] at hc; omega
        simp [substExpr, hwAll, ihE x h1 hc1, ihE y h2 hc2]
      | lit k => simp [substExpr, hwAll]
    have hEL : ∀ es : ExprList, sizeOf es < n + 1 → cntExprList p es = 0 →
        ∀ s, substExprList p a s es = (s, es) := by
      intro es hx hc s
      cases es with
      | nil => simp [substExprList]
      | cons e tl =>
        have h1 : sizeOf e < n := by simp at hx; omega
        have h2 : sizeOf tl < n := by simp at hx; omega
        have hc1 : cntExpr p e = 0 := by simp [cntExprList] at hc; omega
        have hc2 : cntExprList p tl = 0 := by simp [cntExprList] at hc; omega
        simp [substExprList, ihE e h1 hc1, ihEL tl h2 hc2]
    exact ⟨hTy, hTL, hP, hSL, hGL, hG, hE, hEL⟩

/-- A lifetime or type parameter with no occurrence in a type: any
substitution is the identity and records nothing. -/
theorem substTy_noOcc (p : GenParam) (a : SubstArg) (hk : p.pkind ≠ .ct)
    (t : Ty) (hc : cntTy p t = 0) (s : SRes) : substTy p a s t = (s, t) :=
  (noOcc_bundle p a hk (sizeOf t + 1)).1 t (by omega) hc s

/-- A lifetime or type parameter with no occurrence in an expression: any
substitution is the identity and records nothing. -/
theorem substExpr_noOcc (p : GenParam) (a : SubstArg) (hk : p.pkind ≠ .ct)
    (e : Expr) (hc : cntExpr p e = 0) (s : SRes) : substExpr p a s e = (s, e) :=
  (noOcc_bundle p a hk (sizeOf e + 1)).2.2.2.2.2.2.1 e (by omega) hc s


/-! ## Kind mismatch: lifetime argument for a type parameter -/

/-- The state after a traversal that hits `c` type-parameter occurrence
sites with a lifetime argument: unchanged if no site, otherwise the first
kind error. -/
def SRes.kindErr (s : SRes) (c : Nat) : SRes :=
  if c = 0 then s else s.pushErr "non-type arg for type param"

theorem SRes.kindErr_zero (s : SRes) : s.kindErr 0 = s := by
  simp [SRes.kindErr]

theorem SRes.kindErr_comp (s : SRes) (c1 c2 : Nat) :
    (s.kindErr c1).kindErr c2 = s.kindErr (c1 + c2) := by
  rcases Nat.eq_zero_or_pos c1 with h1 | h1
  · simp [h1, SRes.kindErr]
  · rcases Nat.eq_zero_or_pos c2 with h2 | h2
    · simp [SRes.kindErr, h2, Nat.pos_iff_ne_zero.mp h1]
    · have hn1 : ¬ c1 = 0 := by omega
      have hn12 : ¬ c1 + c2 = 0 := by omega
      have hn2 : ¬ c2 = 0 := by omega
      simp [SRes.kindErr, hn1, hn12, hn2]
      cases s <;> rfl

set_option maxHeartbeats 1000000 in
/-- Joint statement: substituting a lifetime argument for a type
parameter leaves every node unchanged and turns the state into the first
`non-type arg for type param` error as soon as one occurrence site is
hit. -/
theorem kindErr_bundle (pn : String) (bs : List Path) (ln : String) :
    ∀ (n : Nat),
    (∀ t : Ty, sizeOf t < n → ∀ s,
      substTy (.tyP pn bs) (.arg (.lt ln)) s t = (s.kindErr (cntTy (.tyP pn bs) t), t))
    ∧ (∀ ts : TyList, sizeOf ts < n → ∀ s,
      substTyList (.tyP pn bs) (.arg (.lt ln)) s ts
        = (s.kindErr (cntTyList (.tyP pn bs) ts), ts))
    ∧ (∀ pth : Path, sizeOf pth < n → ∀ s,
      substPathArgs (.tyP pn bs) (.arg (.lt ln)) s pth
        = (s.kindErr (cntPath (.tyP pn bs) pth), pth))
    ∧ (∀ segs : SegList, sizeOf segs < n → ∀ s,
      substSegList (.tyP pn bs) (.arg (.lt ln)) s segs
        = (s.kindErr (cntSegList (.tyP pn bs) segs), segs))
    ∧ (∀ gs : GArgList, sizeOf gs < n → ∀ s,
      substGArgList (.tyP pn bs) (.arg (.lt ln)) s gs
        = (s.kindErr (cntGArgList (.tyP pn bs) gs), gs))
    ∧ (∀ g : GArg, sizeOf g < n → ∀ s,
      substGArg (.tyP pn bs) (.arg (.lt ln)) s g
        = (s.kindErr (cntGArg (.tyP pn bs) g), g))
    ∧ (∀ e : Expr, sizeOf e < n → ∀ s,
      substExpr (.tyP pn bs) (.arg (.lt ln)) s e
        = (s.kindErr (cntExpr (.tyP pn bs) e), e))
    ∧ (∀ es : ExprList, sizeOf es < n → ∀ s,
      substExprList (.tyP pn bs) (.arg (.lt ln)) s es
        = (s.kindErr (cntExprList (.tyP pn bs) es), es)) := by
  intro n
  induction n with
  | zero =>
    exact ⟨fun x hx => absurd hx (by omega), fun x hx => absurd hx (by omega),
      fun x hx => absurd hx (by omega), fun x hx => absurd hx (by omega),
      fun x hx => absurd hx (by omega), fun x hx => absurd hx (by omega),
      fun x hx => absurd hx (by omega), fun x hx => absurd hx (by omega)⟩
  | succ n ih =>
    obtain ⟨ihTy, ihTL, ihP, ihSL, ihGL, ihG, ihE, ihEL⟩ := ih
    have hsite : ∀ (s : SRes) (pth : Path),
        inPathSite (.tyP pn bs) pth = true →
        substInPath (.tyP pn bs) (.arg (.lt ln)) s pth
          = some (s.pushErr "non-type arg for type param", none, pth) := by
      intro s pth hp
      rcases pth with ⟨lead, segs⟩
      cases lead
      · cases segs with
        | nil => simp [inPathSite] at hp
        | cons id args tl =>
          cases args with
          | nil =>
            simp only [inPathSite, decide_eq_true_eq] at hp
            simp [substInPath, hp, SRes.pushOcc_pushErr]
          | cons g gtl => simp [inPathSite] at hp
      · simp [inPathSite] at hp
    have hTy : ∀ t : Ty, sizeOf t < n + 1 → ∀ s,
        substTy (.tyP pn bs) (.arg (.lt ln)) s t
          = (s.kindErr (cntTy (.tyP pn bs) t), t) := by
      intro t hx s
      cases t with
      | pathN pth =>
        by_cases h1 : tyHeadMatch (.tyP pn bs) (.pathN pth) = true
        · simp [substTy, cntTy, h1, applySub, getType, SRes.kindErr]
        · rw [Bool.not_eq_true] at h1
          by_cases h2 : inPathSite (.tyP pn bs) pth = true
          · simp [substTy, cntTy, h1, h2, hsite s pth h2, SRes.kindErr]
          · rw [Bool.not_eq_true] at h2
            have hp : sizeOf pth < n := by simp at hx; omega
            simp [substTy, cntTy, h1, h2,
              substInPath_not_site _ _ s pth h2, ihP pth hp]
      | pathQ q pth =>
        have hq : sizeOf q < n := by simp at hx; omega
        have hp : sizeOf pth < n := by simp at hx; omega
        simp [substTy, cntTy, ihTy q hq, ihP pth hp, SRes.kindErr_comp]
      | tup es =>
        have he : sizeOf es < n := by simp at hx; omega
        simp [substTy, cntTy, ihTL es he]
    have hTL : ∀ ts : TyList, sizeOf ts < n + 1 → ∀ s,
        substTyList (.tyP pn bs) (.arg (.lt ln)) s ts
          = (s.kindErr (cntTyList (.tyP pn bs) ts), ts) := by
      intro ts hx s
      cases ts with
      | nil => simp [substTyList, cntTyList, SRes.kindErr_zero]
      | cons t tl =>
        have h1 : sizeOf t < n := by simp at hx; omega
        have h2 : sizeOf tl < n := by simp at hx; omega
        simp [substTyList, cntTyList, ihTy t h1, ihTL tl h2, SRes.kindErr_comp]
    have hP : ∀ pth : Path, sizeOf pth < n + 1 → ∀ s,
        substPathArgs (.tyP pn bs) (.arg (.lt ln)) s pth
          = (s.kindErr (cntPath (.tyP pn bs) pth), pth) := by
      intro pth hx s
      rcases pth with ⟨lead, segs⟩
      have h1 : sizeOf segs < n := by simp at hx; cases lead <;> omega
      simp [substPathArgs, cntPath, ihSL segs h1]
    have hSL : ∀ segs : SegList, sizeOf segs < n + 1 → ∀ s,
        substSegList (.tyP pn bs) (.arg (.lt ln)) s segs
          = (s.kindErr (cntSegList (.tyP pn bs) segs), segs) := by
      intro segs hx s
      cases segs with
      | nil => simp [substSegList, cntSegList, SRes.kindErr_zero]
      | cons id args tl =>
        have h1 : sizeOf args < n := by simp at hx; omega
        have h2 : sizeOf tl < n := by simp at hx; omega
        simp [substSegList, cntSegList, ihGL args h1, ihSL tl h2,
          SRes.kindErr_comp]
    have hGL : ∀ gs : GArgList, sizeOf gs < n + 1 → ∀ s,
        substGArgList (.tyP pn bs) (.arg (.lt ln)) s gs
          = (s.kindErr (cntGArgList (.tyP pn bs) gs), gs) := by
      intro gs hx s
      cases gs with
      | nil => simp [substGArgList, cntGArgList, SRes.kindErr_zero]
      | cons g tl =>
        have h1 : sizeOf g < n := by simp at hx; omega
        have h2 : sizeOf tl < n := by simp at hx; omega
        simp [substGArgList, cntGArgList, ihG g h1, ihGL tl h2,
          SRes.kindErr_comp]
    have hG : ∀ g : GArg, sizeOf g < n + 1 → ∀ s,
        substGArg (.tyP pn bs) (.arg (.lt ln)) s g
          = (s.kindErr (cntGArg (.tyP pn bs) g), g) := by
      intro g hx s
      cases g with
      | ty t =>
        have h1 : sizeOf t < n := by simp at hx; omega
        simp [substGArg, cntGArg, ihTy t h1]
      | lt l => simp [substGArg, cntGArg, substLifetime, SRes.kindErr_zero]
      | constE e =>
        have h1 : sizeOf e < n := by simp at hx; omega
        simp [substGArg, cntGArg, ihE e h1]
    have hE : ∀ e : Expr, sizeOf e < n + 1 → ∀ s,
        substExpr (.tyP pn bs) (.arg (.lt ln)) s e
          = (s.kindErr (cntExpr (.tyP pn bs) e), e) := by
      intro e hx s
      cases e with
      | pathN pth =>
        have h1 : sizeOf pth < n := by simp at hx; omega
        by_cases h2 : inPathSite (.tyP pn bs) pth = true
        · simp [substExpr, cntExpr, h2, hsite s pth h2, SRes.kindErr]
        · rw [Bool.not_eq_true] at h2
          simp [substExpr, cntExpr, h2, substInPath_not_site _ _ s pth h2,
            ihP pth h1]
      | pathQ q pth =>
        have h1 : sizeOf q < n := by simp at hx; omega
        have h2 : sizeOf pth < n := by simp at hx; omega
        simp [substExpr, cntExpr, ihTy q h1, ihP pth h2, SRes.kindErr_comp]
      | call fn args =>
        have h1 : sizeOf fn < n := by simp at hx; omega
        have h2 : sizeOf args < n := by simp at hx; omega
        simp [substExpr, cntExpr, constWrap, ihE fn h1, ihEL args h2,
          SRes.kindErr_comp]
      | letIn nm t v b =>
        have h1 : sizeOf t < n := by simp at hx; omega
        have h2 : sizeOf v < n := by simp at hx; omega
        have h3 : sizeOf b < n := by simp at hx; omega
        simp [substExpr, cntExpr, constWrap, ihTy t h1, ihE v h2, ihE b h3,
          SRes.kindErr_comp]
      | add x y =>
        have h1 : sizeOf x < n := by simp at hx; omega
        have h2 : sizeOf y < n := by simp at hx; omega
        simp [substExpr, cntExpr, constWrap, ihE x h1, ihE y h2,
          SRes.kindErr_comp]
      | lit k => simp [substExpr, cntExpr, constWrap, SRes.kindErr_zero]
    have hEL : ∀ es : ExprList, sizeOf es < n + 1 → ∀ s,
        substExprList (.tyP pn bs) (.arg (.lt ln)) s es
          = (s.kindErr (cntExprList (.tyP pn bs) es), es) := by
      intro es hx s
      cases es with
      | nil => simp [substExprList, cntExprList, SRes.kindErr_zero]
      | cons e tl =>
        have h1 : sizeOf e < n := by simp at hx; omega
        have h2 : sizeOf tl < n := by simp at hx; omega
        simp [substExprList, cntExprList, ihE e h1, ihEL tl h2,
          SRes.kindErr_comp]
    exact ⟨hTy, hTL, hP, hSL, hGL, hG, hE, hEL⟩


/-! ## `Substitutable::substitute` and `references_param` wrappers -/

/-- `Substitutable::substitute` on a `Type`: run the visitor on a fresh
state and return whether any occurrence was recorded, or the first
error. -/
def substituteTy (p : GenParam) (a : SubstArg) (t : Ty) :
    Except String (Bool × Ty) :=
  match substTy p a (.ok 0) t with
  | (.ok n, t') => .ok (decide (n ≠ 0), t')
  | (.err m, _) => .error m

/-- `Substitutable::substitute` on an `Expr`. -/
def substituteExpr (p : GenParam) (a : SubstArg) (e : Expr) :
    Except String (Bool × Expr) :=
  match substExpr p a (.ok 0) e with
  | (.ok n, e') => .ok (decide (n ≠ 0), e')
  | (.err m, _) => .error m

/-- `Substitutable::substitute` on a `GenericArgument`. -/
def substituteGArg (p : GenParam) (a : SubstArg) (g : GArg) :
    Except String (Bool × GArg) :=
  match substGArg p a (.ok 0) g with
  | (.ok n, g') => .ok (decide (n ≠ 0), g')
  | (.err m, _) => .error m

/-- `Substitutable::get_param_references` on a `Type` (span count). -/
def getParamRefsTy (p : GenParam) (t : Ty) : Except String Nat :=
  match substTy p .testOnly (.ok 0) t with
  | (.ok n, _) => .ok n
  | (.err m, _) => .error m

/-- `Substitutable::references_param` on a `Type`. -/
def referencesParamTy (p : GenParam) (t : Ty) : Except String Bool :=
  match getParamRefsTy p t with
  | .ok n => .ok (decide (n ≠ 0))
  | .error m => .error m

/-- `Substitutable::get_param_references` on an `Expr`. -/
def getParamRefsExpr (p : GenParam) (e : Expr) : Except String Nat :=
  match substExpr p .testOnly (.ok 0) e with
  | (.ok n, _) => .ok n
  | (.err m, _) => .error m

/-- `Substitutable::references_param` on an `Expr`. -/
def referencesParamExpr (p : GenParam) (e : Expr) : Except String Bool :=
  match getParamRefsExpr p e with
  | .ok n => .ok (decide (n ≠ 0))
  | .error m => .error m

/-- `Substitutable::get_param_references` on a `GenericArgument`. -/
def getParamRefsGArg (p : GenParam) (g : GArg) : Except String Nat :=
  match substGArg p .testOnly (.ok 0) g with
  | (.ok n, _) => .ok n
  | (.err m, _) => .error m

/-- `Substitutable::references_param` on a `GenericArgument`. -/
def referencesParamGArg (p : GenParam) (g : GArg) : Except String Bool :=
  match getParamRefsGArg p g with
  | .ok n => .ok (decide (n ≠ 0))
  | .error m => .error m

/-- Occurrence detection on a type never fails and returns the count. -/
theorem getParamRefsTy_eq (p : GenParam) (t : Ty) :
    getParamRefsTy p t = .ok (cntTy p t) := by
  simp [getParamRefsTy, substTy_testOnly, SRes.addN]

/-- `references_param` on a type decides `cntTy ≠ 0`. -/
theorem referencesParamTy_eq (p : GenParam) (t : Ty) :
    referencesParamTy p t = .ok (decide (cntTy p t ≠ 0)) := by
  simp [referencesParamTy, getParamRefsTy_eq]

/-- Occurrence detection on an expression never fails. -/
theorem getParamRefsExpr_eq (p : GenParam) (e : Expr) :
    getParamRefsExpr p e = .ok (cntExpr p e) := by
  simp [getParamRefsExpr, substExpr_testOnly, SRes.addN]

/-- `references_param` on an expression decides `cntExpr ≠ 0`. -/
theorem referencesParamExpr_eq (p : GenParam) (e : Expr) :
    referencesParamExpr p e = .ok (decide (cntExpr p e ≠ 0)) := by
  simp [referencesParamExpr, getParamRefsExpr_eq]

/-- Occurrence detection on a generic argument never fails. -/
theorem getParamRefsGArg_eq (p : GenParam) (g : GArg) :
    getParamRefsGArg p g = .ok (cntGArg p g) := by
  simp [getParamRefsGArg, substGArg_testOnly, SRes.addN]

/-- `references_param` on a generic argument decides `cntGArg ≠ 0`. -/
theorem referencesParamGArg_eq (p : GenParam) (g : GArg) :
    referencesParamGArg p g = .ok (decide (cntGArg p g ≠ 0)) := by
  simp [referencesParamGArg, getParamRefsGArg_eq]


/-! ## Claim C2: zero-occurrence substitution -/

/-- Claim C2 as stated is false on the code: substituting const parameter
`A: T` (with argument parameter `X: T`) into `f(B)`, which contains no
occurrence of `A` (`references_param` reports `false`), does not leave the
node identical: `visit_expr_mut` unconditionally wraps the non-path
expression in `{ let A: T = X; f(B) }` and reports one occurrence, so
`substitute` returns `Ok(true)` with a rewritten node. -/
theorem claim_C2_counterexample :
    referencesParamExpr (.ctP "A" (.pathN (identPath "T")))
        (.call (.pathN (identPath "f")) (.cons (.pathN (identPath "B")) .nil))
      = .ok false
    ∧ substituteExpr (.ctP "A" (.pathN (identPath "T")))
        (.param (.ctP "X" (.pathN (identPath "T"))))
        (.call (.pathN (identPath "f")) (.cons (.pathN (identPath "B")) .nil))
      = .ok (true, .letIn "A" (.pathN (identPath "T")) (.pathN (identPath "X"))
          (.call (.pathN (identPath "f")) (.cons (.pathN (identPath "B")) .nil))) :=
  ⟨rfl, rfl⟩

/-- Claim C2, amended: for every type or expression node and every
lifetime- or type-kind parameter `P` the node does not reference
(`references_param` returns `Ok(false)`), `substitute` succeeds, reports
zero occurrences (returns `false`) and leaves the node token-for-token
identical; the absence of occurrences is never treated as an error.
(Const-kind parameters are excluded: with a real argument the engine
unconditionally rewrites non-path expression nodes into a binding block,
as the counterexample shows.) -/
theorem claim_C2 (p : GenParam) (a : SubstArg) (hk : p.pkind ≠ .ct) :
    (∀ t : Ty, referencesParamTy p t = .ok false →
      substituteTy p a t = .ok (false, t))
    ∧ (∀ e : Expr, referencesParamExpr p e = .ok false →
      substituteExpr p a e = .ok (false, e)) := by
  constructor
  · intro t hr
    rw [referencesParamTy_eq] at hr
    have hc : cntTy p t = 0 := by
      by_contra hcon
      simp [hcon] at hr
    simp [substituteTy, substTy_noOcc p a hk t hc]
  · intro e hr
    rw [referencesParamExpr_eq] at hr
    have hc : cntExpr p e = 0 := by
      by_contra hcon
      simp [hcon] at hr
    simp [substituteExpr, substExpr_noOcc p a hk e hc]

/-- Witness for the amended claim C2: substituting type parameter `A`
(with a tuple type argument) into type `B` and expression `g`, neither of
which references `A`, is a no-op returning `Ok(false)`. -/
theorem claim_C2_witness :
    substituteTy (.tyP "A" []) (.arg (.ty (.tup .nil))) (.pathN (identPath "B"))
      = .ok (false, .pathN (identPath "B"))
    ∧ substituteExpr (.tyP "A" []) (.arg (.ty (.tup .nil)))
        (.pathN (identPath "g")) = .ok (false, .pathN (identPath "g")) :=
  ⟨(claim_C2 (.tyP "A" []) (.arg (.ty (.tup .nil))) (by decide)).1
      (.pathN (identPath "B")) rfl,
    (claim_C2 (.tyP "A" []) (.arg (.ty (.tup .nil))) (by decide)).2
      (.pathN (identPath "g")) rfl⟩

/-! ## Claim C6: evaluation-once binding for const arguments -/

/-- Claim C6: substituting a concrete expression `ae` for const parameter
`P` (name `pn`, value type `pty`) at an occurrence position that is an
arbitrary expression (not a path expression) rewrites the expression into
the block `{ let pn: pty = ae; e }`: a local of the parameter's original
name and type bound once to the argument, followed by the otherwise
unchanged expression, so the argument appears exactly once no matter how
often `P` is used inside `e`. -/
theorem claim_C6 (pn : String) (pty : Ty) (ae : Expr) (k : Nat) :
    ∀ e : Expr, (∀ pth, e ≠ .pathN pth) → (∀ q pth, e ≠ .pathQ q pth) →
      substExpr (.ctP pn pty) (.arg (.constE ae)) (.ok k) e
        = (.ok (k + 1), .letIn pn pty ae e) := by
  intro e h1 h2
  cases e with
  | pathN pth => exact absurd rfl (h1 pth)
  | pathQ q pth => exact absurd rfl (h2 q pth)
  | call fn args => simp [substExpr, constWrap, getExpr, SRes.pushOcc]
  | letIn nm t v b => simp [substExpr, constWrap, getExpr, SRes.pushOcc]
  | add x y => simp [substExpr, constWrap, getExpr, SRes.pushOcc]
  | lit n => simp [substExpr, constWrap, getExpr, SRes.pushOcc]

/-- Witness for claim C6, mirroring the `expr_param_subst_op` unit test:
substituting `X + 42` for const parameter `A: T` in `f(A, B(A(C)))`
yields `{ let A: T = X + 42; f(A, B(A(C))) }` with one recorded
occurrence, not two inlined copies of `X + 42`. -/
theorem claim_C6_witness :
    substExpr (.ctP "A" (.pathN (identPath "T")))
        (.arg (.constE (.add (.pathN (identPath "X")) (.lit 42)))) (.ok 0)
        (.call (.pathN (identPath "f"))
          (.cons (.pathN (identPath "A"))
            (.cons (.call (.pathN (identPath "B"))
              (.cons (.call (.pathN (identPath "A"))
                (.cons (.pathN (identPath "C")) .nil)) .nil)) .nil)))
      = (.ok 1, .letIn "A" (.pathN (identPath "T"))
          (.add (.pathN (identPath "X")) (.lit 42))
          (.call (.pathN (identPath "f"))
            (.cons (.pathN (identPath "A"))
              (.cons (.call (.pathN (identPath "B"))
                (.cons (.call (.pathN (identPath "A"))
                  (.cons (.pathN (identPath "C")) .nil)) .nil)) .nil)))) :=
  claim_C6 "A" (.pathN (identPath "T"))
    (.add (.pathN (identPath "X")) (.lit 42)) 0
    (.call (.pathN (identPath "f"))
      (.cons (.pathN (identPath "A"))
        (.cons (.call (.pathN (identPath "B"))
          (.cons (.call (.pathN (identPath "A"))
            (.cons (.pathN (identPath "C")) .nil)) .nil)) .nil)))
    (fun pth h => by cases h) (fun q pth h => by cases h)

/-! ## Claim C7: qualified-path rewriting for concrete type arguments -/

/-- Claim C7: substituting a concrete type argument `t2` for type
parameter `P` occurring as the first segment of a multi-segment path
rewrites the path into an explicitly qualified path `<t2>::rest` whose
qualifying type is the argument and whose segments are the remaining
original segments, instead of textually replacing the first segment. -/
theorem claim_C7 (pn : String) (bs : List Path) (t2 : Ty) (rest : SegList)
    (hne : rest ≠ .nil) (k : Nat) :
    substTy (.tyP pn bs) (.arg (.ty t2)) (.ok k)
        (.pathN (.mk false (.cons pn .nil rest)))
      = (.ok (k + 1), .pathQ t2 (.mk true rest)) := by
  cases rest with
  | nil => exact absurd rfl hne
  | cons id2 args2 tl2 =>
    have hh : tyHeadMatch (.tyP pn bs)
        (.pathN (.mk false (.cons pn .nil (.cons id2 args2 tl2)))) = false := by
      simp [tyHeadMatch, typeIsIdent, pathIsIdent]
    simp [substTy, hh, substInPath, SRes.pushOcc]

/-- Witness for claim C7, mirroring the `type_param_subst_tuple` unit
test: substituting tuple type `(X, Y)` for `A` in `A::C` yields
`<(X, Y)>::C`. -/
theorem claim_C7_witness :
    substTy (.tyP "A" []) (.arg (.ty (.tup (.cons (.pathN (identPath "X"))
        (.cons (.pathN (identPath "Y")) .nil))))) (.ok 0)
        (.pathN (.mk false (.cons "A" .nil (.cons "C" .nil .nil))))
      = (.ok 1, .pathQ (.tup (.cons (.pathN (identPath "X"))
          (.cons (.pathN (identPath "Y")) .nil)))
          (.mk true (.cons "C" .nil .nil))) :=
  claim_C7 "A" [] (.tup (.cons (.pathN (identPath "X"))
    (.cons (.pathN (identPath "Y")) .nil))) (.cons "C" .nil .nil)
    (by intro h; cases h) 0

/-! ## Claim C10: single-segment path with a concrete type argument -/

/-- Claim C10: when a type-kind parameter occurs as a complete
single-segment path (no qualified self type, no leading colon, no further
segments) in a path position handled by `subst_in_path` — here, a path
expression — substituting a concrete type argument fails with the error
`cannot replace single-segment path with type arg`. -/
theorem claim_C10 (pn : String) (bs : List Path) (t2 : Ty) :
    substituteExpr (.tyP pn bs) (.arg (.ty t2)) (.pathN (identPath pn))
      = .error "cannot replace single-segment path with type arg" := by
  simp [substituteExpr, substExpr, identPath, substInPath, SRes.pushOcc]


/-! ## Generic parameters, name conflicts and generics traversal -/

/-- `param_name_conflict`: lifetimes conflict with same-named lifetimes;
type and const parameters inhabit one namespace and conflict by name. -/
def paramNameConflict : GenParam → GenParam → Bool
  | .ltP n1 _, .ltP n2 _ => n1 = n2
  | .tyP n1 _, .tyP n2 _ => n1 = n2
  | .tyP n1 _, .ctP n2 _ => n1 = n2
  | .ctP n1 _, .tyP n2 _ => n1 = n2
  | .ctP n1 _, .ctP n2 _ => n1 = n2
  | _, _ => false

/-- `param_generics_name_conflict`: some parameter of the generics list
conflicts with the given parameter. -/
def paramGenericsNameConflict (p : GenParam) (gs : List GenParam) : Bool :=
  gs.any (paramNameConflict p)

/-- Default traversal of a lifetime parameter's bound list
(`visit_lifetime_param_mut` override: bounds only, never the declared
lifetime itself). -/
def substLtBounds (p : GenParam) (a : SubstArg) (s : SRes) :
    List String → SRes × List String
  | [] => (s, [])
  | b :: tl =>
    let (s1, b') := substLifetime p a s b
    let (s2, tl') := substLtBounds p a s1 tl
    (s2, b' :: tl')

/-- Default traversal of a type parameter's trait-bound paths
(`visit_type_param_mut` via `visit_trait_bound_mut` and plain
`visit_path_mut`). -/
def substTyBounds (p : GenParam) (a : SubstArg) (s : SRes) :
    List Path → SRes × List Path
  | [] => (s, [])
  | b :: tl =>
    let (s1, b') := substPathArgs p a s b
    let (s2, tl') := substTyBounds p a s1 tl
    (s2, b' :: tl')

/-- `visit_generic_param_mut`: lifetime parameters expose only their
bounds, type parameters their bound paths, const parameters their value
type; declared idents are never substituted. -/
def substGenParam (p : GenParam) (a : SubstArg) (s : SRes) :
    GenParam → SRes × GenParam
  | .ltP n bs =>
    let (s', bs') := substLtBounds p a s bs
    (s', .ltP n bs')
  | .tyP n bs =>
    let (s', bs') := substTyBounds p a s bs
    (s', .tyP n bs')
  | .ctP n t =>
    let (s', t') := substTy p a s t
    (s', .ctP n t')

/-- `visit_generics_mut` over a parameter list (the where clause of
`syn::Generics` plays no role in the verified claims and is omitted). -/
def substGenericsL (p : GenParam) (a : SubstArg) (s : SRes) :
    List GenParam → SRes × List GenParam
  | [] => (s, [])
  | q :: tl =>
    let (s1, q') := substGenParam p a s q
    let (s2, tl') := substGenericsL p a s1 tl
    (s2, q' :: tl')

/-- Traversal of the scrutinee types of a type-level match. -/
def substScrut (p : GenParam) (a : SubstArg) (s : SRes) :
    List Ty → SRes × List Ty
  | [] => (s, [])
  | t :: tl =>
    let (s1, t') := substTy p a s t
    let (s2, tl') := substScrut p a s1 tl
    (s2, t' :: tl')

/-- Occurrences in a lifetime parameter's bounds. -/
def cntLtBounds (p : GenParam) : List String → Nat
  | [] => 0
  | b :: tl =>
    (match p with
      | .ltP pn _ => if b = pn then 1 else 0
      | .tyP _ _ => 0
      | .ctP _ _ => 0) + cntLtBounds p tl

/-- Occurrences in a type parameter's bound paths. -/
def cntTyBounds (p : GenParam) : List Path → Nat
  | [] => 0
  | b :: tl => cntPath p b + cntTyBounds p tl

/-- Occurrences in a generic parameter (its bounds or value type). -/
def cntGenParam (p : GenParam) : GenParam → Nat
  | .ltP _ bs => cntLtBounds p bs
  | .tyP _ bs => cntTyBounds p bs
  | .ctP _ t => cntTy p t

/-- Occurrences in a generics parameter list. -/
def cntGenericsL (p : GenParam) : List GenParam → Nat
  | [] => 0
  | q :: tl => cntGenParam p q + cntGenericsL p tl

/-- Occurrences in a scrutinee list. -/
def cntScrut (p : GenParam) : List Ty → Nat
  | [] => 0
  | t :: tl => cntTy p t + cntScrut p tl

theorem substLtBounds_testOnly (p : GenParam) :
    ∀ (bs : List String) (s : SRes),
      substLtBounds p .testOnly s bs = (s.addN (cntLtBounds p bs), bs) := by
  intro bs
  induction bs with
  | nil => intro s; simp [substLtBounds, cntLtBounds, SRes.addN_zero]
  | cons b tl ih =>
    intro s
    cases p with
    | ltP pn pbs =>
      by_cases h : b = pn
      · have hr : s.pushOcc = s.addN 1 := (SRes.addN_one s).symm
        simp [substLtBounds, cntLtBounds, substLifetime, h, applySub,
          getLifetime, ih, hr, SRes.addN_addN]
      · simp [substLtBounds, cntLtBounds, substLifetime, h, ih]
    | tyP pn pbs => simp [substLtBounds, cntLtBounds, substLifetime, ih]
    | ctP pn pty => simp [substLtBounds, cntLtBounds, substLifetime, ih]

theorem substTyBounds_testOnly (p : GenParam) :
    ∀ (bs : List Path) (s : SRes),
      substTyBounds p .testOnly s bs = (s.addN (cntTyBounds p bs), bs) := by
  intro bs
  induction bs with
  | nil => intro s; simp [substTyBounds, cntTyBounds, SRes.addN_zero]
  | cons b tl ih =>
    intro s
    simp [substTyBounds, cntTyBounds, substPathArgs_testOnly, ih, SRes.addN_addN]

theorem substGenParam_testOnly (p : GenParam) (q : GenParam) (s : SRes) :
    substGenParam p .testOnly s q = (s.addN (cntGenParam p q), q) := by
  cases q with
  | ltP n bs => simp [substGenParam, cntGenParam, substLtBounds_testOnly]
  | tyP n bs => simp [substGenParam, cntGenParam, substTyBounds_testOnly]
  | ctP n t => simp [substGenParam, cntGenParam, substTy_testOnly]

theorem substGenericsL_testOnly (p : GenParam) :
    ∀ (gs : List GenParam) (s : SRes),
      substGenericsL p .testOnly s gs = (s.addN (cntGenericsL p gs), gs) := by
  intro gs
  induction gs with
  | nil => intro s; simp [substGenericsL, cntGenericsL, SRes.addN_zero]
  | cons q tl ih =>
    intro s
    simp [substGenericsL, cntGenericsL, substGenParam_testOnly, ih,
      SRes.addN_addN]

theorem substScrut_testOnly (p : GenParam) :
    ∀ (ts : List Ty) (s : SRes),
      substScrut p .testOnly s ts = (s.addN (cntScrut p ts), ts) := by
  intro ts
  induction ts with
  | nil => intro s; simp [substScrut, cntScrut, SRes.addN_zero]
  | cons t tl ih =>
    intro s
    simp [substScrut, cntScrut, substTy_testOnly, ih, SRes.addN_addN]

/-- `Substitutable::get_param_references` on a `GenericParam`. -/
def getParamRefsGenParam (p : GenParam) (q : GenParam) : Except String Nat :=
  match substGenParam p .testOnly (.ok 0) q with
  | (.ok n, _) => .ok n
  | (.err m, _) => .error m

/-- `Substitutable::references_param` on a `GenericParam`. -/
def referencesParamGenParam (p : GenParam) (q : GenParam) :
    Except String Bool :=
  match getParamRefsGenParam p q with
  | .ok n => .ok (decide (n ≠ 0))
  | .error m => .error m

theorem getParamRefsGenParam_eq (p q : GenParam) :
    getParamRefsGenParam p q = .ok (cntGenParam p q) := by
  simp [getParamRefsGenParam, substGenParam_testOnly, SRes.addN]


/-! ## Renaming: underscore suffixes and conflicting parameters -/

/-- Replace a generic parameter's name, keeping kind and metadata. -/
def setPName : GenParam → String → GenParam
  | .ltP _ bs, n => .ltP n bs
  | .tyP _ bs, n => .tyP n bs
  | .ctP _ t, n => .ctP n t

/-- Modelled from the spec: `ident_with_suffix(ident, "_", true)`
(helpers.rs, not under src/) appends the suffix to the ident, as pinned
by the unit tests (`X` becomes `X_`). `add_underscore_suffix` applies it
to a parameter's name. -/
def addUnderscoreSuffix (q : GenParam) : GenParam :=
  setPName q (q.pname ++ "_")

/-- The do-while loop of `add_underscores_if_conflicting`: keep appending
underscores until the conflict predicate no longer holds.  The `Nat`
fuel models the unbounded loop; `none` is fuel exhaustion. -/
def addUndersLoop (conf : GenParam → Except String Bool) :
    Nat → GenParam → Option (Except String GenParam)
  | 0, _ => none
  | fuel + 1, q =>
    let q' := addUnderscoreSuffix q
    match conf q' with
    | .error m => some (.error m)
    | .ok true => addUndersLoop conf fuel q'
    | .ok false => some (.ok q')

/-- `add_underscores_if_conflicting`: if the parameter conflicts, rename
it (underscore loop) and return the renamed parameter together with the
original; otherwise return it unchanged. -/
def addUnders (fuel : Nat) (conf : GenParam → Except String Bool)
    (q : GenParam) : Option (Except String (GenParam × Option GenParam)) :=
  match conf q with
  | .error m => some (.error m)
  | .ok false => some (.ok (q, none))
  | .ok true =>
    match addUndersLoop conf fuel q with
    | none => none
    | some (.error m) => some (.error m)
    | some (.ok q') => some (.ok (q', some q))

/-- The conflict predicate used by `subst_with_multi_generics` when
renaming parameters of a nested generics list against the substitution
argument: a parameter argument conflicts by name, a concrete argument
conflicts when it references the parameter. -/
def confFor (a : SubstArg) (q : GenParam) : Except String Bool :=
  match a with
  | .testOnly => .ok false
  | .param arg => .ok (paramNameConflict q arg)
  | .arg garg =>
    match referencesParamGArg q garg with
    | .ok b => .ok b
    | .error m => .error m

/-! ## Type-level expressions and match arms

`TypeLevelExpr` / `TypeLevelExprMatch` / `TypeLevelArm` /
`TypeLevelArmSelector` (expr.rs, whose `Substitutable` implementations
live in subst.rs), instantiated at `E = Type`.  An arm holds selectors
(specific variant name plus a fresh generics list, or a default) and a
body.  Substitution into an arm is `subst_with_multi_generics` over the
specific selectors' generics lists; its rename loop makes the traversal
non-structural, so the functions carry a `Nat` fuel (`none` = fuel
exhaustion; every claim is stated on successful runs). -/

inductive Selector where
  | specific (ident : String) (generics : List GenParam)
  | dflt

mutual
inductive TyLE where
  | expr (t : Ty)
  | matchE (scrut : List Ty) (arms : List Arm)
inductive Arm where
  | mk (sels : List Selector) (body : TyLE)
end

mutual

/-- Substitution into a type-level expression. -/
def substTyLE (p : GenParam) (a : SubstArg) :
    Nat → SRes → TyLE → Option (SRes × TyLE)
  | 0, _, _ => none
  | _ + 1, s, .expr t =>
    let (s', t') := substTy p a s t
    some (s', .expr t')
  | fuel + 1, s, .matchE scrut arms =>
    let (s1, scrut') := substScrut p a s scrut
    match substArmList p a fuel s1 arms with
    | none => none
    | some (s2, arms') => some (s2, .matchE scrut' arms')

/-- Substitution into the arms of a type-level match, in order. -/
def substArmList (p : GenParam) (a : SubstArg) :
    Nat → SRes → List Arm → Option (SRes × List Arm)
  | 0, _, _ => none
  | _ + 1, s, [] => some (s, [])
  | fuel + 1, s, arm :: tl =>
    match substArm p a fuel s arm with
    | none => none
    | some (s1, arm') =>
      match substArmList p a fuel s1 tl with
      | none => none
      | some (s2, tl') => some (s2, arm' :: tl')

/-- Substitution into one arm: `subst_with_multi_generics` over the
specific selectors' generics lists, then the body. -/
def substArm (p : GenParam) (a : SubstArg) :
    Nat → SRes → Arm → Option (SRes × Arm)
  | 0, _, _ => none
  | fuel + 1, s, .mk sels body => substSels p a fuel s [] sels body

/-- The selector loop of `subst_with_multi_generics`: a conflicting
generics list shadows the parameter and stops the walk (the body and the
remaining selectors stay untouched); otherwise conflicting parameters of
the list are renamed against the argument (with the renames applied to
the list and the body), the list is visited with the main substitution,
and after the last selector the body is substituted. -/
def substSels (p : GenParam) (a : SubstArg) :
    Nat → SRes → List Selector → List Selector → TyLE →
    Option (SRes × Arm)
  | 0, _, _, _, _ => none
  | fuel + 1, s, done, [], body =>
    match substTyLE p a fuel s body with
    | none => none
    | some (s', body') => some (s', .mk done body')
  | fuel + 1, s, done, .dflt :: rest, body =>
    substSels p a fuel s (done ++ [.dflt]) rest body
  | fuel + 1, s, done, .specific cname g :: rest, body =>
    if paramGenericsNameConflict p g then
      some (s, .mk (done ++ .specific cname g :: rest) body)
    else
      match a with
      | .testOnly =>
        let (s1, g') := substGenericsL p a s g
        substSels p a fuel s1 (done ++ [.specific cname g']) rest body
      | _ =>
        match rcpArm p a fuel 0 g body false with
        | none => none
        | some (res, g1, body1) =>
          let s' := match res with
            | .ok true => s.pushOcc
            | .ok false => s
            | .error m => s.pushErr m
          let (s'', g2) := substGenericsL p a s' g1
          substSels p a fuel s'' (done ++ [.specific cname g2]) rest body1

/-- `rename_conflicting_params` as invoked by
`subst_with_multi_generics`: walk the generics list, rename each
parameter conflicting with the argument, and apply each rename (as a
fresh parameter-mode substitution) to the whole generics list and the
arm body.  Returns whether a rename happened (or the first error from a
rename substitution), plus the updated list and body. -/
def rcpArm (p : GenParam) (a : SubstArg) :
    Nat → Nat → List GenParam → TyLE → Bool →
    Option (Except String Bool × List GenParam × TyLE)
  | 0, _, _, _, _ => none
  | fuel + 1, i, g, body, ren =>
    match g.get? i with
    | none => some (.ok ren, g, body)
    | some prm =>
      match addUnders fuel (confFor a) prm with
      | none => none
      | some (.error m) => some (.error m, g, body)
      | some (.ok (_, none)) => rcpArm p a fuel (i + 1) g body ren
      | some (.ok (newPrm, some oldPrm)) =>
        let g1 := g.set i newPrm
        let (s1, g2) := substGenericsL oldPrm (.param newPrm) (.ok 0) g1
        match substTyLE oldPrm (.param newPrm) fuel s1 body with
        | none => none
        | some (s2, body2) =>
          match s2 with
          | .err m => some (.error m, g2, body2)
          | .ok _ => rcpArm p a fuel (i + 1) g2 body2 true

end


/-! ## Claim C1: shadowing -/

theorem substSels_conflict (p : GenParam) (a : SubstArg) (fuel : Nat)
    (s : SRes) (done : List Selector) (cname : String) (g : List GenParam)
    (rest : List Selector) (body : TyLE)
    (hconf : paramGenericsNameConflict p g = true) :
    substSels p a (fuel + 1) s done (.specific cname g :: rest) body
      = some (s, .mk (done ++ .specific cname g :: rest) body) := by
  simp [substSels, hconf]

theorem substArm_conflict (p : GenParam) (a : SubstArg) (fuel : Nat)
    (s s1 : SRes) (cname : String) (g : List GenParam)
    (rest : List Selector) (body : TyLE) (arm' : Arm)
    (hconf : paramGenericsNameConflict p g = true)
    (hrun : substArm p a fuel s (.mk (.specific cname g :: rest) body)
      = some (s1, arm')) :
    arm' = .mk (.specific cname g :: rest) body ∧ s1 = s := by
  cases fuel with
  | zero => simp [substArm] at hrun
  | succ f =>
    cases f with
    | zero => simp [substArm, substSels] at hrun
    | succ f' =>
      rw [substArm, substSels_conflict p a f' s [] cname g rest body hconf]
        at hrun
      simp at hrun
      exact ⟨hrun.2.symm, hrun.1.symm⟩

theorem substArmList_conflict (p : GenParam) (a : SubstArg)
    (cname : String) (g : List GenParam) (rest : List Selector) (body : TyLE)
    (hconf : paramGenericsNameConflict p g = true) :
    ∀ (arms : List Arm) (fuel : Nat) (s s2 : SRes) (arms' : List Arm)
      (i : Nat),
      substArmList p a fuel s arms = some (s2, arms') →
      arms[i]? = some (.mk (.specific cname g :: rest) body) →
      arms'[i]? = some (.mk (.specific cname g :: rest) body) := by
  intro arms
  induction arms with
  | nil =>
    intro fuel s s2 arms' i hrun hi
    simp at hi
  | cons arm tl ih =>
    intro fuel s s2 arms' i hrun hi
    cases fuel with
    | zero => simp [substArmList] at hrun
    | succ f =>
      rw [substArmList] at hrun
      cases h1 : substArm p a f s arm with
      | none => simp [h1] at hrun
      | some r1 =>
        obtain ⟨sA, arm1⟩ := r1
        cases h2 : substArmList p a f sA tl with
        | none => simp [h1, h2] at hrun
        | some r2 =>
          obtain ⟨sB, tl1⟩ := r2
          simp [h1, h2] at hrun
          obtain ⟨hs, harms⟩ := hrun
          cases i with
          | zero =>
            simp at hi
            subst hi
            obtain ⟨h1a, _⟩ := substArm_conflict p a f s sA cname g rest body
              arm1 hconf h1
            subst h1a
            simp [← harms]
          | succ j =>
            simp at hi
            have := ih f sA sB tl1 j h2 hi
            simp [← harms, this]

/-- Claim C1: shadowing.  Substituting parameter `P` into a type-level
match whose arm `i` opens with a selector whose fresh generics list
declares a parameter conflicting with `P` (same declarative namespace)
leaves that whole shadowed arm untouched — selectors, selector bounds and
body with every occurrence of `P`'s name kept verbatim — while the
same-scope metadata evaluated outside the shadowed sub-tree, the match's
scrutinee types, is still substituted. -/
theorem claim_C1 (p : GenParam) (a : SubstArg) (fuel : Nat) (s s' : SRes)
    (scrut : List Ty) (arms : List Arm) (out : TyLE) (i : Nat)
    (cname : String) (g : List GenParam) (rest : List Selector) (body : TyLE)
    (hi : arms[i]? = some (.mk (.specific cname g :: rest) body))
    (hconf : paramGenericsNameConflict p g = true)
    (hrun : substTyLE p a fuel s (.matchE scrut arms) = some (s', out)) :
    ∃ arms', out = .matchE (substScrut p a s scrut).2 arms'
      ∧ arms'[i]? = some (.mk (.specific cname g :: rest) body) := by
  cases fuel with
  | zero => simp [substTyLE] at hrun
  | succ f =>
    rw [substTyLE] at hrun
    cases hsc : substScrut p a s scrut with
    | mk s1 scrut' =>
      cases h1 : substArmList p a f s1 arms with
      | none => simp [hsc, h1] at hrun
      | some r =>
        obtain ⟨s2, arms'⟩ := r
        simp [hsc, h1] at hrun
        refine ⟨arms', ?_, ?_⟩
        · exact hrun.2.symm
        · exact substArmList_conflict p a cname g rest body hconf arms f s1
            s2 arms' i h1 hi

/-- Witness for claim C1: substituting `A := X` into
`match <A> { C<A> => A }`: the scrutinee `A` becomes `X` while the arm
shadowing `A` is untouched. -/
theorem claim_C1_witness :
    ∃ arms', TyLE.matchE [Ty.pathN (identPath "X")]
        [Arm.mk [Selector.specific "C" [GenParam.tyP "A" []]]
          (TyLE.expr (Ty.pathN (identPath "A")))]
      = .matchE (substScrut (.tyP "A" []) (.param (.tyP "X" [])) (.ok 0)
          [Ty.pathN (identPath "A")]).2 arms'
      ∧ arms'[0]? = some (.mk [Selector.specific "C" [GenParam.tyP "A" []]]
          (TyLE.expr (Ty.pathN (identPath "A")))) :=
  claim_C1 (.tyP "A" []) (.param (.tyP "X" [])) 5 (.ok 0) (.ok 1)
    [Ty.pathN (identPath "A")]
    [Arm.mk [Selector.specific "C" [GenParam.tyP "A" []]]
      (TyLE.expr (Ty.pathN (identPath "A")))]
    (TyLE.matchE [Ty.pathN (identPath "X")]
      [Arm.mk [Selector.specific "C" [GenParam.tyP "A" []]]
        (TyLE.expr (Ty.pathN (identPath "A")))])
    0 "C" [GenParam.tyP "A" []] [] (TyLE.expr (Ty.pathN (identPath "A")))
    rfl rfl rfl


/-! ## Claim C8: `rename_conflicting_params` -/

/-- The index loop of `rename_conflicting_params` (specialized to a
`Type` body standing for the `substitute` closure's content): for each
parameter in order, rename it while the conflict predicate holds, then
apply the rename — a fresh parameter-mode substitution — to the whole
generics list and the body, propagating the substitution's first error.
`rem` counts the remaining indices (the Rust loop bound
`generics.params.len()`, which renames preserve); the `Nat` fuel feeds
the underscore loops. -/
def rcpGo (fuel : Nat) (conf : GenParam → Except String Bool) :
    Nat → Nat → List GenParam → Ty → Bool →
    Option (Except String Bool × List GenParam × Ty)
  | 0, _, g, body, ren => some (.ok ren, g, body)
  | rem + 1, i, g, body, ren =>
    match g[i]? with
    | none => some (.ok ren, g, body)
    | some prm =>
      match addUnders fuel conf prm with
      | none => none
      | some (.error m) => some (.error m, g, body)
      | some (.ok (_, none)) => rcpGo fuel conf rem (i + 1) g body ren
      | some (.ok (newPrm, some oldPrm)) =>
        let g1 := g.set i newPrm
        let (s1, g2) := substGenericsL oldPrm (.param newPrm) (.ok 0) g1
        let (s2, body2) := substTy oldPrm (.param newPrm) s1 body
        match s2 with
        | .err m => some (.error m, g2, body2)
        | .ok _ => rcpGo fuel conf rem (i + 1) g2 body2 true

/-- `rename_conflicting_params(generics, conflicting, substitute)` with a
`Type` body. -/
def renameConflictingParams (fuel : Nat)
    (conf : GenParam → Except String Bool) (g : List GenParam) (body : Ty) :
    Option (Except String Bool × List GenParam × Ty) :=
  rcpGo fuel conf g.length 0 g body false

/-- Claim C8 as stated is false on the code: renaming the single
conflicting type parameter `A` (conflict predicate: name equals `A`)
with body `A::C<A>` produces parameter `A_` and body `A_::C<A>` — the
occurrence of `A` inside the argument list of the second path segment is
not rewritten to the new name, because `subst_in_path` returns without
visiting the remaining segments once it has rewritten the path head; the
body still references a parameter named `A` afterwards. -/
theorem claim_C8_counterexample :
    renameConflictingParams 5
        (fun q => .ok (decide (q.pname = "A")))
        [.tyP "A" []]
        (.pathN (.mk false (.cons "A" .nil
          (.cons "C" (.cons (.ty (.pathN (identPath "A"))) .nil) .nil))))
      = some (.ok true, [.tyP "A_" []],
          .pathN (.mk false (.cons "A_" .nil
            (.cons "C" (.cons (.ty (.pathN (identPath "A"))) .nil) .nil))))
    ∧ cntTy (.tyP "A" [])
        (.pathN (.mk false (.cons "A_" .nil
          (.cons "C" (.cons (.ty (.pathN (identPath "A"))) .nil) .nil)))) = 1 :=
  ⟨rfl, rfl⟩


theorem substGenParam_pname (p : GenParam) (a : SubstArg) (s : SRes)
    (q : GenParam) :
    ((substGenParam p a s q).2).pname = q.pname
    ∧ ((substGenParam p a s q).2).pkind = q.pkind := by
  cases q <;> simp [substGenParam, GenParam.pname, GenParam.pkind]

theorem substGenericsL_getElem (p : GenParam) (a : SubstArg) :
    ∀ (g : List GenParam) (s : SRes) (j : Nat),
      ((substGenericsL p a s g).2)[j]?.map (fun q => (q.pname, q.pkind))
        = g[j]?.map (fun q => (q.pname, q.pkind)) := by
  intro g
  induction g with
  | nil => intro s j; simp [substGenericsL]
  | cons q tl ih =>
    intro s j
    cases hq : substGenParam p a s q with
    | mk s1 q' =>
      cases j with
      | zero =>
        have := substGenParam_pname p a s q
        rw [hq] at this
        simp [substGenericsL, hq, this.1, this.2]
      | succ j' => simp [substGenericsL, hq, ih]

theorem substGenericsL_length (p : GenParam) (a : SubstArg) :
    ∀ (g : List GenParam) (s : SRes),
      ((substGenericsL p a s g).2).length = g.length := by
  intro g
  induction g with
  | nil => intro s; simp [substGenericsL]
  | cons q tl ih => intro s; simp [substGenericsL, ih]

theorem addUndersLoop_clean (conf : GenParam → Except String Bool) :
    ∀ (fuel : Nat) (q q' : GenParam),
      addUndersLoop conf fuel q = some (.ok q') → conf q' = .ok false := by
  intro fuel
  induction fuel with
  | zero => intro q q' h; simp [addUndersLoop] at h
  | succ f ih =>
    intro q q' h
    rw [addUndersLoop] at h
    cases hc : conf (addUnderscoreSuffix q) with
    | error m => rw [hc] at h; simp at h
    | ok b =>
      cases b with
      | true =>
        rw [hc] at h
        exact ih (addUnderscoreSuffix q) q' h
      | false =>
        rw [hc] at h
        simp at h
        rw [← h]
        exact hc

theorem addUnders_clean (conf : GenParam → Except String Bool) (fuel : Nat)
    (q q' : GenParam) (old : Option GenParam)
    (h : addUnders fuel conf q = some (.ok (q', old))) :
    conf q' = .ok false := by
  rw [addUnders] at h
  cases hc : conf q with
  | error m => rw [hc] at h; simp at h
  | ok b =>
    cases b with
    | false =>
      rw [hc] at h
      simp at h
      rw [← h.1]
      exact hc
    | true =>
      rw [hc] at h
      cases hl : addUndersLoop conf fuel q with
      | none => rw [hl] at h; simp at h
      | some r =>
        cases r with
        | error m => rw [hl] at h; simp at h
        | ok q2 =>
          rw [hl] at h
          simp at h
          rw [← h.1]
          exact addUndersLoop_clean conf fuel q q2 hl

theorem rcpGo_clean (P : String → PKind → Bool) (fuel : Nat) :
    ∀ (rem i : Nat) (g : List GenParam) (body : Ty) (ren ren' : Bool)
      (g' : List GenParam) (body' : Ty),
      rcpGo fuel (fun q => .ok (P q.pname q.pkind)) rem i g body ren
        = some (.ok ren', g', body') →
      (∀ j, j < i → ∀ q, g[j]? = some q → P q.pname q.pkind = false) →
      g.length ≤ i + rem →
      ∀ q ∈ g', P q.pname q.pkind = false := by
  intro rem
  induction rem with
  | zero =>
    intro i g body ren ren' g' body' hrun hproc hlen q hq
    simp [rcpGo] at hrun
    obtain ⟨j, hjq⟩ := List.mem_iff_getElem?.mp (hrun.2.1 ▸ hq)
    have hjl : j < g.length := by
      by_contra hcon
      rw [List.getElem?_eq_none (by omega)] at hjq
      simp at hjq
    exact hproc j (by omega) q hjq
  | succ rem ih =>
    intro i g body ren ren' g' body' hrun hproc hlen q hq
    rw [rcpGo] at hrun
    cases hg : g[i]? with
    | none =>
      simp only [hg] at hrun
      simp at hrun
      obtain ⟨j, hjq⟩ := List.mem_iff_getElem?.mp (hrun.2.1 ▸ hq)
      have hjl : j < g.length := by
        by_contra hcon
        rw [List.getElem?_eq_none (by omega)] at hjq
        simp at hjq
      have hilen : g.length ≤ i := by
        by_contra hcon
        rw [List.getElem?_eq_getElem (by omega)] at hg
        simp at hg
      exact hproc j (by omega) q hjq
    | some prm =>
      cases hau : addUnders fuel (fun q => .ok (P q.pname q.pkind)) prm with
      | none => simp [hg, hau] at hrun
      | some r =>
        cases r with
        | error m => simp [hg, hau] at hrun
        | ok pr =>
          obtain ⟨newPrm, old⟩ := pr
          cases old with
          | none =>
            simp only [hg, hau] at hrun
            have hcf := addUnders_clean _ fuel prm newPrm none hau
            simp at hcf
            have heq : newPrm = prm := by
              rw [addUnders] at hau
              cases hb : P prm.pname prm.pkind
              · rw [hb] at hau
                simp at hau
                exact hau.symm
              · rw [hb] at hau
                cases hl : addUndersLoop (fun q => .ok (P q.pname q.pkind))
                    fuel prm with
                | none => rw [hl] at hau; simp at hau
                | some r2 =>
                  cases r2 with
                  | error m => rw [hl] at hau; simp at hau
                  | ok q3 => rw [hl] at hau; simp at hau
            refine ih (i + 1) g body ren ren' g' body' hrun ?_ (by omega) q hq
            intro j hj q2 hq2
            rcases Nat.lt_or_ge j i with hji | hji
            · exact hproc j hji q2 hq2
            · have hje : j = i := by omega
              subst hje
              rw [hg] at hq2
              injection hq2 with hq2e
              subst hq2e
              rw [heq] at hcf
              exact hcf
          | some oldPrm =>
            cases hsub : substGenericsL oldPrm (.param newPrm) (.ok 0)
                (g.set i newPrm) with
            | mk s1 g2 =>
              cases hsub2 : substTy oldPrm (.param newPrm) s1 body with
              | mk s2 body2 =>
                cases s2 with
                | err m => simp [hg, hau, hsub, hsub2] at hrun
                | ok k =>
                  simp only [hg, hau, hsub, hsub2] at hrun
                  have hcf := addUnders_clean _ fuel prm newPrm (some oldPrm)
                    hau
                  simp at hcf
                  have hilen : i < g.length := by
                    by_contra hcon
                    rw [List.getElem?_eq_none (by omega)] at hg
                    simp at hg
                  refine ih (i + 1) g2 body2 true ren' g' body' hrun ?_ ?_ q hq
                  · intro j hj q2 hq2
                    have hnk : g2[j]?.map (fun q => (q.pname, q.pkind))
                        = (g.set i newPrm)[j]?.map
                            (fun q => (q.pname, q.pkind)) := by
                      have := substGenericsL_getElem oldPrm (.param newPrm)
                        (g.set i newPrm) (.ok 0) j
                      rw [hsub] at this
                      exact this
                    rcases Nat.lt_or_ge j i with hji | hji
                    · have hj1 : (g.set i newPrm)[j]? = g[j]? :=
                        List.getElem?_set_ne (by omega)
                      rw [hq2, hj1] at hnk
                      cases hgj : g[j]? with
                      | none => rw [hgj] at hnk; simp at hnk
                      | some q3 =>
                        rw [hgj] at hnk
                        simp at hnk
                        rw [hnk.1, hnk.2]
                        exact hproc j hji q3 hgj
                    · have hje : j = i := by omega
                      subst hje
                      have hj1 : (g.set j newPrm)[j]? = some newPrm :=
                        List.getElem?_set_self (by simpa using hilen)
                      rw [hq2, hj1] at hnk
                      simp at hnk
                      rw [hnk.1, hnk.2]
                      exact hcf
                  · have hl2 : g2.length = (g.set i newPrm).length := by
                      have := substGenericsL_length oldPrm (.param newPrm)
                        (g.set i newPrm) (.ok 0)
                      rw [hsub] at this
                      exact this
                    simp at hl2
                    omega

theorem addUnderscoreSuffix_len (q : GenParam) :
    (addUnderscoreSuffix q).pname.length = q.pname.length + 1 := by
  cases q <;> simp [addUnderscoreSuffix, setPName, GenParam.pname] <;> rfl

theorem addUndersLoop_total (P : String → PKind → Bool) (L : Nat)
    (hfin : ∀ nm k, L < nm.length → P nm k = false) :
    ∀ (fuel : Nat) (q : GenParam), 1 ≤ fuel →
      L + 1 ≤ fuel + q.pname.length →
      addUndersLoop (fun q => .ok (P q.pname q.pkind)) fuel q ≠ none := by
  intro fuel
  induction fuel with
  | zero => intro q h1 _; omega
  | succ f ih =>
    intro q _ hlen
    rw [addUndersLoop]
    cases hb : P (addUnderscoreSuffix q).pname (addUnderscoreSuffix q).pkind
    · simp [hb]
    · have hql := addUnderscoreSuffix_len q
      have hle : (addUnderscoreSuffix q).pname.length ≤ L := by
        by_contra hcon
        rw [hfin _ _ (by omega)] at hb
        cases hb
      have hf1 : 1 ≤ f := by omega
      have hrec := ih (addUnderscoreSuffix q) hf1 (by omega)
      simp only [hb]
      exact hrec

theorem addUnders_total (P : String → PKind → Bool) (L : Nat)
    (hfin : ∀ nm k, L < nm.length → P nm k = false) (q : GenParam) :
    addUnders (L + 1) (fun q => .ok (P q.pname q.pkind)) q ≠ none := by
  rw [addUnders]
  cases hb : P q.pname q.pkind
  · simp [hb]
  · simp only [hb]
    cases hl : addUndersLoop (fun q => .ok (P q.pname q.pkind)) (L + 1) q with
    | none =>
      exact absurd hl
        (addUndersLoop_total P L hfin (L + 1) q (by omega) (by omega))
    | some r => cases r <;> simp

theorem rcpGo_total (P : String → PKind → Bool) (L : Nat)
    (hfin : ∀ nm k, L < nm.length → P nm k = false) :
    ∀ (rem i : Nat) (g : List GenParam) (body : Ty) (ren : Bool),
      rcpGo (L + 1) (fun q => .ok (P q.pname q.pkind)) rem i g body ren
        ≠ none := by
  intro rem
  induction rem with
  | zero => intro i g body ren; simp [rcpGo]
  | succ rem ih =>
    intro i g body ren
    rw [rcpGo]
    cases hg : g[i]? with
    | none => simp
    | some prm =>
      cases hau : addUnders (L + 1) (fun q => .ok (P q.pname q.pkind)) prm with
      | none => exact absurd hau (addUnders_total P L hfin prm)
      | some r =>
        cases r with
        | error m => simp [hau]
        | ok pr =>
          obtain ⟨newPrm, old⟩ := pr
          cases old with
          | none =>
            simp only [hau]
            exact ih (i + 1) g body ren
          | some oldPrm =>
            simp only [hau]
            cases hsub : substGenericsL oldPrm (.param newPrm) (.ok 0)
                (g.set i newPrm) with
            | mk s1 g2 =>
              cases hsub2 : substTy oldPrm (.param newPrm) s1 body with
              | mk s2 body2 =>
                simp only [hsub, hsub2]
                cases s2 with
                | err m => simp
                | ok k => exact ih (i + 1) g2 body2 true

/-- Claim C8, amended: for a conflict predicate that depends only on a
parameter's name and kind, (a) after `rename_conflicting_params` returns
successfully no parameter in the resulting list satisfies the predicate,
and (c) the underscore-appending loop terminates whenever the predicate
fails for all sufficiently long names (each rename strictly grows the
name).  The original claim's part that every occurrence of a renamed
parameter in the body is rewritten to the new name is dropped: the
substitution pass skips occurrences nested in later segments of a path
headed by the renamed parameter, as the counterexample shows; each
rename does apply one substitution-visitor pass over the remaining list
and the body. -/
theorem claim_C8 (P : String → PKind → Bool) (g : List GenParam) (body : Ty) :
    (∀ (fuel : Nat) (ren : Bool) (g' : List GenParam) (body' : Ty),
      renameConflictingParams fuel (fun q => .ok (P q.pname q.pkind)) g body
        = some (.ok ren, g', body') →
      ∀ q ∈ g', P q.pname q.pkind = false)
    ∧ (∀ L : Nat, (∀ nm k, L < nm.length → P nm k = false) →
      ∃ out, renameConflictingParams (L + 1)
        (fun q => .ok (P q.pname q.pkind)) g body = some out) := by
  constructor
  · intro fuel ren g' body' hrun
    exact rcpGo_clean P fuel g.length 0 g body false ren g' body' hrun
      (by intro j hj q hq; omega) (by omega)
  · intro L hfin
    cases hr : renameConflictingParams (L + 1)
        (fun q => .ok (P q.pname q.pkind)) g body with
    | none =>
      exact absurd hr (rcpGo_total P L hfin g.length 0 g body false)
    | some out => exact ⟨out, rfl⟩

/-- Witness for the amended claim C8: renaming `[B]` against the
predicate `name = B` yields `[B_]`, which no longer conflicts, and the
run with fuel `1 + 1` terminates. -/
theorem claim_C8_witness :
    (∀ q ∈ [GenParam.tyP "B_" []],
      (fun nm (_ : PKind) => decide (nm = "B")) q.pname q.pkind = false)
    ∧ ∃ out, renameConflictingParams 2
        (fun q => .ok (decide (q.pname = "B"))) [GenParam.tyP "B" []]
        (.pathN (identPath "B")) = some out := by
  constructor
  · exact (claim_C8 (fun nm _ => decide (nm = "B")) [GenParam.tyP "B" []]
      (.pathN (identPath "B"))).1 5 true [GenParam.tyP "B_" []]
      (.pathN (identPath "B_")) rfl
  · exact (claim_C8 (fun nm _ => decide (nm = "B")) [GenParam.tyP "B" []]
      (.pathN (identPath "B"))).2 1
      (by
        intro nm k hlen
        have hne : nm ≠ "B" := by
          intro hcon
          subst hcon
          exact absurd hlen (by decide)
        exact decide_eq_false hne)


/-! ## Claim C9: the missing-dispatch validation pass -/

/-- `TraitContents` as seen by the final validation loop.  Modelled from
the spec: `MetaGenericArguments::has_complex_type_arg` (generics.rs, not
under src/) is kept abstract as the Boolean carried by the alias case —
per the spec it holds when the alias argument list contains a
non-trivial (complex) type argument. -/
inductive TraitContentsM where
  | enumC
  | aliasC (hasComplexTypeArg : Bool)
deriving DecidableEq

/-- The state of one registered trait definition when the final
validation loop of `MetaItemList::output` runs: whether any variant set
was installed (`variants.is_some()`), whether its generics carry a
where clause, and its contents. -/
structure TraitDefStateM where
  hasVariants : Bool
  hasWhereClause : Bool
  contents : TraitContentsM

/-- The final validation loop of `MetaItemList::output` (item.rs):
a definition with variants passes; one without variants fails if its
generics carry a where clause, or if it is an alias whose arguments
contain a complex type argument; the first error aborts the pass. -/
def checkMissingDispatch : List TraitDefStateM → Except String Unit
  | [] => .ok ()
  | d :: tl =>
    if d.hasVariants then checkMissingDispatch tl
    else if d.hasWhereClause then
      .error "at least one `match` expression corresponding to `where` clause required"
    else
      match d.contents with
      | .aliasC true =>
        .error "at least one `match` expression corresponding to alias arguments required"
      | _ => checkMissingDispatch tl

/-- Claim C9: the lowering pass raises a missing-dispatch error if and
only if, after all implementation items are processed, some registered
trait definition is left without any variant set while dispatch was
structurally required — its parameter list carries a where clause, or it
is an alias whose argument list contains a complex type argument;
otherwise no such error is raised. -/
theorem claim_C9 (l : List TraitDefStateM) :
    (∃ e, checkMissingDispatch l = .error e)
      ↔ ∃ d ∈ l, d.hasVariants = false
          ∧ (d.hasWhereClause = true ∨ d.contents = .aliasC true) := by
  induction l with
  | nil => simp [checkMissingDispatch]
  | cons d tl ih =>
    cases hv : d.hasVariants with
    | true =>
      simp only [checkMissingDispatch, hv, if_true]
      rw [ih]
      constructor
      · intro ⟨d2, hd2, hcond⟩
        exact ⟨d2, by simp [hd2], hcond⟩
      · intro ⟨d2, hd2, hcond⟩
        rcases List.mem_cons.mp hd2 with he | hm
        · subst he
          rw [hv] at hcond
          cases hcond.1
        · exact ⟨d2, hm, hcond⟩
    | false =>
      cases hw : d.hasWhereClause with
      | true => simp [checkMissingDispatch, hv, hw]
      | false =>
        cases hc : d.contents with
        | enumC =>
          simp [checkMissingDispatch, hv, hw, hc]
          rw [ih]
        | aliasC cplx =>
          cases cplx with
          | true => simp [checkMissingDispatch, hv, hw, hc]
          | false =>
            simp [checkMissingDispatch, hv, hw, hc]
            rw [ih]


/-! ## Closure conversion: `build_indirection` -/

/-- `GenericsContext` (generics.rs; its three constructors are pinned by
the pattern matches in subst.rs): a scope chain ordered innermost
first. -/
inductive GenericsContext where
  | empty
  | withSelf (p : GenParam) (next : GenericsContext)
  | withGenerics (g : List GenParam) (next : GenericsContext)

/-- Modelled from the spec: `generic_param_arg` (helpers.rs, not under
src/) produces the argument referencing a parameter — the lifetime, the
one-segment path type, or the one-segment path expression named like the
parameter (spans dropped). -/
def genericParamArg : GenParam → GArg
  | .ltP n _ => .lt n
  | .tyP n _ => .ty (.pathN (identPath n))
  | .ctP n _ => .constE (.pathN (identPath n))

mutual

/-- `get_first_param_reference` (span replaced by a Boolean): the
expression references the parameter directly, or some parameter of any
stacked scope — shadowing ignored, only same-name conflicts with the
target excluded — references it in its bounds and is itself transitively
referenced.  The recursion can diverge on cyclic bounds, hence the
fuel. -/
def gfpr (exprParams : List (List GenParam)) (expr : Ty) :
    Nat → GenParam → Option Bool
  | 0, _ => none
  | fuel + 1, prm =>
    if cntTy prm expr ≠ 0 then some true
    else gfprScan exprParams expr fuel prm exprParams.flatten

/-- The candidate scan of `get_first_param_reference` over all stacked
parameters, outer loop over scopes flattened in stack order. -/
def gfprScan (exprParams : List (List GenParam)) (expr : Ty) :
    Nat → GenParam → List GenParam → Option Bool
  | 0, _, _ => none
  | _ + 1, _, [] => some false
  | fuel + 1, prm, q :: rest =>
    if ¬ paramNameConflict q prm ∧ cntGenParam prm q ≠ 0 then
      match gfpr exprParams expr fuel q with
      | none => none
      | some true => some true
      | some false => gfprScan exprParams expr fuel prm rest
    else gfprScan exprParams expr fuel prm rest

end

/-- The collection phase of `add_param_indirections`: walk the current
scope's parameters in order, skip those shadowed by a same-named
parameter of a scope closer to the expression, and capture those that
`get_first_param_reference` finds, pairing each with
`generic_param_arg`. -/
def collectRef (fuel : Nat) (exprParams : List (List GenParam)) (expr : Ty)
    (indirIdx : Nat) : List GenParam → Option (List (GenParam × GArg))
  | [] => some []
  | prm :: rest =>
    if ((exprParams.take indirIdx).flatten).any (paramNameConflict prm) then
      collectRef fuel exprParams expr indirIdx rest
    else
      match gfpr exprParams expr fuel prm with
      | none => none
      | some true =>
        match collectRef fuel exprParams expr indirIdx rest with
        | none => none
        | some tail => some ((prm, genericParamArg prm) :: tail)
      | some false => collectRef fuel exprParams expr indirIdx rest

/-- Apply one rename substitution to every scope of a stacked parameter
list (the `expr_params[..indir_idx]` loop). -/
def substGenParamsLists (p : GenParam) (a : SubstArg) (s : SRes) :
    List (List GenParam) → SRes × List (List GenParam)
  | [] => (s, [])
  | g :: tl =>
    let (s1, g') := substGenericsL p a s g
    let (s2, tl') := substGenParamsLists p a s1 tl
    (s2, g' :: tl')

/-- Apply one rename substitution to the parameter component of every
collected capture pair (the arguments, already minted against the outer
scope, are untouched). -/
def substPairsFst (p : GenParam) (a : SubstArg) (s : SRes) :
    List (GenParam × GArg) → SRes × List (GenParam × GArg)
  | [] => (s, [])
  | (q, arg) :: tl =>
    let (s1, q') := substGenParam p a s q
    let (s2, tl') := substPairsFst p a s1 tl
    (s2, (q', arg) :: tl')

/-- The rename phase of `add_param_indirections`: any captured parameter
whose name conflicts with a parameter of the first
`conflictCount` stacked scopes is underscore-renamed, and the rename is
propagated through the inner scopes, the other captured parameters and
the expression. -/
def renLoop (fuel conflictCount indirIdx : Nat) :
    Nat → Nat → List (List GenParam) → Ty → List (GenParam × GArg) →
    Option (Except String Unit × List (List GenParam) × Ty ×
      List (GenParam × GArg))
  | 0, _, exprParams, expr, referenced =>
    some (.ok (), exprParams, expr, referenced)
  | rem + 1, idx, exprParams, expr, referenced =>
    match referenced[idx]? with
    | none => some (.ok (), exprParams, expr, referenced)
    | some (prm, arg) =>
      match addUnders fuel
          (fun q => .ok (((exprParams.take conflictCount).flatten).any
            (paramNameConflict q))) prm with
      | none => none
      | some (.error m) => some (.error m, exprParams, expr, referenced)
      | some (.ok (_, none)) =>
        renLoop fuel conflictCount indirIdx rem (idx + 1) exprParams expr
          referenced
      | some (.ok (newPrm, some oldPrm)) =>
        let referenced1 := referenced.set idx (newPrm, arg)
        let (s1, pfx) := substGenParamsLists oldPrm (.param newPrm) (.ok 0)
          (exprParams.take indirIdx)
        let exprParams1 := pfx ++ exprParams.drop indirIdx
        let (s2, referenced2) := substPairsFst oldPrm (.param newPrm) s1
          referenced1
        let (s3, expr1) := substTy oldPrm (.param newPrm) s2 expr
        match s3 with
        | .err m => some (.error m, exprParams1, expr1, referenced2)
        | .ok _ =>
          renLoop fuel conflictCount indirIdx rem (idx + 1) exprParams1
            expr1 referenced2

/-- `add_param_indirections`: collect the current (last-pushed) scope's
referenced, unshadowed parameters, rename conflicting captures, and
append the captures to the accumulated pair list. -/
def addParamIndirections (fuel : Nat) (exprParams : List (List GenParam))
    (expr : Ty) (conflictCount : Nat) (params : List (GenParam × GArg)) :
    Option (Except String Unit × List (List GenParam) × Ty ×
      List (GenParam × GArg)) :=
  let indirIdx := exprParams.length - 1
  match collectRef fuel exprParams expr indirIdx
      (exprParams.getD indirIdx []) with
  | none => none
  | some referenced =>
    match renLoop fuel conflictCount indirIdx referenced.length 0 exprParams
        expr referenced with
    | none => none
    | some (.error m, ep1, e1, _) => some (.error m, ep1, e1, params)
    | some (.ok (), ep1, e1, r1) => some (.ok (), ep1, e1, params ++ r1)

/-- `build_indirection_impl` as instantiated by
`build_indirection_contents` (the `on_self` / `on_generics` callbacks
return `None` and `on_empty` succeeds): push each scope, recurse towards
the outermost scope, then capture from the current scope and pop. -/
def buildIndirectionImpl (fuel : Nat) :
    List (List GenParam) → Ty → GenericsContext →
    Option (Except String (List (List GenParam) × Ty ×
      List (GenParam × GArg)))
  | exprParams, expr, .empty => some (.ok (exprParams, expr, []))
  | exprParams, expr, .withSelf prm next =>
    let exprParams1 := exprParams ++ [[prm]]
    match buildIndirectionImpl fuel exprParams1 expr next with
    | none => none
    | some (.error m) => some (.error m)
    | some (.ok (ep2, e2, params)) =>
      match addParamIndirections fuel ep2 e2 exprParams1.length params with
      | none => none
      | some (.error m, _, _, _) => some (.error m)
      | some (.ok (), ep3, e3, params3) =>
        some (.ok (ep3.dropLast, e3, params3))
  | exprParams, expr, .withGenerics g next =>
    let origLen := exprParams.length
    let exprParams1 := exprParams ++ [g]
    match buildIndirectionImpl fuel exprParams1 expr next with
    | none => none
    | some (.error m) => some (.error m)
    | some (.ok (ep2, e2, params)) =>
      match addParamIndirections fuel ep2 e2 origLen params with
      | none => none
      | some (.error m, _, _, _) => some (.error m)
      | some (.ok (), ep3, e3, params3) =>
        some (.ok (ep3.dropLast, e3, params3))

/-- `build_indirection`: start with an empty scope stack and return the
rewritten expression with its capture list. -/
def buildIndirection (fuel : Nat) (expr : Ty) (ctx : GenericsContext) :
    Option (Except String (Ty × List (GenParam × GArg))) :=
  match buildIndirectionImpl fuel [] expr ctx with
  | none => none
  | some (.error m) => some (.error m)
  | some (.ok (_, e, params)) => some (.ok (e, params))


/-! ## Claim C3: closure-conversion minimality -/

/-- Claim C3 exhibits a code bug: with scope chain (innermost first)
`[X]`, `[X: F<P>]`, `[P]` and expression `X`, `build_indirection`
returns the capture list `[(P, P), (X, X)]` although the expression does
not reference `P` at all: `P` is reached only through the bound `F<P>`
of the middle `X`, which is shadowed by the inner `X` (and is itself
skipped, not captured).  `get_first_param_reference` ignores shadowing
when it walks intermediate parameters, contradicting the function's own
comment (`build_indirection`: "for all parameters from `context` that
are referenced in `expr`") and the claim: the expression references
neither `P` directly nor any bound of the one other captured parameter,
the inner `X`, which has no bounds. -/
theorem claim_C3 :
    buildIndirection 10 (.pathN (identPath "X"))
        (.withGenerics [.tyP "X" []]
          (.withGenerics [.tyP "X" [.mk false
              (.cons "F" (.cons (.ty (.pathN (identPath "P"))) .nil) .nil)]]
            (.withGenerics [.tyP "P" []] .empty)))
      = some (.ok (.pathN (identPath "X"),
          [(.tyP "P" [], .ty (.pathN (identPath "P"))),
            (.tyP "X" [], .ty (.pathN (identPath "X")))]))
    ∧ cntTy (.tyP "P" []) (.pathN (identPath "X")) = 0
    ∧ cntGenParam (.tyP "P" []) (.tyP "X" []) = 0 :=
  ⟨rfl, rfl, rfl⟩

/-! ## Claim C4: capture order -/

/-- Claim C4 as stated is false on the code: for expression `(A, B)`
under the scope chain with inner scope `[A]` and outer scope `[B]`, the
pair list returned by `build_indirection` is `[(B, B), (A, A)]` — the
capture taken from the outermost scope appears first, and the inner
scope's capture follows it, contradicting the claimed
innermost-first order. -/
theorem claim_C4_counterexample :
    buildIndirection 10
        (.tup (.cons (.pathN (identPath "A"))
          (.cons (.pathN (identPath "B")) .nil)))
        (.withGenerics [.tyP "A" []] (.withGenerics [.tyP "B" []] .empty))
      = some (.ok (.tup (.cons (.pathN (identPath "A"))
          (.cons (.pathN (identPath "B")) .nil)),
          [(.tyP "B" [], .ty (.pathN (identPath "B"))),
            (.tyP "A" [], .ty (.pathN (identPath "A")))])) := rfl

theorem addParamIndirections_shape (fuel : Nat)
    (exprParams : List (List GenParam)) (expr : Ty) (c : Nat)
    (params : List (GenParam × GArg)) (ep' : List (List GenParam))
    (e' : Ty) (ps' : List (GenParam × GArg))
    (h : addParamIndirections fuel exprParams expr c params
      = some (.ok (), ep', e', ps')) :
    ∃ ref, ps' = params ++ ref := by
  rw [addParamIndirections] at h
  rw [List.getD_eq_getElem?_getD] at h
  cases h1 : collectRef fuel exprParams expr (exprParams.length - 1)
      (exprParams[exprParams.length - 1]?.getD []) with
  | none => simp [h1] at h
  | some referenced =>
    cases h2 : renLoop fuel c (exprParams.length - 1) referenced.length 0
        exprParams expr referenced with
    | none => simp [h1, h2] at h
    | some r =>
      obtain ⟨res, ep1, e1, r1⟩ := r
      cases res with
      | error m => simp [h1, h2] at h
      | ok u =>
        simp [h1, h2] at h
        exact ⟨r1, h.2.2.symm⟩

/-- Claim C4, amended: the pair list returned by `build_indirection` is
ordered outermost-dependency-first, not innermost-first.  At every
scope of the chain, the captures computed for that scope are appended
after the capture list already produced for all more outward scopes, so
captures taken from more outward scopes appear before captures taken
from inner scopes (at the top of the chain, the outermost scope's
captures come first), letting a later (more inner) capture's bounds
refer to an earlier (more outward) capture. -/
theorem claim_C4 (fuel : Nat) (exprParams : List (List GenParam))
    (expr : Ty) (g : List GenParam) (rest : GenericsContext)
    (ep' : List (List GenParam)) (e' : Ty) (ps' : List (GenParam × GArg))
    (hrun : buildIndirectionImpl fuel exprParams expr (.withGenerics g rest)
      = some (.ok (ep', e', ps'))) :
    ∃ ep2 e2 psOuter ref,
      buildIndirectionImpl fuel (exprParams ++ [g]) expr rest
        = some (.ok (ep2, e2, psOuter))
      ∧ ps' = psOuter ++ ref := by
  rw [buildIndirectionImpl] at hrun
  cases h1 : buildIndirectionImpl fuel (exprParams ++ [g]) expr rest with
  | none => simp [h1] at hrun
  | some r =>
    cases r with
    | error m => simp [h1] at hrun
    | ok out =>
      obtain ⟨ep2, e2, params⟩ := out
      cases h2 : addParamIndirections fuel ep2 e2 exprParams.length
          params with
      | none => simp [h1, h2] at hrun
      | some r2 =>
        obtain ⟨res, ep3, e3, params3⟩ := r2
        cases res with
        | error m => simp [h1, h2] at hrun
        | ok u =>
          simp [h1, h2] at hrun
          obtain ⟨ref, href⟩ := addParamIndirections_shape fuel ep2 e2
            exprParams.length params ep3 e3 params3 h2
          exact ⟨ep2, e2, params, ref, rfl, hrun.2.2 ▸ href⟩

/-- Witness for the amended claim C4: in the two-scope example the
recursion on the outer chain produces `[(B, B)]` and the inner scope's
capture `(A, A)` is appended after it. -/
theorem claim_C4_witness :
    ∃ ep2 e2 psOuter ref,
      buildIndirectionImpl 10 ([] ++ [[GenParam.tyP "A" []]])
          (.tup (.cons (.pathN (identPath "A"))
            (.cons (.pathN (identPath "B")) .nil)))
          (.withGenerics [.tyP "B" []] .empty)
        = some (.ok (ep2, e2, psOuter))
      ∧ [((GenParam.tyP "B" []), GArg.ty (.pathN (identPath "B"))),
          ((GenParam.tyP "A" []), GArg.ty (.pathN (identPath "A")))]
        = psOuter ++ ref :=
  claim_C4 10 [] (.tup (.cons (.pathN (identPath "A"))
      (.cons (.pathN (identPath "B")) .nil)))
    [.tyP "A" []] (.withGenerics [.tyP "B" []] .empty)
    [] (.tup (.cons (.pathN (identPath "A"))
      (.cons (.pathN (identPath "B")) .nil)))
    [((GenParam.tyP "B" []), GArg.ty (.pathN (identPath "B"))),
      ((GenParam.tyP "A" []), GArg.ty (.pathN (identPath "A")))]
    rfl


/-! ## Occurrence counting for type-level expressions

The test-only traversal of a type-level match counts the scrutinees, then
per arm the specific selectors' generics up to (and excluding) the first
selector whose generics shadow the parameter, and the body only when no
selector shadows. -/

/-- Count over a selector list: occurrences in the generics before the
first shadowing selector, and whether a shadowing selector exists. -/
def cntSelsPrefix (p : GenParam) : List Selector → Nat × Bool
  | [] => (0, false)
  | .dflt :: rest => cntSelsPrefix p rest
  | .specific _ g :: rest =>
    if paramGenericsNameConflict p g then (0, true)
    else
      let (c, b) := cntSelsPrefix p rest
      (cntGenericsL p g + c, b)

mutual

/-- Occurrences recorded by the test-only traversal of a type-level
expression. -/
def cntTyLE (p : GenParam) : TyLE → Nat
  | .expr t => cntTy p t
  | .matchE scrut arms => cntScrut p scrut + cntArmList p arms
termination_by x => sizeOf x

/-- Occurrences in a list of match arms. -/
def cntArmList (p : GenParam) : List Arm → Nat
  | [] => 0
  | a :: tl => cntArm p a + cntArmList p tl
termination_by x => sizeOf x

/-- Occurrences in one match arm. -/
def cntArm (p : GenParam) : Arm → Nat
  | .mk sels body =>
    (cntSelsPrefix p sels).1
      + (if (cntSelsPrefix p sels).2 then 0 else cntTyLE p body)
termination_by x => sizeOf x

end


/-! ## Pure lifetime renaming

A parameter-mode substitution of one lifetime parameter for another is a
pure renaming: every lifetime atom equal to the old name becomes the new
name and the rest of the node is untouched.  The `ren*` functions state
that action directly; `presLt_bundle` below proves that the visitor in
lifetime-parameter mode implements it. -/

mutual

/-- Rename lifetime `qn` to `rn` inside a type. -/
def renTy (qn rn : String) : Ty → Ty
  | .pathN pth => .pathN (renPath qn rn pth)
  | .pathQ q pth => .pathQ (renTy qn rn q) (renPath qn rn pth)
  | .tup es => .tup (renTyList qn rn es)

/-- Rename inside a type list. -/
def renTyList (qn rn : String) : TyList → TyList
  | .nil => .nil
  | .cons t tl => .cons (renTy qn rn t) (renTyList qn rn tl)

/-- Rename inside a path (segment arguments only). -/
def renPath (qn rn : String) : Path → Path
  | .mk lead segs => .mk lead (renSegList qn rn segs)

/-- Rename inside a segment list. -/
def renSegList (qn rn : String) : SegList → SegList
  | .nil => .nil
  | .cons id args tl => .cons id (renGArgList qn rn args) (renSegList qn rn tl)

/-- Rename inside a generic-argument list. -/
def renGArgList (qn rn : String) : GArgList → GArgList
  | .nil => .nil
  | .cons g tl => .cons (renGArg qn rn g) (renGArgList qn rn tl)

/-- Rename inside a generic argument; the lifetime case is the one atom
that actually changes. -/
def renGArg (qn rn : String) : GArg → GArg
  | .ty t => .ty (renTy qn rn t)
  | .lt l => .lt (if l = qn then rn else l)
  | .constE e => .constE (renExpr qn rn e)

/-- Rename inside an expression. -/
def renExpr (qn rn : String) : Expr → Expr
  | .pathN pth => .pathN (renPath qn rn pth)
  | .pathQ q pth => .pathQ (renTy qn rn q) (renPath qn rn pth)
  | .call fn args => .call (renExpr qn rn fn) (renExprList qn rn args)
  | .letIn n t v b => .letIn n (renTy qn rn t) (renExpr qn rn v) (renExpr qn rn b)
  | .add x y => .add (renExpr qn rn x) (renExpr qn rn y)
  | .lit n => .lit n

/-- Rename inside an expression list. -/
def renExprList (qn rn : String) : ExprList → ExprList
  | .nil => .nil
  | .cons e tl => .cons (renExpr qn rn e) (renExprList qn rn tl)

end

/-- Rename inside a lifetime parameter's bound list. -/
def renLtB (qn rn : String) (bs : List String) : List String :=
  bs.map (fun l => if l = qn then rn else l)

/-- Rename inside a list of bound paths. -/
def renPathList (qn rn : String) (bs : List Path) : List Path :=
  bs.map (renPath qn rn)

/-- Rename inside a generic parameter (bounds or value type; the declared
ident is untouched). -/
def renGenParam (qn rn : String) : GenParam → GenParam
  | .ltP n bs => .ltP n (renLtB qn rn bs)
  | .tyP n bs => .tyP n (renPathList qn rn bs)
  | .ctP n t => .ctP n (renTy qn rn t)

/-- Rename inside a generics parameter list. -/
def renGenericsL (qn rn : String) (gs : List GenParam) : List GenParam :=
  gs.map (renGenParam qn rn)

/-- Rename inside a scrutinee list. -/
def renScrut (qn rn : String) (ts : List Ty) : List Ty :=
  ts.map (renTy qn rn)

/-- Renaming a lifetime does not change whether a path is a bare ident. -/
theorem pathIsIdent_ren (qn rn m : String) (pth : Path) :
    pathIsIdent m (renPath qn rn pth) = pathIsIdent m pth := by
  rcases pth with ⟨lead, segs⟩
  cases segs with
  | nil => cases lead <;> rfl
  | cons id args tl =>
    cases lead <;> cases args <;> cases tl <;>
      simp [renPath, renSegList, renGArgList, pathIsIdent]

/-- Renaming a lifetime does not change the `subst_in_path` guard. -/
theorem inPathSite_ren (qn rn : String) (p : GenParam) (pth : Path) :
    inPathSite p (renPath qn rn pth) = inPathSite p pth := by
  rcases pth with ⟨lead, segs⟩
  cases p <;> cases segs with
  | _ => first
    | (cases lead <;> rfl)
    | (rename_i id args tl
       cases lead <;> cases args <;> cases tl <;>
         simp [renPath, renSegList, renGArgList, inPathSite])

/-- Renaming a lifetime does not change whether a type is a bare ident. -/
theorem typeIsIdent_ren (qn rn m : String) (t : Ty) :
    typeIsIdent m (renTy qn rn t) = typeIsIdent m t := by
  cases t with
  | pathN pth => simp [renTy, typeIsIdent, pathIsIdent_ren]
  | pathQ q pth => rfl
  | tup es => rfl

set_option maxHeartbeats 1000000 in
/-- Joint statement: renaming a lifetime preserves the occurrence count
of every type-kind parameter (only lifetime atoms change, and the
structural guards inspected by the counter ignore them). -/
theorem renCnt_bundle (qn rn : String) : ∀ (n : Nat),
    (∀ t : Ty, sizeOf t < n → ∀ pn pbs,
      cntTy (.tyP pn pbs) (renTy qn rn t) = cntTy (.tyP pn pbs) t)
    ∧ (∀ ts : TyList, sizeOf ts < n → ∀ pn pbs,
      cntTyList (.tyP pn pbs) (renTyList qn rn ts) = cntTyList (.tyP pn pbs) ts)
    ∧ (∀ pth : Path, sizeOf pth < n → ∀ pn pbs,
      cntPath (.tyP pn pbs) (renPath qn rn pth) = cntPath (.tyP pn pbs) pth)
    ∧ (∀ segs : SegList, sizeOf segs < n → ∀ pn pbs,
      cntSegList (.tyP pn pbs) (renSegList qn rn segs)
        = cntSegList (.tyP pn pbs) segs)
    ∧ (∀ gs : GArgList, sizeOf gs < n → ∀ pn pbs,
      cntGArgList (.tyP pn pbs) (renGArgList qn rn gs)
        = cntGArgList (.tyP pn pbs) gs)
    ∧ (∀ g : GArg, sizeOf g < n → ∀ pn pbs,
      cntGArg (.tyP pn pbs) (renGArg qn rn g) = cntGArg (.tyP pn pbs) g)
    ∧ (∀ e : Expr, sizeOf e < n → ∀ pn pbs,
      cntExpr (.tyP pn pbs) (renExpr qn rn e) = cntExpr (.tyP pn pbs) e)
    ∧ (∀ es : ExprList, sizeOf es < n → ∀ pn pbs,
      cntExprList (.tyP pn pbs) (renExprList qn rn es)
        = cntExprList (.tyP pn pbs) es) := by
  intro n
  induction n with
  | zero =>
    exact ⟨fun x hx => absurd hx (by omega), fun x hx => absurd hx (by omega),
      fun x hx => absurd hx (by omega), fun x hx => absurd hx (by omega),
      fun x hx => absurd hx (by omega), fun x hx => absurd hx (by omega),
      fun x hx => absurd hx (by omega), fun x hx => absurd hx (by omega)⟩
  | succ n ih =>
    obtain ⟨ihTy, ihTL, ihP, ihSL, ihGL, ihG, ihE, ihEL⟩ := ih
    have hTy : ∀ t : Ty, sizeOf t < n + 1 → ∀ pn pbs,
        cntTy (.tyP pn pbs) (renTy qn rn t) = cntTy (.tyP pn pbs) t := by
      intro t hx pn pbs
      cases t with
      | pathN pth =>
        have hp : sizeOf pth < n := by simp at hx; omega
        simp [renTy, cntTy, tyHeadMatch, typeIsIdent, pathIsIdent_ren,
          inPathSite_ren, ihP pth hp]
      | pathQ q pth =>
        have hq : sizeOf q < n := by simp at hx; omega
        have hp : sizeOf pth < n := by simp at hx; omega
        simp [renTy, cntTy, ihTy q hq, ihP pth hp]
      | tup es =>
        have he : sizeOf es < n := by simp at hx; omega
        simp [renTy, cntTy, ihTL es he]
    have hTL : ∀ ts : TyList, sizeOf ts < n + 1 → ∀ pn pbs,
        cntTyList (.tyP pn pbs) (renTyList qn rn ts)
          = cntTyList (.tyP pn pbs) ts := by
      intro ts hx pn pbs
      cases ts with
      | nil => rfl
      | cons t tl =>
        have h1 : sizeOf t < n := by simp at hx; omega
        have h2 : sizeOf tl < n := by simp at hx; omega
        simp [renTyList, cntTyList, ihTy t h1, ihTL tl h2]
    have hP : ∀ pth : Path, sizeOf pth < n + 1 → ∀ pn pbs,
        cntPath (.tyP pn pbs) (renPath qn rn pth)
          = cntPath (.tyP pn pbs) pth := by
      intro pth hx pn pbs
      rcases pth with ⟨lead, segs⟩
      have h1 : sizeOf segs < n := by simp at hx; cases lead <;> omega
      simp [renPath, cntPath, ihSL segs h1]
    have hSL : ∀ segs : SegList, sizeOf segs < n + 1 → ∀ pn pbs,
        cntSegList (.tyP pn pbs) (renSegList qn rn segs)
          = cntSegList (.tyP pn pbs) segs := by
      intro segs hx pn pbs
      cases segs with
      | nil => rfl
      | cons id args tl =>
        have h1 : sizeOf args < n := by simp at hx; omega
        have h2 : sizeOf tl < n := by simp at hx; omega
        simp [renSegList, cntSegList, ihGL args h1, ihSL tl h2]
    have hGL : ∀ gs : GArgList, sizeOf gs < n + 1 → ∀ pn pbs,
        cntGArgList (.tyP pn pbs) (renGArgList qn rn gs)
          = cntGArgList (.tyP pn pbs) gs := by
      intro gs hx pn pbs
      cases gs with
      | nil => rfl
      | cons g tl =>
        have h1 : sizeOf g < n := by simp at hx; omega
        have h2 : sizeOf tl < n := by simp at hx; omega
        simp [renGArgList, cntGArgList, ihG g h1, ihGL tl h2]
    have hG : ∀ g : GArg, sizeOf g < n + 1 → ∀ pn pbs,
        cntGArg (.tyP pn pbs) (renGArg qn rn g) = cntGArg (.tyP pn pbs) g := by
      intro g hx pn pbs
      cases g with
      | ty t =>
        have h1 : sizeOf t < n := by simp at hx; omega
        simp [renGArg, cntGArg, ihTy t h1]
      | lt l => simp [renGArg, cntGArg]
      | constE e =>
        have h1 : sizeOf e < n := by simp at hx; omega
        simp [renGArg, cntGArg, ihE e h1]
    have hE : ∀ e : Expr, sizeOf e < n + 1 → ∀ pn pbs,
        cntExpr (.tyP pn pbs) (renExpr qn rn e) = cntExpr (.tyP pn pbs) e := by
      intro e hx pn pbs
      cases e with
      | pathN pth =>
        have h1 : sizeOf pth < n := by simp at hx; omega
        simp [renExpr, cntExpr, inPathSite_ren, ihP pth h1]
      | pathQ q pth =>
        have h1 : sizeOf q < n := by simp at hx; omega
        have h2 : sizeOf pth < n := by simp at hx; omega
        simp [renExpr, cntExpr, ihTy q h1, ihP pth h2]
      | call fn args =>
        have h1 : sizeOf fn < n := by simp at hx; omega
        have h2 : sizeOf args < n := by simp at hx; omega
        simp [renExpr, cntExpr, ihE fn h1, ihEL args h2]
      | letIn nm t v b =>
        have h1 : sizeOf t < n := by simp at hx; omega
        have h2 : sizeOf v < n := by simp at hx; omega
        have h3 : sizeOf b < n := by simp at hx; omega
        simp [renExpr, cntExpr, ihTy t h1, ihE v h2, ihE b h3]
      | add x y =>
        have h1 : sizeOf x < n := by simp at hx; omega
        have h2 : sizeOf y < n := by simp at hx; omega
        simp [renExpr, cntExpr, ihE x h1, ihE y h2]
      | lit k => rfl
    have hEL : ∀ es : ExprList, sizeOf es < n + 1 → ∀ pn pbs,
        cntExprList (.tyP pn pbs) (renExprList qn rn es)
          = cntExprList (.tyP pn pbs) es := by
      intro es hx pn pbs
      cases es with
      | nil => rfl
      | cons e tl =>
        have h1 : sizeOf e < n := by simp at hx; omega
        have h2 : sizeOf tl < n := by simp at hx; omega
        simp [renExprList, cntExprList, ihE e h1, ihEL tl h2]
    exact ⟨hTy, hTL, hP, hSL, hGL, hG, hE, hEL⟩

/-- Corollary of `renCnt_bundle` on a type. -/
theorem cntTy_ren (qn rn pn : String) (pbs : List Path) (t : Ty) :
    cntTy (.tyP pn pbs) (renTy qn rn t) = cntTy (.tyP pn pbs) t :=
  (renCnt_bundle qn rn (sizeOf t + 1)).1 t (by omega) pn pbs

/-- Corollary of `renCnt_bundle` on a plain path. -/
theorem cntPath_ren (qn rn pn : String) (pbs : List Path) (pth : Path) :
    cntPath (.tyP pn pbs) (renPath qn rn pth) = cntPath (.tyP pn pbs) pth :=
  (renCnt_bundle qn rn (sizeOf pth + 1)).2.2.1 pth (by omega) pn pbs

/-- A type-kind parameter records no occurrences in lifetime bounds. -/
theorem cntLtBounds_tyP (pn : String) (pbs : List Path) :
    ∀ bs : List String, cntLtBounds (.tyP pn pbs) bs = 0 := by
  intro bs
  induction bs with
  | nil => rfl
  | cons b tl ih => simp [cntLtBounds, ih]

/-- Renaming a lifetime preserves a type parameter's count in bound
paths. -/
theorem cntTyBounds_ren (qn rn pn : String) (pbs : List Path) :
    ∀ bs : List Path,
      cntTyBounds (.tyP pn pbs) (renPathList qn rn bs)
        = cntTyBounds (.tyP pn pbs) bs := by
  intro bs
  induction bs with
  | nil => rfl
  | cons b tl ih =>
    simp only [renPathList] at ih
    simp [renPathList, cntTyBounds, cntPath_ren, ih]

/-- Renaming a lifetime preserves a type parameter's count in a generic
parameter. -/
theorem cntGenParam_ren (qn rn pn : String) (pbs : List Path)
    (q : GenParam) :
    cntGenParam (.tyP pn pbs) (renGenParam qn rn q)
      = cntGenParam (.tyP pn pbs) q := by
  cases q with
  | ltP n bs => simp [renGenParam, cntGenParam, cntLtBounds_tyP]
  | tyP n bs => simp [renGenParam, cntGenParam, cntTyBounds_ren]
  | ctP n t => simp [renGenParam, cntGenParam, cntTy_ren]

/-- Renaming a lifetime preserves a type parameter's count in a generics
list. -/
theorem cntGenericsL_ren (qn rn pn : String) (pbs : List Path) :
    ∀ gs : List GenParam,
      cntGenericsL (.tyP pn pbs) (renGenericsL qn rn gs)
        = cntGenericsL (.tyP pn pbs) gs := by
  intro gs
  induction gs with
  | nil => rfl
  | cons q tl ih =>
    simp only [renGenericsL] at ih
    simp [renGenericsL, cntGenericsL, cntGenParam_ren, ih]

/-- Renaming a lifetime preserves a type parameter's count in a scrutinee
list. -/
theorem cntScrut_ren (qn rn pn : String) (pbs : List Path) :
    ∀ ts : List Ty,
      cntScrut (.tyP pn pbs) (renScrut qn rn ts)
        = cntScrut (.tyP pn pbs) ts := by
  intro ts
  induction ts with
  | nil => rfl
  | cons t tl ih =>
    simp only [renScrut] at ih
    simp [renScrut, cntScrut, cntTy_ren, ih]

/-- Renaming a lifetime keeps every parameter's declared name. -/
theorem renGenParam_pname (qn rn : String) (q : GenParam) :
    (renGenParam qn rn q).pname = q.pname := by
  cases q <;> rfl

/-- Renaming a lifetime keeps every parameter's kind. -/
theorem renGenParam_pkind (qn rn : String) (q : GenParam) :
    (renGenParam qn rn q).pkind = q.pkind := by
  cases q <;> rfl

/-- A name conflict against a type-kind parameter is unchanged by a
lifetime renaming of the other parameter. -/
theorem paramNameConflict_ren (pn : String) (pbs : List Path)
    (qn rn : String) (q : GenParam) :
    paramNameConflict (.tyP pn pbs) (renGenParam qn rn q)
      = paramNameConflict (.tyP pn pbs) q := by
  cases q <;> rfl

/-- A generics-list name conflict against a type-kind parameter is
unchanged by a lifetime renaming of the list. -/
theorem paramGenericsNameConflict_ren (pn : String) (pbs : List Path)
    (qn rn : String) :
    ∀ gs : List GenParam,
      paramGenericsNameConflict (.tyP pn pbs) (renGenericsL qn rn gs)
        = paramGenericsNameConflict (.tyP pn pbs) gs := by
  intro gs
  induction gs with
  | nil => rfl
  | cons q tl ih =>
    simp only [renGenericsL, List.map, paramGenericsNameConflict, List.any]
    rw [paramNameConflict_ren]
    have ih' := ih
    simp only [renGenericsL, paramGenericsNameConflict] at ih'
    rw [ih']

set_option maxHeartbeats 1000000 in
/-- Joint statement: substituting one lifetime parameter for another
(parameter mode) records an occurrence at every matching lifetime atom,
never errors, and acts as the pure renaming `ren*`. -/
theorem presLt_bundle (qn : String) (qbs : List String) (rn : String)
    (rbs : List String) : ∀ (n : Nat),
    (∀ t : Ty, sizeOf t < n → ∀ s,
      substTy (.ltP qn qbs) (.param (.ltP rn rbs)) s t
        = (s.addN (cntTy (.ltP qn qbs) t), renTy qn rn t))
    ∧ (∀ ts : TyList, sizeOf ts < n → ∀ s,
      substTyList (.ltP qn qbs) (.param (.ltP rn rbs)) s ts
        = (s.addN (cntTyList (.ltP qn qbs) ts), renTyList qn rn ts))
    ∧ (∀ pth : Path, sizeOf pth < n → ∀ s,
      substPathArgs (.ltP qn qbs) (.param (.ltP rn rbs)) s pth
        = (s.addN (cntPath (.ltP qn qbs) pth), renPath qn rn pth))
    ∧ (∀ segs : SegList, sizeOf segs < n → ∀ s,
      substSegList (.ltP qn qbs) (.param (.ltP rn rbs)) s segs
        = (s.addN (cntSegList (.ltP qn qbs) segs), renSegList qn rn segs))
    ∧ (∀ gs : GArgList, sizeOf gs < n → ∀ s,
      substGArgList (.ltP qn qbs) (.param (.ltP rn rbs)) s gs
        = (s.addN (cntGArgList (.ltP qn qbs) gs), renGArgList qn rn gs))
    ∧ (∀ g : GArg, sizeOf g < n → ∀ s,
      substGArg (.ltP qn qbs) (.param (.ltP rn rbs)) s g
        = (s.addN (cntGArg (.ltP qn qbs) g), renGArg qn rn g))
    ∧ (∀ e : Expr, sizeOf e < n → ∀ s,
      substExpr (.ltP qn qbs) (.param (.ltP rn rbs)) s e
        = (s.addN (cntExpr (.ltP qn qbs) e), renExpr qn rn e))
    ∧ (∀ es : ExprList, sizeOf es < n → ∀ s,
      substExprList (.ltP qn qbs) (.param (.ltP rn rbs)) s es
        = (s.addN (cntExprList (.ltP qn qbs) es), renExprList qn rn es)) := by
  intro n
  induction n with
  | zero =>
    exact ⟨fun x hx => absurd hx (by omega), fun x hx => absurd hx (by omega),
      fun x hx => absurd hx (by omega), fun x hx => absurd hx (by omega),
      fun x hx => absurd hx (by omega), fun x hx => absurd hx (by omega),
      fun x hx => absurd hx (by omega), fun x hx => absurd hx (by omega)⟩
  | succ n ih =>
    obtain ⟨ihTy, ihTL, ihP, ihSL, ihGL, ihG, ihE, ihEL⟩ := ih
    have hTy : ∀ t : Ty, sizeOf t < n + 1 → ∀ s,
        substTy (.ltP qn qbs) (.param (.ltP rn rbs)) s t
          = (s.addN (cntTy (.ltP qn qbs) t), renTy qn rn t) := by
      intro t hx s
      cases t with
      | pathN pth =>
        have hp : sizeOf pth < n := by simp at hx; omega
        have h2 : inPathSite (.ltP qn qbs) pth = false := by
          rcases pth with ⟨lead, segs⟩; rfl
        simp [substTy, cntTy, renTy, tyHeadMatch, h2,
          substInPath_not_site _ _ s pth h2, ihP pth hp]
      | pathQ q pth =>
        have hq : sizeOf q < n := by simp at hx; omega
        have hp : sizeOf pth < n := by simp at hx; omega
        simp [substTy, cntTy, renTy, ihTy q hq, ihP pth hp, SRes.addN_addN]
      | tup es =>
        have he : sizeOf es < n := by simp at hx; omega
        simp [substTy, cntTy, renTy, ihTL es he]
    have hTL : ∀ ts : TyList, sizeOf ts < n + 1 → ∀ s,
        substTyList (.ltP qn qbs) (.param (.ltP rn rbs)) s ts
          = (s.addN (cntTyList (.ltP qn qbs) ts), renTyList qn rn ts) := by
      intro ts hx s
      cases ts with
      | nil => simp [substTyList, cntTyList, renTyList, SRes.addN_zero]
      | cons t tl =>
        have h1 : sizeOf t < n := by simp at hx; omega
        have h2 : sizeOf tl < n := by simp at hx; omega
        simp [substTyList, cntTyList, renTyList, ihTy t h1, ihTL tl h2,
          SRes.addN_addN]
    have hP : ∀ pth : Path, sizeOf pth < n + 1 → ∀ s,
        substPathArgs (.ltP qn qbs) (.param (.ltP rn rbs)) s pth
          = (s.addN (cntPath (.ltP qn qbs) pth), renPath qn rn pth) := by
      intro pth hx s
      rcases pth with ⟨lead, segs⟩
      have h1 : sizeOf segs < n := by simp at hx; cases lead <;> omega
      simp [substPathArgs, cntPath, renPath, ihSL segs h1]
    have hSL : ∀ segs : SegList, sizeOf segs < n + 1 → ∀ s,
        substSegList (.ltP qn qbs) (.param (.ltP rn rbs)) s segs
          = (s.addN (cntSegList (.ltP qn qbs) segs), renSegList qn rn segs) := by
      intro segs hx s
      cases segs with
      | nil => simp [substSegList, cntSegList, renSegList, SRes.addN_zero]
      | cons id args tl =>
        have h1 : sizeOf args < n := by simp at hx; omega
        have h2 : sizeOf tl < n := by simp at hx; omega
        simp [substSegList, cntSegList, renSegList, ihGL args h1, ihSL tl h2,
          SRes.addN_addN]
    have hGL : ∀ gs : GArgList, sizeOf gs < n + 1 → ∀ s,
        substGArgList (.ltP qn qbs) (.param (.ltP rn rbs)) s gs
          = (s.addN (cntGArgList (.ltP qn qbs) gs), renGArgList qn rn gs) := by
      intro gs hx s
      cases gs with
      | nil => simp [substGArgList, cntGArgList, renGArgList, SRes.addN_zero]
      | cons g tl =>
        have h1 : sizeOf g < n := by simp at hx; omega
        have h2 : sizeOf tl < n := by simp at hx; omega
        simp [substGArgList, cntGArgList, renGArgList, ihG g h1, ihGL tl h2,
          SRes.addN_addN]
    have hG : ∀ g : GArg, sizeOf g < n + 1 → ∀ s,
        substGArg (.ltP qn qbs) (.param (.ltP rn rbs)) s g
          = (s.addN (cntGArg (.ltP qn qbs) g), renGArg qn rn g) := by
      intro g hx s
      cases g with
      | ty t =>
        have h1 : sizeOf t < n := by simp at hx; omega
        simp [substGArg, cntGArg, renGArg, ihTy t h1]
      | lt l =>
        by_cases h : l = qn
        · simp [substGArg, cntGArg, renGArg, substLifetime, h, applySub,
            getLifetime, SRes.addN_one]
        · simp [substGArg, cntGArg, renGArg, substLifetime, h, SRes.addN_zero]
      | constE e =>
        have h1 : sizeOf e < n := by simp at hx; omega
        simp [substGArg, cntGArg, renGArg, ihE e h1]
    have hE : ∀ e : Expr, sizeOf e < n + 1 → ∀ s,
        substExpr (.ltP qn qbs) (.param (.ltP rn rbs)) s e
          = (s.addN (cntExpr (.ltP qn qbs) e), renExpr qn rn e) := by
      intro e hx s
      cases e with
      | pathN pth =>
        have h1 : sizeOf pth < n := by simp at hx; omega
        have h2 : inPathSite (.ltP qn qbs) pth = false := by
          rcases pth with ⟨lead, segs⟩; rfl
        simp [substExpr, cntExpr, renExpr, h2,
          substInPath_not_site _ _ s pth h2, ihP pth h1]
      | pathQ q pth =>
        have h1 : sizeOf q < n := by simp at hx; omega
        have h2 : sizeOf pth < n := by simp at hx; omega
        simp [substExpr, cntExpr, renExpr, ihTy q h1, ihP pth h2,
          SRes.addN_addN]
      | call fn args =>
        have h1 : sizeOf fn < n := by simp at hx; omega
        have h2 : sizeOf args < n := by simp at hx; omega
        simp [substExpr, cntExpr, renExpr, constWrap, ihE fn h1, ihEL args h2,
          SRes.addN_addN]
      | letIn nm t v b =>
        have h1 : sizeOf t < n := by simp at hx; omega
        have h2 : sizeOf v < n := by simp at hx; omega
        have h3 : sizeOf b < n := by simp at hx; omega
        simp [substExpr, cntExpr, renExpr, constWrap, ihTy t h1, ihE v h2,
          ihE b h3, SRes.addN_addN]
      | add x y =>
        have h1 : sizeOf x < n := by simp at hx; omega
        have h2 : sizeOf y < n := by simp at hx; omega
        simp [substExpr, cntExpr, renExpr, constWrap, ihE x h1, ihE y h2,
          SRes.addN_addN]
      | lit k =>
        simp [substExpr, cntExpr, renExpr, constWrap, SRes.addN_zero]
    have hEL : ∀ es : ExprList, sizeOf es < n + 1 → ∀ s,
        substExprList (.ltP qn qbs) (.param (.ltP rn rbs)) s es
          = (s.addN (cntExprList (.ltP qn qbs) es), renExprList qn rn es) := by
      intro es hx s
      cases es with
      | nil => simp [substExprList, cntExprList, renExprList, SRes.addN_zero]
      | cons e tl =>
        have h1 : sizeOf e < n := by simp at hx; omega
        have h2 : sizeOf tl < n := by simp at hx; omega
        simp [substExprList, cntExprList, renExprList, ihE e h1, ihEL tl h2,
          SRes.addN_addN]
    exact ⟨hTy, hTL, hP, hSL, hGL, hG, hE, hEL⟩

/-- Corollary of `presLt_bundle` on a type. -/
theorem substTy_presLt (qn : String) (qbs : List String) (rn : String)
    (rbs : List String) (t : Ty) (s : SRes) :
    substTy (.ltP qn qbs) (.param (.ltP rn rbs)) s t
      = (s.addN (cntTy (.ltP qn qbs) t), renTy qn rn t) :=
  (presLt_bundle qn qbs rn rbs (sizeOf t + 1)).1 t (by omega) s

/-- Corollary of `presLt_bundle` on a plain path. -/
theorem substPathArgs_presLt (qn : String) (qbs : List String) (rn : String)
    (rbs : List String) (pth : Path) (s : SRes) :
    substPathArgs (.ltP qn qbs) (.param (.ltP rn rbs)) s pth
      = (s.addN (cntPath (.ltP qn qbs) pth), renPath qn rn pth) :=
  (presLt_bundle qn qbs rn rbs (sizeOf pth + 1)).2.2.1 pth (by omega) s

theorem SRes.pushOcc_addN (s : SRes) (k : Nat) :
    (s.pushOcc).addN k = s.addN (1 + k) := by
  cases s <;> simp [SRes.pushOcc, SRes.addN, Nat.add_comm, Nat.add_assoc,
    Nat.add_left_comm]

/-- Lifetime-parameter renaming acts on a lifetime parameter's bounds as
the pure bound renaming, recording the matching atoms. -/
theorem substLtBounds_presLt (qn : String) (qbs : List String) (rn : String)
    (rbs : List String) :
    ∀ (bs : List String) (s : SRes),
      substLtBounds (.ltP qn qbs) (.param (.ltP rn rbs)) s bs
        = (s.addN (cntLtBounds (.ltP qn qbs) bs), renLtB qn rn bs) := by
  intro bs
  induction bs with
  | nil => intro s; simp [substLtBounds, cntLtBounds, renLtB, SRes.addN_zero]
  | cons b tl ih =>
    intro s
    simp only [renLtB, List.map] at ih ⊢
    by_cases h : b = qn
    · simp [substLtBounds, cntLtBounds, substLifetime, h, applySub,
        getLifetime, ih, SRes.pushOcc_addN]
    · simp [substLtBounds, cntLtBounds, substLifetime, h, ih]

/-- Lifetime-parameter renaming on a type parameter's bound paths. -/
theorem substTyBounds_presLt (qn : String) (qbs : List String) (rn : String)
    (rbs : List String) :
    ∀ (bs : List Path) (s : SRes),
      substTyBounds (.ltP qn qbs) (.param (.ltP rn rbs)) s bs
        = (s.addN (cntTyBounds (.ltP qn qbs) bs), renPathList qn rn bs) := by
  intro bs
  induction bs with
  | nil => intro s; simp [substTyBounds, cntTyBounds, renPathList, SRes.addN_zero]
  | cons b tl ih =>
    intro s
    simp only [renPathList, List.map] at ih ⊢
    simp [substTyBounds, cntTyBounds, substPathArgs_presLt, ih, SRes.addN_addN]

/-- Lifetime-parameter renaming on a generic parameter. -/
theorem substGenParam_presLt (qn : String) (qbs : List String) (rn : String)
    (rbs : List String) (q : GenParam) (s : SRes) :
    substGenParam (.ltP qn qbs) (.param (.ltP rn rbs)) s q
      = (s.addN (cntGenParam (.ltP qn qbs) q), renGenParam qn rn q) := by
  cases q with
  | ltP n bs => simp [substGenParam, cntGenParam, renGenParam, substLtBounds_presLt]
  | tyP n bs => simp [substGenParam, cntGenParam, renGenParam, substTyBounds_presLt]
  | ctP n t => simp [substGenParam, cntGenParam, renGenParam, substTy_presLt]

/-- Lifetime-parameter renaming on a generics list. -/
theorem substGenericsL_presLt (qn : String) (qbs : List String) (rn : String)
    (rbs : List String) :
    ∀ (gs : List GenParam) (s : SRes),
      substGenericsL (.ltP qn qbs) (.param (.ltP rn rbs)) s gs
        = (s.addN (cntGenericsL (.ltP qn qbs) gs), renGenericsL qn rn gs) := by
  intro gs
  induction gs with
  | nil => intro s; simp [substGenericsL, cntGenericsL, renGenericsL, SRes.addN_zero]
  | cons q tl ih =>
    intro s
    simp only [renGenericsL, List.map] at ih ⊢
    simp [substGenericsL, cntGenericsL, substGenParam_presLt, ih, SRes.addN_addN]

/-- Lifetime-parameter renaming on a scrutinee list. -/
theorem substScrut_presLt (qn : String) (qbs : List String) (rn : String)
    (rbs : List String) :
    ∀ (ts : List Ty) (s : SRes),
      substScrut (.ltP qn qbs) (.param (.ltP rn rbs)) s ts
        = (s.addN (cntScrut (.ltP qn qbs) ts), renScrut qn rn ts) := by
  intro ts
  induction ts with
  | nil => intro s; simp [substScrut, cntScrut, renScrut, SRes.addN_zero]
  | cons t tl ih =>
    intro s
    simp only [renScrut, List.map] at ih ⊢
    simp [substScrut, cntScrut, substTy_presLt, ih, SRes.addN_addN]

/-- A type parameter's traversal ignores lifetime bound atoms in any
mode. -/
theorem substLtBounds_tyP (pn : String) (pbs : List Path) (a : SubstArg) :
    ∀ (bs : List String) (s : SRes),
      substLtBounds (.tyP pn pbs) a s bs = (s, bs) := by
  intro bs
  induction bs with
  | nil => intro s; simp [substLtBounds]
  | cons b tl ih => intro s; simp [substLtBounds, substLifetime, ih]

/-- Substituting a lifetime argument for a type parameter on a type
parameter's bound paths: nodes unchanged, first occurrence errors. -/
theorem substTyBounds_kindErr (pn : String) (pbs : List Path) (ln : String) :
    ∀ (bs : List Path) (s : SRes),
      substTyBounds (.tyP pn pbs) (.arg (.lt ln)) s bs
        = (s.kindErr (cntTyBounds (.tyP pn pbs) bs), bs) := by
  intro bs
  induction bs with
  | nil => intro s; simp [substTyBounds, cntTyBounds, SRes.kindErr_zero]
  | cons b tl ih =>
    intro s
    have hb := (kindErr_bundle pn pbs ln (sizeOf b + 1)).2.2.1 b (by omega) s
    simp [substTyBounds, cntTyBounds, hb, ih, SRes.kindErr_comp]

/-- Substituting a lifetime argument for a type parameter on a generic
parameter. -/
theorem substGenParam_kindErr (pn : String) (pbs : List Path) (ln : String)
    (q : GenParam) (s : SRes) :
    substGenParam (.tyP pn pbs) (.arg (.lt ln)) s q
      = (s.kindErr (cntGenParam (.tyP pn pbs) q), q) := by
  cases q with
  | ltP n bs =>
    simp [substGenParam, cntGenParam, substLtBounds_tyP, cntLtBounds_tyP,
      SRes.kindErr_zero]
  | tyP n bs => simp [substGenParam, cntGenParam, substTyBounds_kindErr]
  | ctP n t =>
    have ht := (kindErr_bundle pn pbs ln (sizeOf t + 1)).1 t (by omega) s
    simp [substGenParam, cntGenParam, ht]

/-- Substituting a lifetime argument for a type parameter on a generics
list. -/
theorem substGenericsL_kindErr (pn : String) (pbs : List Path) (ln : String) :
    ∀ (gs : List GenParam) (s : SRes),
      substGenericsL (.tyP pn pbs) (.arg (.lt ln)) s gs
        = (s.kindErr (cntGenericsL (.tyP pn pbs) gs), gs) := by
  intro gs
  induction gs with
  | nil => intro s; simp [substGenericsL, cntGenericsL, SRes.kindErr_zero]
  | cons q tl ih =>
    intro s
    simp [substGenericsL, cntGenericsL, substGenParam_kindErr, ih,
      SRes.kindErr_comp]

/-- Substituting a lifetime argument for a type parameter on a scrutinee
list. -/
theorem substScrut_kindErr (pn : String) (pbs : List Path) (ln : String) :
    ∀ (ts : List Ty) (s : SRes),
      substScrut (.tyP pn pbs) (.arg (.lt ln)) s ts
        = (s.kindErr (cntScrut (.tyP pn pbs) ts), ts) := by
  intro ts
  induction ts with
  | nil => intro s; simp [substScrut, cntScrut, SRes.kindErr_zero]
  | cons t tl ih =>
    intro s
    have ht := (kindErr_bundle pn pbs ln (sizeOf t + 1)).1 t (by omega) s
    simp [substScrut, cntScrut, ht, ih, SRes.kindErr_comp]

/-- Renaming twice is renaming to the final name. -/
theorem setPName_setPName (q : GenParam) (m1 m2 : String) :
    setPName (setPName q m1) m2 = setPName q m2 := by
  cases q <;> rfl

/-- Renaming keeps the parameter's kind. -/
theorem setPName_pkind (q : GenParam) (m : String) :
    (setPName q m).pkind = q.pkind := by
  cases q <;> rfl

/-- Renaming keeps a parameter's occurrence count (bounds untouched). -/
theorem cntGenParam_setPName (p q : GenParam) (m : String) :
    cntGenParam p (setPName q m) = cntGenParam p q := by
  cases q <;> rfl

/-- The underscore loop only ever renames its parameter. -/
theorem addUndersLoop_shape (conf : GenParam → Except String Bool) :
    ∀ (fuel : Nat) (q q' : GenParam),
      addUndersLoop conf fuel q = some (.ok q') → ∃ m, q' = setPName q m := by
  intro fuel
  induction fuel with
  | zero => intro q q' h; simp [addUndersLoop] at h
  | succ f ih =>
    intro q q' h
    simp only [addUndersLoop] at h
    cases hc : conf (addUnderscoreSuffix q) with
    | error m => simp [hc] at h
    | ok b =>
      cases b with
      | true =>
        simp only [hc] at h
        obtain ⟨m, hm⟩ := ih (addUnderscoreSuffix q) q' h
        exact ⟨m, by simp [hm, addUnderscoreSuffix, setPName_setPName]⟩
      | false =>
        simp only [hc, Option.some.injEq, Except.ok.injEq] at h
        exact ⟨q.pname ++ "_", by simp [← h, addUnderscoreSuffix]⟩

/-- A successful rename from `add_underscores_if_conflicting` returns the
original parameter and a renaming of it, and only fires on a conflict. -/
theorem addUnders_shape (fuel : Nat) (conf : GenParam → Except String Bool)
    (q np op : GenParam)
    (h : addUnders fuel conf q = some (.ok (np, some op))) :
    op = q ∧ (∃ m, np = setPName q m) ∧ conf q = .ok true := by
  simp only [addUnders] at h
  cases hc : conf q with
  | error m => simp [hc] at h
  | ok b =>
    cases b with
    | false => simp [hc] at h
    | true =>
      simp only [hc] at h
      cases hl : addUndersLoop conf fuel q with
      | none => simp [hl] at h
      | some r =>
        cases r with
        | error m => simp [hl] at h
        | ok q' =>
          simp only [hl, Option.some.injEq, Except.ok.injEq, Prod.mk.injEq] at h
          exact ⟨h.2.symm, ⟨(addUndersLoop_shape conf fuel q q' hl).imp
            (fun m hm => by rw [← h.1, hm]), rfl⟩⟩

/-- With a conflict predicate that never errors, the underscore loop
never errors. -/
theorem addUndersLoop_noErr (conf : GenParam → Except String Bool)
    (hok : ∀ x, ∃ b, conf x = .ok b) :
    ∀ (fuel : Nat) (q : GenParam) (r : Except String (GenParam)),
      addUndersLoop conf fuel q = some r → ∃ v, r = .ok v := by
  intro fuel
  induction fuel with
  | zero => intro q r h; simp [addUndersLoop] at h
  | succ f ih =>
    intro q r h
    simp only [addUndersLoop] at h
    obtain ⟨b, hb⟩ := hok (addUnderscoreSuffix q)
    cases b with
    | true =>
      simp only [hb] at h
      exact ih (addUnderscoreSuffix q) r h
    | false =>
      simp only [hb, Option.some.injEq] at h
      exact ⟨addUnderscoreSuffix q, h.symm⟩

/-- With a conflict predicate that never errors,
`add_underscores_if_conflicting` never errors. -/
theorem addUnders_noErr (fuel : Nat) (conf : GenParam → Except String Bool)
    (hok : ∀ x, ∃ b, conf x = .ok b) (q : GenParam)
    (r : Except String (GenParam × Option GenParam))
    (h : addUnders fuel conf q = some r) : ∃ v, r = .ok v := by
  simp only [addUnders] at h
  obtain ⟨b, hb⟩ := hok q
  cases b with
  | false =>
    simp only [hb, Option.some.injEq] at h
    exact ⟨(q, none), h.symm⟩
  | true =>
    simp only [hb] at h
    cases hl : addUndersLoop conf fuel q with
    | none => simp [hl] at h
    | some r' =>
      obtain ⟨v, hv⟩ := addUndersLoop_noErr conf hok fuel q r' hl
      subst hv
      simp only [hl, Option.some.injEq] at h
      exact ⟨(v, some q), h.symm⟩

/-- The parameter-mode conflict predicate never errors. -/
theorem confFor_param_ok (arg : GenParam) (q : GenParam) :
    confFor (.param arg) q = .ok (paramNameConflict q arg) := rfl

/-- The lifetime-argument conflict predicate never errors and decides a
lifetime-atom count. -/
theorem confFor_argLt_ok (ln : String) (q : GenParam) :
    confFor (.arg (.lt ln)) q
      = .ok (decide (cntGArg q (.lt ln) ≠ 0)) := by
  simp [confFor, referencesParamGArg_eq]

/-- Only a lifetime parameter name-conflicts with a lifetime parameter
argument. -/
theorem paramNameConflict_lt_arg (q : GenParam) (rn : String)
    (rbs : List String) (h : paramNameConflict q (.ltP rn rbs) = true) :
    ∃ nm nbs, q = .ltP nm nbs := by
  cases q with
  | ltP nm nbs => exact ⟨nm, nbs, rfl⟩
  | tyP nm nbs => simp [paramNameConflict] at h
  | ctP nm t => simp [paramNameConflict] at h

/-- Only a lifetime parameter references a lifetime argument. -/
theorem cntGArg_lt_param (q : GenParam) (ln : String)
    (h : cntGArg q (.lt ln) ≠ 0) : ∃ nm nbs, q = .ltP nm nbs := by
  cases q with
  | ltP nm nbs => exact ⟨nm, nbs, rfl⟩
  | tyP nm nbs => simp [cntGArg] at h
  | ctP nm t => simp [cntGArg] at h

/-- Occurrences in the still-unprocessed part of an arm: the selector
tail plus the body (the early-stop semantics of the selector loop). -/
def cntSB (p : GenParam) (sels : List Selector) (body : TyLE) : Nat :=
  (cntSelsPrefix p sels).1
    + (if (cntSelsPrefix p sels).2 then 0 else cntTyLE p body)

theorem cntArm_eq_cntSB (p : GenParam) (sels : List Selector) (body : TyLE) :
    cntArm p (.mk sels body) = cntSB p sels body := by
  simp [cntArm, cntSB]

theorem cntSB_nil (p : GenParam) (b : TyLE) : cntSB p [] b = cntTyLE p b := by
  simp [cntSB, cntSelsPrefix]

theorem cntSB_dflt (p : GenParam) (l : List Selector) (b : TyLE) :
    cntSB p (.dflt :: l) b = cntSB p l b := by
  simp [cntSB, cntSelsPrefix]

theorem cntSB_spec_conflict (p : GenParam) (cn : String) (g : List GenParam)
    (l : List Selector) (b : TyLE)
    (h : paramGenericsNameConflict p g = true) :
    cntSB p (.specific cn g :: l) b = 0 := by
  simp [cntSB, cntSelsPrefix, h]

theorem cntSB_spec (p : GenParam) (cn : String) (g : List GenParam)
    (l : List Selector) (b : TyLE)
    (h : paramGenericsNameConflict p g = false) :
    cntSB p (.specific cn g :: l) b = cntGenericsL p g + cntSB p l b := by
  rcases hsp : cntSelsPrefix p l with ⟨c, flag⟩
  simp only [cntSB, cntSelsPrefix, h, Bool.false_eq_true, if_false, hsp]
  cases flag with
  | true => simp
  | false => simp; omega

theorem cntSB_congr (p : GenParam) (l : List Selector) (b1 b2 : TyLE)
    (h : cntTyLE p b1 = cntTyLE p b2) : cntSB p l b1 = cntSB p l b2 := by
  simp [cntSB, h]

/-- Replacing a list entry by one with the same occurrence count keeps
the list's count. -/
theorem cntGenericsL_set (p : GenParam) :
    ∀ (gs : List GenParam) (i : Nat) (prm q' : GenParam),
      gs.get? i = some prm → cntGenParam p q' = cntGenParam p prm →
      cntGenericsL p (gs.set i q') = cntGenericsL p gs := by
  intro gs
  induction gs with
  | nil => intro i prm q' h1 h2; simp at h1
  | cons a tl ih =>
    intro i prm q' h1 h2
    cases i with
    | zero =>
      simp only [List.get?] at h1
      injection h1 with h1
      subst h1
      simp [List.set, cntGenericsL, h2]
    | succ j =>
      simp only [List.get?] at h1
      simp [List.set, cntGenericsL, ih j prm q' h1 h2]

/-- Replacing a list entry by one with the same conflict status keeps the
list's conflict status. -/
theorem paramGenericsNameConflict_set (p : GenParam) :
    ∀ (gs : List GenParam) (i : Nat) (prm q' : GenParam),
      gs.get? i = some prm →
      paramNameConflict p q' = paramNameConflict p prm →
      paramGenericsNameConflict p (gs.set i q')
        = paramGenericsNameConflict p gs := by
  intro gs
  induction gs with
  | nil => intro i prm q' h1 h2; simp at h1
  | cons a tl ih =>
    intro i prm q' h1 h2
    cases i with
    | zero =>
      simp only [List.get?] at h1
      injection h1 with h1
      subst h1
      simp [List.set, paramGenericsNameConflict, h2]
    | succ j =>
      simp only [List.get?] at h1
      have := ih j prm q' h1 h2
      simp only [paramGenericsNameConflict, List.any] at this ⊢
      simp [List.set, this]


set_option maxHeartbeats 2000000 in
/-- Joint statement over the fueled arm substitution: the rename pass of
`subst_with_multi_generics` (substituting one lifetime parameter for
another in parameter mode) never errors — the state only accumulates
occurrences — and preserves the occurrence count, generics-shadowing
status and selector structure seen by every type-kind parameter. -/
theorem rltTyLE_bundle : ∀ fuel : Nat,
    (∀ (qn : String) (qbs : List String) (rn : String) (rbs : List String)
       (s : SRes) (tle : TyLE) (s2 : SRes) (tle2 : TyLE),
      substTyLE (.ltP qn qbs) (.param (.ltP rn rbs)) fuel s tle
        = some (s2, tle2) →
      (∃ c, s2 = s.addN c)
      ∧ ∀ pn pbs, cntTyLE (.tyP pn pbs) tle2 = cntTyLE (.tyP pn pbs) tle)
    ∧ (∀ (qn : String) (qbs : List String) (rn : String) (rbs : List String)
       (s : SRes) (arms : List Arm) (s2 : SRes) (arms2 : List Arm),
      substArmList (.ltP qn qbs) (.param (.ltP rn rbs)) fuel s arms
        = some (s2, arms2) →
      (∃ c, s2 = s.addN c)
      ∧ ∀ pn pbs, cntArmList (.tyP pn pbs) arms2
          = cntArmList (.tyP pn pbs) arms)
    ∧ (∀ (qn : String) (qbs : List String) (rn : String) (rbs : List String)
       (s : SRes) (arm : Arm) (s2 : SRes) (arm2 : Arm),
      substArm (.ltP qn qbs) (.param (.ltP rn rbs)) fuel s arm
        = some (s2, arm2) →
      (∃ c, s2 = s.addN c)
      ∧ ∀ pn pbs, cntArm (.tyP pn pbs) arm2 = cntArm (.tyP pn pbs) arm)
    ∧ (∀ (qn : String) (qbs : List String) (rn : String) (rbs : List String)
       (s : SRes) (done sels : List Selector) (body : TyLE) (s2 : SRes)
       (arm2 : Arm),
      substSels (.ltP qn qbs) (.param (.ltP rn rbs)) fuel s done sels body
        = some (s2, arm2) →
      (∃ c, s2 = s.addN c)
      ∧ ∃ sels2 body2, arm2 = .mk (done ++ sels2) body2
          ∧ ∀ pn pbs, cntSB (.tyP pn pbs) sels2 body2
              = cntSB (.tyP pn pbs) sels body)
    ∧ (∀ (qn : String) (qbs : List String) (rn : String) (rbs : List String)
       (i : Nat) (g : List GenParam) (body : TyLE) (ren : Bool)
       (res : Except String Bool) (g2 : List GenParam) (body2 : TyLE),
      rcpArm (.ltP qn qbs) (.param (.ltP rn rbs)) fuel i g body ren
        = some (res, g2, body2) →
      (∃ b, res = .ok b)
      ∧ (∀ pn pbs,
          paramGenericsNameConflict (.tyP pn pbs) g2
            = paramGenericsNameConflict (.tyP pn pbs) g
          ∧ cntGenericsL (.tyP pn pbs) g2 = cntGenericsL (.tyP pn pbs) g)
      ∧ (∀ pn pbs, cntTyLE (.tyP pn pbs) body2
          = cntTyLE (.tyP pn pbs) body)) := by
  intro fuel
  induction fuel with
  | zero =>
    refine ⟨?_, ?_, ?_, ?_, ?_⟩
    · intro qn qbs rn rbs s tle s2 tle2 h; simp [substTyLE] at h
    · intro qn qbs rn rbs s arms s2 arms2 h; simp [substArmList] at h
    · intro qn qbs rn rbs s arm s2 arm2 h; simp [substArm] at h
    · intro qn qbs rn rbs s done sels body s2 arm2 h; simp [substSels] at h
    · intro qn qbs rn rbs i g body ren res g2 body2 h; simp [rcpArm] at h
  | succ f ih =>
    obtain ⟨ihT, ihAL, ihAR, ihSL, ihRC⟩ := ih
    have hRC : ∀ (qn : String) (qbs : List String) (rn : String)
        (rbs : List String) (i : Nat) (g : List GenParam) (body : TyLE)
        (ren : Bool) (res : Except String Bool) (g2 : List GenParam)
        (body2 : TyLE),
        rcpArm (.ltP qn qbs) (.param (.ltP rn rbs)) (f + 1) i g body ren
          = some (res, g2, body2) →
        (∃ b, res = .ok b)
        ∧ (∀ pn pbs,
            paramGenericsNameConflict (.tyP pn pbs) g2
              = paramGenericsNameConflict (.tyP pn pbs) g
            ∧ cntGenericsL (.tyP pn pbs) g2 = cntGenericsL (.tyP pn pbs) g)
        ∧ (∀ pn pbs, cntTyLE (.tyP pn pbs) body2
            = cntTyLE (.tyP pn pbs) body) := by
      intro qn qbs rn rbs i g body ren res g2 body2 h
      simp only [rcpArm] at h
      split at h
      · simp only [Option.some.injEq, Prod.mk.injEq] at h
        obtain ⟨h1, h2, h3⟩ := h
        subst h1; subst h2; subst h3
        exact ⟨⟨ren, rfl⟩, fun pn pbs => ⟨rfl, rfl⟩, fun pn pbs => rfl⟩
      · rename_i prm heqg
        split at h
        · exact absurd h (by simp)
        · rename_i m heqa
          obtain ⟨v, hv⟩ := addUnders_noErr f _
            (fun x => ⟨_, confFor_param_ok (.ltP rn rbs) x⟩) prm _ heqa
          simp at hv
        · rename_i c hc heqa
          exact ihRC qn qbs rn rbs (i + 1) g body ren res g2 body2 h
        · rename_i newPrm oldPrm heqa
          obtain ⟨hop, ⟨m, hnp⟩, hcf⟩ :=
            addUnders_shape f _ prm newPrm oldPrm heqa
          subst hop
          rw [confFor_param_ok] at hcf
          simp only [Except.ok.injEq] at hcf
          obtain ⟨nm, nbs, hprm⟩ := paramNameConflict_lt_arg oldPrm rn rbs hcf
          subst hprm
          have hnp' : newPrm = .ltP m nbs := by rw [hnp]; rfl
          subst hnp'
          simp only [substGenericsL_presLt nm nbs m nbs, SRes.addN] at h
          split at h
          · exact absurd h (by simp)
          · rename_i pr s2' bodyB heqb
            obtain ⟨⟨cB, hcB⟩, hcnt⟩ :=
              ihT nm nbs m nbs _ body s2' bodyB heqb
            have hs2 : s2' = .ok (0
                + cntGenericsL (.ltP nm nbs) (g.set i (.ltP m nbs)) + cB) := by
              rw [hcB]; rfl
            rw [hs2] at h
            split at h
            · rename_i m2 heq2; simp at heq2
            · obtain ⟨hres, hpres, hbody⟩ :=
                ihRC qn qbs rn rbs (i + 1)
                  (renGenericsL nm m (g.set i (.ltP m nbs))) bodyB true
                  res g2 body2 h
              refine ⟨hres, fun pn pbs => ⟨?_, ?_⟩, fun pn pbs => ?_⟩
              · rw [(hpres pn pbs).1, paramGenericsNameConflict_ren,
                  paramGenericsNameConflict_set (.tyP pn pbs) g i
                    (.ltP nm nbs) (.ltP m nbs) ?_ rfl]
                exact heqg
              · rw [(hpres pn pbs).2, cntGenericsL_ren,
                  cntGenericsL_set (.tyP pn pbs) g i (.ltP nm nbs)
                    (.ltP m nbs) ?_ rfl]
                exact heqg
              · rw [hbody pn pbs, hcnt pn pbs]
    have hSL : ∀ (qn : String) (qbs : List String) (rn : String)
        (rbs : List String) (s : SRes) (done sels : List Selector)
        (body : TyLE) (s2 : SRes) (arm2 : Arm),
        substSels (.ltP qn qbs) (.param (.ltP rn rbs)) (f + 1) s done sels
          body = some (s2, arm2) →
        (∃ c, s2 = s.addN c)
        ∧ ∃ sels2 body2, arm2 = .mk (done ++ sels2) body2
            ∧ ∀ pn pbs, cntSB (.tyP pn pbs) sels2 body2
                = cntSB (.tyP pn pbs) sels body := by
      intro qn qbs rn rbs s done sels body s2 arm2 h
      cases sels with
      | nil =>
        simp only [substSels] at h
        cases hb : substTyLE (.ltP qn qbs) (.param (.ltP rn rbs)) f s body with
        | none => simp [hb] at h
        | some pr =>
          rcases pr with ⟨sB, bodyB⟩
          simp only [hb, Option.some.injEq, Prod.mk.injEq] at h
          obtain ⟨h1, h2⟩ := h
          subst h1; subst h2
          obtain ⟨⟨c, hc⟩, hcnt⟩ := ihT qn qbs rn rbs s body sB bodyB hb
          exact ⟨⟨c, hc⟩, [], bodyB, by simp,
            fun pn pbs => by rw [cntSB_nil, cntSB_nil]; exact hcnt pn pbs⟩
      | cons sel rest =>
        cases sel with
        | dflt =>
          simp only [substSels] at h
          obtain ⟨hst, sels2', body2, harm, hcnt⟩ :=
            ihSL qn qbs rn rbs s (done ++ [.dflt]) rest body s2 arm2 h
          refine ⟨hst, .dflt :: sels2', body2, ?_, fun pn pbs => ?_⟩
          · rw [harm]; simp
          · rw [cntSB_dflt, cntSB_dflt]; exact hcnt pn pbs
        | specific cname g =>
          simp only [substSels] at h
          by_cases hcf : paramGenericsNameConflict (.ltP qn qbs) g = true
          · simp only [hcf, if_true, Option.some.injEq, Prod.mk.injEq] at h
            obtain ⟨h1, h2⟩ := h
            subst h1; subst h2
            exact ⟨⟨0, (SRes.addN_zero s).symm⟩, .specific cname g :: rest,
              body, rfl, fun pn pbs => rfl⟩
          · rw [Bool.not_eq_true] at hcf
            simp only [hcf, Bool.false_eq_true, if_false] at h
            cases hr : rcpArm (.ltP qn qbs) (.param (.ltP rn rbs)) f 0 g
                body false with
            | none => simp [hr] at h
            | some tri =>
              rcases tri with ⟨res, g1, body1⟩
              obtain ⟨⟨b, hres⟩, hpres, hbody⟩ :=
                ihRC qn qbs rn rbs 0 g body false res g1 body1 hr
              subst hres
              have key : ∃ S, (∃ c0, S = s.addN c0)
                  ∧ substSels (.ltP qn qbs) (.param (.ltP rn rbs)) f S
                      (done ++ [.specific cname (renGenericsL qn rn g1)])
                      rest body1 = some (s2, arm2) := by
                cases b with
                | true =>
                  simp only [hr] at h
                  rw [substGenericsL_presLt qn qbs rn rbs] at h
                  exact ⟨(s.pushOcc).addN (cntGenericsL (.ltP qn qbs) g1),
                    ⟨1 + cntGenericsL (.ltP qn qbs) g1,
                      SRes.pushOcc_addN s _⟩, h⟩
                | false =>
                  simp only [hr] at h
                  rw [substGenericsL_presLt qn qbs rn rbs] at h
                  exact ⟨s.addN (cntGenericsL (.ltP qn qbs) g1),
                    ⟨cntGenericsL (.ltP qn qbs) g1, rfl⟩, h⟩
              obtain ⟨S, ⟨c0, hc0⟩, hrun⟩ := key
              obtain ⟨hst, sels2', body2, harm, hcnt⟩ :=
                ihSL qn qbs rn rbs S
                  (done ++ [.specific cname (renGenericsL qn rn g1)]) rest
                  body1 s2 arm2 hrun
              obtain ⟨c, hc⟩ := hst
              refine ⟨⟨c0 + c, by rw [hc, hc0, SRes.addN_addN]⟩,
                .specific cname (renGenericsL qn rn g1) :: sels2',
                body2, ?_, fun pn pbs => ?_⟩
              · rw [harm]; simp
              · have hconf3 : paramGenericsNameConflict (.tyP pn pbs)
                    (renGenericsL qn rn g1)
                      = paramGenericsNameConflict (.tyP pn pbs) g := by
                  rw [paramGenericsNameConflict_ren]
                  exact (hpres pn pbs).1
                have hcnt3 : cntGenericsL (.tyP pn pbs)
                    (renGenericsL qn rn g1)
                      = cntGenericsL (.tyP pn pbs) g := by
                  rw [cntGenericsL_ren]
                  exact (hpres pn pbs).2
                by_cases hC : paramGenericsNameConflict (.tyP pn pbs) g = true
                · rw [cntSB_spec_conflict _ _ _ _ _ (hconf3.trans hC),
                    cntSB_spec_conflict _ _ _ _ _ hC]
                · rw [Bool.not_eq_true] at hC
                  rw [cntSB_spec _ _ _ _ _ (hconf3.trans hC),
                    cntSB_spec _ _ _ _ _ hC, hcnt3, hcnt pn pbs,
                    cntSB_congr _ _ _ _ (hbody pn pbs)]
    have hAR : ∀ (qn : String) (qbs : List String) (rn : String)
        (rbs : List String) (s : SRes) (arm : Arm) (s2 : SRes) (arm2 : Arm),
        substArm (.ltP qn qbs) (.param (.ltP rn rbs)) (f + 1) s arm
          = some (s2, arm2) →
        (∃ c, s2 = s.addN c)
        ∧ ∀ pn pbs, cntArm (.tyP pn pbs) arm2 = cntArm (.tyP pn pbs) arm := by
      intro qn qbs rn rbs s arm s2 arm2 h
      rcases arm with ⟨sels, body⟩
      simp only [substArm] at h
      obtain ⟨hst, sels2, body2, harm, hcnt⟩ :=
        ihSL qn qbs rn rbs s [] sels body s2 arm2 h
      refine ⟨hst, fun pn pbs => ?_⟩
      rw [harm]
      simp only [List.nil_append]
      rw [cntArm_eq_cntSB, cntArm_eq_cntSB]
      exact hcnt pn pbs
    have hAL : ∀ (qn : String) (qbs : List String) (rn : String)
        (rbs : List String) (s : SRes) (arms : List Arm) (s2 : SRes)
        (arms2 : List Arm),
        substArmList (.ltP qn qbs) (.param (.ltP rn rbs)) (f + 1) s arms
          = some (s2, arms2) →
        (∃ c, s2 = s.addN c)
        ∧ ∀ pn pbs, cntArmList (.tyP pn pbs) arms2
            = cntArmList (.tyP pn pbs) arms := by
      intro qn qbs rn rbs s arms s2 arms2 h
      cases arms with
      | nil =>
        simp only [substArmList, Option.some.injEq, Prod.mk.injEq] at h
        obtain ⟨h1, h2⟩ := h
        subst h1; subst h2
        exact ⟨⟨0, (SRes.addN_zero s).symm⟩, fun pn pbs => rfl⟩
      | cons arm tl =>
        simp only [substArmList] at h
        cases ha : substArm (.ltP qn qbs) (.param (.ltP rn rbs)) f s arm with
        | none => simp [ha] at h
        | some pr =>
          rcases pr with ⟨s1, arm'⟩
          simp only [ha] at h
          cases hl : substArmList (.ltP qn qbs) (.param (.ltP rn rbs)) f s1
              tl with
          | none => simp [hl] at h
          | some pr2 =>
            rcases pr2 with ⟨sL, tl'⟩
            simp only [hl, Option.some.injEq, Prod.mk.injEq] at h
            obtain ⟨h1, h2⟩ := h
            subst h1; subst h2
            obtain ⟨⟨c1, hc1⟩, hcnt1⟩ :=
              ihAR qn qbs rn rbs s arm s1 arm' ha
            obtain ⟨⟨c2, hc2⟩, hcnt2⟩ :=
              ihAL qn qbs rn rbs s1 tl sL tl' hl
            refine ⟨⟨c1 + c2, by rw [hc2, hc1, SRes.addN_addN]⟩,
              fun pn pbs => ?_⟩
            simp [cntArmList, hcnt1 pn pbs, hcnt2 pn pbs]
    have hT : ∀ (qn : String) (qbs : List String) (rn : String)
        (rbs : List String) (s : SRes) (tle : TyLE) (s2 : SRes)
        (tle2 : TyLE),
        substTyLE (.ltP qn qbs) (.param (.ltP rn rbs)) (f + 1) s tle
          = some (s2, tle2) →
        (∃ c, s2 = s.addN c)
        ∧ ∀ pn pbs, cntTyLE (.tyP pn pbs) tle2
            = cntTyLE (.tyP pn pbs) tle := by
      intro qn qbs rn rbs s tle s2 tle2 h
      cases tle with
      | expr t =>
        simp only [substTyLE] at h
        rw [substTy_presLt qn qbs rn rbs t s] at h
        simp only [Option.some.injEq, Prod.mk.injEq] at h
        obtain ⟨h1, h2⟩ := h
        subst h1; subst h2
        exact ⟨⟨cntTy (.ltP qn qbs) t, rfl⟩,
          fun pn pbs => by simp [cntTyLE, cntTy_ren]⟩
      | matchE scrut arms =>
        simp only [substTyLE] at h
        rw [substScrut_presLt qn qbs rn rbs scrut s] at h
        cases ha : substArmList (.ltP qn qbs) (.param (.ltP rn rbs)) f
            (s.addN (cntScrut (.ltP qn qbs) scrut)) arms with
        | none => simp [ha] at h
        | some pr =>
          rcases pr with ⟨sA, armsA⟩
          simp only [ha, Option.some.injEq, Prod.mk.injEq] at h
          obtain ⟨h1, h2⟩ := h
          subst h1; subst h2
          obtain ⟨⟨cA, hcA⟩, hcnts⟩ :=
            ihAL qn qbs rn rbs _ arms sA armsA ha
          refine ⟨⟨cntScrut (.ltP qn qbs) scrut + cA, by
            rw [hcA, SRes.addN_addN]⟩, fun pn pbs => ?_⟩
          simp [cntTyLE, cntScrut_ren, hcnts pn pbs]
    exact ⟨hT, hAL, hAR, hSL, hRC⟩

theorem SRes.kindErr_err (m : String) (c : Nat) :
    (SRes.err m).kindErr c = .err m := by
  simp [SRes.kindErr, SRes.pushErr]

theorem SRes.kindErr_ok_ne (k c : Nat) (h : c ≠ 0) :
    (SRes.ok k).kindErr c = .err "non-type arg for type param" := by
  simp [SRes.kindErr, SRes.pushErr, h]

theorem SRes.pushOcc_err (m : String) : (SRes.err m).pushOcc = .err m := rfl

set_option maxHeartbeats 2000000 in
/-- Joint statement over the fueled arm substitution: substituting a
lifetime argument for a type parameter propagates an existing first
error unchanged, keeps the state successful when the expression holds no
occurrence of the parameter, and records the kind-mismatch error as the
first error as soon as one occurrence site (outside shadowed arms) is
hit. -/
theorem kindErrTyLE_bundle : ∀ fuel : Nat,
    (∀ (pn : String) (pbs : List Path) (ln : String) (s : SRes) (tle : TyLE)
       (s2 : SRes) (tle2 : TyLE),
      substTyLE (.tyP pn pbs) (.arg (.lt ln)) fuel s tle = some (s2, tle2) →
      (∀ m, s = .err m → s2 = .err m)
      ∧ (∀ k, s = .ok k →
          (cntTyLE (.tyP pn pbs) tle = 0 → ∃ k2, s2 = .ok k2)
          ∧ (cntTyLE (.tyP pn pbs) tle ≠ 0
              → s2 = .err "non-type arg for type param")))
    ∧ (∀ (pn : String) (pbs : List Path) (ln : String) (s : SRes)
       (arms : List Arm) (s2 : SRes) (arms2 : List Arm),
      substArmList (.tyP pn pbs) (.arg (.lt ln)) fuel s arms
        = some (s2, arms2) →
      (∀ m, s = .err m → s2 = .err m)
      ∧ (∀ k, s = .ok k →
          (cntArmList (.tyP pn pbs) arms = 0 → ∃ k2, s2 = .ok k2)
          ∧ (cntArmList (.tyP pn pbs) arms ≠ 0
              → s2 = .err "non-type arg for type param")))
    ∧ (∀ (pn : String) (pbs : List Path) (ln : String) (s : SRes) (arm : Arm)
       (s2 : SRes) (arm2 : Arm),
      substArm (.tyP pn pbs) (.arg (.lt ln)) fuel s arm = some (s2, arm2) →
      (∀ m, s = .err m → s2 = .err m)
      ∧ (∀ k, s = .ok k →
          (cntArm (.tyP pn pbs) arm = 0 → ∃ k2, s2 = .ok k2)
          ∧ (cntArm (.tyP pn pbs) arm ≠ 0
              → s2 = .err "non-type arg for type param")))
    ∧ (∀ (pn : String) (pbs : List Path) (ln : String) (s : SRes)
       (done sels : List Selector) (body : TyLE) (s2 : SRes) (arm2 : Arm),
      substSels (.tyP pn pbs) (.arg (.lt ln)) fuel s done sels body
        = some (s2, arm2) →
      (∀ m, s = .err m → s2 = .err m)
      ∧ (∀ k, s = .ok k →
          (cntSB (.tyP pn pbs) sels body = 0 → ∃ k2, s2 = .ok k2)
          ∧ (cntSB (.tyP pn pbs) sels body ≠ 0
              → s2 = .err "non-type arg for type param")))
    ∧ (∀ (pn : String) (pbs : List Path) (ln : String) (i : Nat)
       (g : List GenParam) (body : TyLE) (ren : Bool)
       (res : Except String Bool) (g2 : List GenParam) (body2 : TyLE),
      rcpArm (.tyP pn pbs) (.arg (.lt ln)) fuel i g body ren
        = some (res, g2, body2) →
      (∃ b, res = .ok b)
      ∧ (∀ pn2 pbs2,
          paramGenericsNameConflict (.tyP pn2 pbs2) g2
            = paramGenericsNameConflict (.tyP pn2 pbs2) g
          ∧ cntGenericsL (.tyP pn2 pbs2) g2 = cntGenericsL (.tyP pn2 pbs2) g)
      ∧ (∀ pn2 pbs2, cntTyLE (.tyP pn2 pbs2) body2
          = cntTyLE (.tyP pn2 pbs2) body)) := by
  intro fuel
  induction fuel with
  | zero =>
    refine ⟨?_, ?_, ?_, ?_, ?_⟩
    · intro pn pbs ln s tle s2 tle2 h; simp [substTyLE] at h
    · intro pn pbs ln s arms s2 arms2 h; simp [substArmList] at h
    · intro pn pbs ln s arm s2 arm2 h; simp [substArm] at h
    · intro pn pbs ln s done sels body s2 arm2 h; simp [substSels] at h
    · intro pn pbs ln i g body ren res g2 body2 h; simp [rcpArm] at h
  | succ f ih =>
    obtain ⟨ihT, ihAL, ihAR, ihSL, ihRC⟩ := ih
    have hRC : ∀ (pn : String) (pbs : List Path) (ln : String) (i : Nat)
        (g : List GenParam) (body : TyLE) (ren : Bool)
        (res : Except String Bool) (g2 : List GenParam) (body2 : TyLE),
        rcpArm (.tyP pn pbs) (.arg (.lt ln)) (f + 1) i g body ren
          = some (res, g2, body2) →
        (∃ b, res = .ok b)
        ∧ (∀ pn2 pbs2,
            paramGenericsNameConflict (.tyP pn2 pbs2) g2
              = paramGenericsNameConflict (.tyP pn2 pbs2) g
            ∧ cntGenericsL (.tyP pn2 pbs2) g2
              = cntGenericsL (.tyP pn2 pbs2) g)
        ∧ (∀ pn2 pbs2, cntTyLE (.tyP pn2 pbs2) body2
            = cntTyLE (.tyP pn2 pbs2) body) := by
      intro pn pbs ln i g body ren res g2 body2 h
      simp only [rcpArm] at h
      split at h
      · simp only [Option.some.injEq, Prod.mk.injEq] at h
        obtain ⟨h1, h2, h3⟩ := h
        subst h1; subst h2; subst h3
        exact ⟨⟨ren, rfl⟩, fun pn2 pbs2 => ⟨rfl, rfl⟩, fun pn2 pbs2 => rfl⟩
      · rename_i prm heqg
        split at h
        · exact absurd h (by simp)
        · rename_i m heqa
          obtain ⟨v, hv⟩ := addUnders_noErr f _
            (fun x => ⟨_, confFor_argLt_ok ln x⟩) prm _ heqa
          simp at hv
        · rename_i c hc heqa
          exact ihRC pn pbs ln (i + 1) g body ren res g2 body2 h
        · rename_i newPrm oldPrm heqa
          obtain ⟨hop, ⟨m, hnp⟩, hcf⟩ :=
            addUnders_shape f _ prm newPrm oldPrm heqa
          subst hop
          rw [confFor_argLt_ok] at hcf
          simp only [Except.ok.injEq, decide_eq_true_eq] at hcf
          obtain ⟨nm, nbs, hprm⟩ := cntGArg_lt_param oldPrm ln hcf
          subst hprm
          have hnp' : newPrm = .ltP m nbs := by rw [hnp]; rfl
          subst hnp'
          simp only [substGenericsL_presLt nm nbs m nbs, SRes.addN] at h
          split at h
          · exact absurd h (by simp)
          · rename_i pr s2' bodyB heqb
            obtain ⟨⟨cB, hcB⟩, hcnt⟩ :=
              (rltTyLE_bundle f).1 nm nbs m nbs _ body s2' bodyB heqb
            have hs2 : s2' = .ok (0
                + cntGenericsL (.ltP nm nbs) (g.set i (.ltP m nbs)) + cB) := by
              rw [hcB]; rfl
            rw [hs2] at h
            split at h
            · rename_i m2 heq2; simp at heq2
            · obtain ⟨hres, hpres, hbody⟩ :=
                ihRC pn pbs ln (i + 1)
                  (renGenericsL nm m (g.set i (.ltP m nbs))) bodyB true
                  res g2 body2 h
              refine ⟨hres, fun pn2 pbs2 => ⟨?_, ?_⟩, fun pn2 pbs2 => ?_⟩
              · rw [(hpres pn2 pbs2).1, paramGenericsNameConflict_ren,
                  paramGenericsNameConflict_set (.tyP pn2 pbs2) g i
                    (.ltP nm nbs) (.ltP m nbs) ?_ rfl]
                exact heqg
              · rw [(hpres pn2 pbs2).2, cntGenericsL_ren,
                  cntGenericsL_set (.tyP pn2 pbs2) g i (.ltP nm nbs)
                    (.ltP m nbs) ?_ rfl]
                exact heqg
              · rw [hbody pn2 pbs2, hcnt pn2 pbs2]
    have hSL : ∀ (pn : String) (pbs : List Path) (ln : String) (s : SRes)
        (done sels : List Selector) (body : TyLE) (s2 : SRes) (arm2 : Arm),
        substSels (.tyP pn pbs) (.arg (.lt ln)) (f + 1) s done sels body
          = some (s2, arm2) →
        (∀ m, s = .err m → s2 = .err m)
        ∧ (∀ k, s = .ok k →
            (cntSB (.tyP pn pbs) sels body = 0 → ∃ k2, s2 = .ok k2)
            ∧ (cntSB (.tyP pn pbs) sels body ≠ 0
                → s2 = .err "non-type arg for type param")) := by
      intro pn pbs ln s done sels body s2 arm2 h
      cases sels with
      | nil =>
        simp only [substSels] at h
        split at h
        · exact absurd h (by simp)
        · rename_i pr sB bodyB heqb
          simp only [Option.some.injEq, Prod.mk.injEq] at h
          obtain ⟨h1, h2⟩ := h
          subst h1
          obtain ⟨hErr, hOk⟩ := ihT pn pbs ln s body sB bodyB heqb
          refine ⟨hErr, fun k hk => ?_⟩
          rw [cntSB_nil]
          exact hOk k hk
      | cons sel rest =>
        cases sel with
        | dflt =>
          simp only [substSels] at h
          obtain ⟨hErr, hOk⟩ :=
            ihSL pn pbs ln s (done ++ [.dflt]) rest body s2 arm2 h
          refine ⟨hErr, fun k hk => ?_⟩
          rw [cntSB_dflt]
          exact hOk k hk
        | specific cname g =>
          simp only [substSels] at h
          by_cases hcf : paramGenericsNameConflict (.tyP pn pbs) g = true
          · simp only [hcf, if_true, Option.some.injEq, Prod.mk.injEq] at h
            obtain ⟨h1, h2⟩ := h
            subst h1
            refine ⟨fun m hm => hm, fun k hk => ?_⟩
            rw [cntSB_spec_conflict _ _ _ _ _ hcf]
            exact ⟨fun _ => ⟨k, hk⟩, fun hne => absurd rfl hne⟩
          · rw [Bool.not_eq_true] at hcf
            simp only [hcf, Bool.false_eq_true, if_false] at h
            split at h
            · exact absurd h (by simp)
            · rename_i tri res g1 body1 heqr
              obtain ⟨⟨b, hres⟩, hpres, hbody⟩ :=
                ihRC pn pbs ln 0 g body false res g1 body1 heqr
              subst hres
              have key : substSels (.tyP pn pbs) (.arg (.lt ln)) f
                  ((if b then s.pushOcc else s).kindErr
                    (cntGenericsL (.tyP pn pbs) g1))
                  (done ++ [.specific cname g1]) rest body1
                    = some (s2, arm2) := by
                cases b with
                | true =>
                  simp only [substGenericsL_kindErr pn pbs ln] at h
                  simpa using h
                | false =>
                  simp only [substGenericsL_kindErr pn pbs ln] at h
                  simpa using h
              obtain ⟨hErr, hOk⟩ :=
                ihSL pn pbs ln _ (done ++ [.specific cname g1]) rest body1
                  s2 arm2 key
              have hg1cnt : cntGenericsL (.tyP pn pbs) g1
                  = cntGenericsL (.tyP pn pbs) g := (hpres pn pbs).2
              have hb1 : cntSB (.tyP pn pbs) rest body1
                  = cntSB (.tyP pn pbs) rest body :=
                cntSB_congr _ _ _ _ (hbody pn pbs)
              refine ⟨fun m hm => ?_, fun k hk => ?_⟩
              · subst hm
                refine hErr m ?_
                cases b <;>
                  simp [SRes.pushOcc_err, SRes.kindErr_err]
              · subst hk
                rw [cntSB_spec _ _ _ _ _ hcf]
                by_cases hg0 : cntGenericsL (.tyP pn pbs) g = 0
                · have hstate : (if b then (SRes.ok k).pushOcc
                      else SRes.ok k).kindErr
                        (cntGenericsL (.tyP pn pbs) g1)
                      = if b then SRes.ok (k + 1) else SRes.ok k := by
                    rw [hg1cnt, hg0, SRes.kindErr_zero]
                    cases b <;> rfl
                  rw [hstate] at hOk
                  cases b with
                  | true =>
                    obtain ⟨hOk1, hOk2⟩ := hOk (k + 1) rfl
                    exact ⟨fun hz => hOk1 (by rw [hb1]; omega),
                      fun hne => hOk2 (by rw [hb1]; omega)⟩
                  | false =>
                    obtain ⟨hOk1, hOk2⟩ := hOk k rfl
                    exact ⟨fun hz => hOk1 (by rw [hb1]; omega),
                      fun hne => hOk2 (by rw [hb1]; omega)⟩
                · have hstate : (if b then (SRes.ok k).pushOcc
                      else SRes.ok k).kindErr
                        (cntGenericsL (.tyP pn pbs) g1)
                      = .err "non-type arg for type param" := by
                    rw [hg1cnt]
                    cases b with
                    | true => exact SRes.kindErr_ok_ne (k + 1) _ hg0
                    | false => exact SRes.kindErr_ok_ne k _ hg0
                  rw [hstate] at hErr
                  have hfin := hErr "non-type arg for type param" rfl
                  exact ⟨fun hz => absurd hz (by omega),
                    fun hne => hfin⟩
    have hAR : ∀ (pn : String) (pbs : List Path) (ln : String) (s : SRes)
        (arm : Arm) (s2 : SRes) (arm2 : Arm),
        substArm (.tyP pn pbs) (.arg (.lt ln)) (f + 1) s arm
          = some (s2, arm2) →
        (∀ m, s = .err m → s2 = .err m)
        ∧ (∀ k, s = .ok k →
            (cntArm (.tyP pn pbs) arm = 0 → ∃ k2, s2 = .ok k2)
            ∧ (cntArm (.tyP pn pbs) arm ≠ 0
                → s2 = .err "non-type arg for type param")) := by
      intro pn pbs ln s arm s2 arm2 h
      rcases arm with ⟨sels, body⟩
      simp only [substArm] at h
      obtain ⟨hErr, hOk⟩ := ihSL pn pbs ln s [] sels body s2 arm2 h
      refine ⟨hErr, fun k hk => ?_⟩
      rw [cntArm_eq_cntSB]
      exact hOk k hk
    have hAL : ∀ (pn : String) (pbs : List Path) (ln : String) (s : SRes)
        (arms : List Arm) (s2 : SRes) (arms2 : List Arm),
        substArmList (.tyP pn pbs) (.arg (.lt ln)) (f + 1) s arms
          = some (s2, arms2) →
        (∀ m, s = .err m → s2 = .err m)
        ∧ (∀ k, s = .ok k →
            (cntArmList (.tyP pn pbs) arms = 0 → ∃ k2, s2 = .ok k2)
            ∧ (cntArmList (.tyP pn pbs) arms ≠ 0
                → s2 = .err "non-type arg for type param")) := by
      intro pn pbs ln s arms s2 arms2 h
      cases arms with
      | nil =>
        simp only [substArmList, Option.some.injEq, Prod.mk.injEq] at h
        obtain ⟨h1, h2⟩ := h
        subst h1
        exact ⟨fun m hm => hm, fun k hk =>
          ⟨fun _ => ⟨k, hk⟩, fun hne =>
            absurd (show cntArmList (.tyP pn pbs) ([] : List Arm) = 0 by
              simp [cntArmList]) hne⟩⟩
      | cons arm tl =>
        simp only [substArmList] at h
        split at h
        · exact absurd h (by simp)
        · rename_i pr s1 arm' heqa
          split at h
          · exact absurd h (by simp)
          · rename_i pr2 sL tl' heql
            simp only [Option.some.injEq, Prod.mk.injEq] at h
            obtain ⟨h1, h2⟩ := h
            subst h1
            obtain ⟨hErr1, hOk1⟩ := ihAR pn pbs ln s arm s1 arm' heqa
            obtain ⟨hErr2, hOk2⟩ := ihAL pn pbs ln s1 tl sL tl' heql
            refine ⟨fun m hm => hErr2 m (hErr1 m hm), fun k hk => ?_⟩
            simp only [cntArmList]
            by_cases ha0 : cntArm (.tyP pn pbs) arm = 0
            · obtain ⟨k1, hk1⟩ := (hOk1 k hk).1 ha0
              obtain ⟨hOk21, hOk22⟩ := hOk2 k1 hk1
              exact ⟨fun hz => hOk21 (by omega),
                fun hne => hOk22 (by omega)⟩
            · have hs1 := (hOk1 k hk).2 ha0
              have hfin := hErr2 "non-type arg for type param" hs1
              exact ⟨fun hz => absurd hz (by omega), fun hne => hfin⟩
    have hT : ∀ (pn : String) (pbs : List Path) (ln : String) (s : SRes)
        (tle : TyLE) (s2 : SRes) (tle2 : TyLE),
        substTyLE (.tyP pn pbs) (.arg (.lt ln)) (f + 1) s tle
          = some (s2, tle2) →
        (∀ m, s = .err m → s2 = .err m)
        ∧ (∀ k, s = .ok k →
            (cntTyLE (.tyP pn pbs) tle = 0 → ∃ k2, s2 = .ok k2)
            ∧ (cntTyLE (.tyP pn pbs) tle ≠ 0
                → s2 = .err "non-type arg for type param")) := by
      intro pn pbs ln s tle s2 tle2 h
      cases tle with
      | expr t =>
        simp only [substTyLE] at h
        have ht := (kindErr_bundle pn pbs ln (sizeOf t + 1)).1 t (by omega) s
        rw [ht] at h
        simp only [Option.some.injEq, Prod.mk.injEq] at h
        obtain ⟨h1, h2⟩ := h
        subst h1
        refine ⟨fun m hm => ?_, fun k hk => ?_⟩
        · subst hm; exact SRes.kindErr_err m _
        · subst hk
          simp only [cntTyLE]
          exact ⟨fun hz => ⟨k, by rw [hz, SRes.kindErr_zero]⟩,
            fun hne => SRes.kindErr_ok_ne k _ hne⟩
      | matchE scrut arms =>
        simp only [substTyLE] at h
        rw [substScrut_kindErr pn pbs ln scrut s] at h
        split at h
        · exact absurd h (by simp)
        · rename_i pr sA armsA heqa
          simp only [Option.some.injEq, Prod.mk.injEq] at h
          obtain ⟨h1, h2⟩ := h
          subst h1
          obtain ⟨hErr, hOk⟩ := ihAL pn pbs ln _ arms sA armsA heqa
          refine ⟨fun m hm => ?_, fun k hk => ?_⟩
          · subst hm
            exact hErr m (SRes.kindErr_err m _)
          · subst hk
            simp only [cntTyLE]
            by_cases hs0 : cntScrut (.tyP pn pbs) scrut = 0
            · rw [hs0, SRes.kindErr_zero] at hErr hOk
              obtain ⟨hOk1, hOk2⟩ := hOk k rfl
              exact ⟨fun hz => hOk1 (by omega), fun hne => hOk2 (by omega)⟩
            · rw [SRes.kindErr_ok_ne k _ hs0] at hErr hOk
              have hfin := hErr "non-type arg for type param" rfl
              exact ⟨fun hz => absurd hz (by omega), fun hne => hfin⟩
    exact ⟨hT, hAL, hAR, hSL, hRC⟩

set_option maxHeartbeats 2000000 in
/-- Joint statement: the test-only traversal of a type-level expression
never rewrites anything (renames are skipped) and records exactly the
occurrence count `cntTyLE`, honouring the shadowing early stop. -/
theorem testOnlyTyLE_bundle : ∀ fuel : Nat,
    (∀ (p : GenParam) (s : SRes) (tle : TyLE) (out : SRes × TyLE),
      substTyLE p .testOnly fuel s tle = some out
        → out = (s.addN (cntTyLE p tle), tle))
    ∧ (∀ (p : GenParam) (s : SRes) (arms : List Arm) (out : SRes × List Arm),
      substArmList p .testOnly fuel s arms = some out
        → out = (s.addN (cntArmList p arms), arms))
    ∧ (∀ (p : GenParam) (s : SRes) (arm : Arm) (out : SRes × Arm),
      substArm p .testOnly fuel s arm = some out
        → out = (s.addN (cntArm p arm), arm))
    ∧ (∀ (p : GenParam) (s : SRes) (done sels : List Selector) (body : TyLE)
       (out : SRes × Arm),
      substSels p .testOnly fuel s done sels body = some out
        → out = (s.addN (cntSB p sels body), .mk (done ++ sels) body)) := by
  intro fuel
  induction fuel with
  | zero =>
    refine ⟨?_, ?_, ?_, ?_⟩
    · intro p s tle out h; simp [substTyLE] at h
    · intro p s arms out h; simp [substArmList] at h
    · intro p s arm out h; simp [substArm] at h
    · intro p s done sels body out h; simp [substSels] at h
  | succ f ih =>
    obtain ⟨ihT, ihAL, ihAR, ihSL⟩ := ih
    have hSL : ∀ (p : GenParam) (s : SRes) (done sels : List Selector)
        (body : TyLE) (out : SRes × Arm),
        substSels p .testOnly (f + 1) s done sels body = some out
          → out = (s.addN (cntSB p sels body), .mk (done ++ sels) body) := by
      intro p s done sels body out h
      cases sels with
      | nil =>
        simp only [substSels] at h
        split at h
        · exact absurd h (by simp)
        · rename_i pr sB bodyB heqb
          have hb := ihT p s body (sB, bodyB) heqb
          simp only [Prod.mk.injEq] at hb
          obtain ⟨hb1, hb2⟩ := hb
          subst hb1; subst hb2
          simp only [Option.some.injEq] at h
          rw [← h]
          simp [cntSB_nil]
      | cons sel rest =>
        cases sel with
        | dflt =>
          simp only [substSels] at h
          have := ihSL p s (done ++ [.dflt]) rest body out h
          rw [this, cntSB_dflt]
          simp
        | specific cname g =>
          simp only [substSels] at h
          by_cases hcf : paramGenericsNameConflict p g = true
          · simp only [hcf, if_true, Option.some.injEq] at h
            rw [← h, cntSB_spec_conflict _ _ _ _ _ hcf, SRes.addN_zero]
          · rw [Bool.not_eq_true] at hcf
            simp only [hcf, Bool.false_eq_true, if_false,
              substGenericsL_testOnly] at h
            have := ihSL p (s.addN (cntGenericsL p g))
              (done ++ [.specific cname g]) rest body out h
            rw [this, cntSB_spec _ _ _ _ _ hcf, SRes.addN_addN]
            simp
    have hAR : ∀ (p : GenParam) (s : SRes) (arm : Arm) (out : SRes × Arm),
        substArm p .testOnly (f + 1) s arm = some out
          → out = (s.addN (cntArm p arm), arm) := by
      intro p s arm out h
      rcases arm with ⟨sels, body⟩
      simp only [substArm] at h
      have := ihSL p s [] sels body out h
      rw [this, cntArm_eq_cntSB]
      simp
    have hAL : ∀ (p : GenParam) (s : SRes) (arms : List Arm)
        (out : SRes × List Arm),
        substArmList p .testOnly (f + 1) s arms = some out
          → out = (s.addN (cntArmList p arms), arms) := by
      intro p s arms out h
      cases arms with
      | nil =>
        simp only [substArmList, Option.some.injEq] at h
        rw [← h]
        simp [cntArmList, SRes.addN_zero]
      | cons arm tl =>
        simp only [substArmList] at h
        split at h
        · exact absurd h (by simp)
        · rename_i pr s1 arm' heqa
          split at h
          · exact absurd h (by simp)
          · rename_i pr2 sL tl' heql
            have h1 := ihAR p s arm (s1, arm') heqa
            simp only [Prod.mk.injEq] at h1
            obtain ⟨h11, h12⟩ := h1
            subst h11; subst h12
            have h2 := ihAL p _ tl (sL, tl') heql
            simp only [Prod.mk.injEq] at h2
            obtain ⟨h21, h22⟩ := h2
            subst h21; subst h22
            simp only [Option.some.injEq] at h
            rw [← h]
            simp [cntArmList, SRes.addN_addN]
    have hT : ∀ (p : GenParam) (s : SRes) (tle : TyLE) (out : SRes × TyLE),
        substTyLE p .testOnly (f + 1) s tle = some out
          → out = (s.addN (cntTyLE p tle), tle) := by
      intro p s tle out h
      cases tle with
      | expr t =>
        simp only [substTyLE, substTy_testOnly, Option.some.injEq] at h
        rw [← h]
        simp [cntTyLE]
      | matchE scrut arms =>
        simp only [substTyLE, substScrut_testOnly] at h
        split at h
        · exact absurd h (by simp)
        · rename_i pr sA armsA heqa
          have h1 := ihAL p _ arms (sA, armsA) heqa
          simp only [Prod.mk.injEq] at h1
          obtain ⟨h11, h12⟩ := h1
          subst h11; subst h12
          simp only [Option.some.injEq] at h
          rw [← h]
          simp [cntTyLE, SRes.addN_addN]
    exact ⟨hT, hAL, hAR, hSL⟩

/-- `Substitutable::substitute` on a `TypeLevelExpr` (fueled because the
rename loops of `subst_with_multi_generics` are unbounded). -/
def substituteTyLE (p : GenParam) (a : SubstArg) (fuel : Nat) (tle : TyLE) :
    Option (Except String (Bool × TyLE)) :=
  match substTyLE p a fuel (.ok 0) tle with
  | none => none
  | some (.ok n, t') => some (.ok (decide (n ≠ 0), t'))
  | some (.err m, _) => some (.error m)

/-- `Substitutable::get_param_references` on a `TypeLevelExpr` (fueled). -/
def getParamRefsTyLE (p : GenParam) (fuel : Nat) (tle : TyLE) :
    Option (Except String Nat) :=
  match substTyLE p .testOnly fuel (.ok 0) tle with
  | none => none
  | some (.ok n, _) => some (.ok n)
  | some (.err m, _) => some (.error m)

/-- `Substitutable::references_param` on a `TypeLevelExpr` (fueled). -/
def referencesParamTyLE (p : GenParam) (fuel : Nat) (tle : TyLE) :
    Option (Except String Bool) :=
  match getParamRefsTyLE p fuel tle with
  | none => none
  | some (.ok n) => some (.ok (decide (n ≠ 0)))
  | some (.error m) => some (.error m)

/-- A terminating occurrence check on a type-level expression returns the
pure count. -/
theorem getParamRefsTyLE_eq (p : GenParam) (fuel : Nat) (tle : TyLE)
    (r : Except String Nat) (h : getParamRefsTyLE p fuel tle = some r) :
    r = .ok (cntTyLE p tle) := by
  simp only [getParamRefsTyLE] at h
  split at h
  · exact absurd h (by simp)
  · rename_i n t' heq
    have := (testOnlyTyLE_bundle fuel).1 p (.ok 0) tle (.ok n, t') heq
    simp only [Prod.mk.injEq] at this
    obtain ⟨h1, h2⟩ := this
    simp only [SRes.addN] at h1
    injection h1 with h1
    simp only [Option.some.injEq] at h
    rw [← h, h1]
    simp
  · rename_i m t' heq
    have := (testOnlyTyLE_bundle fuel).1 p (.ok 0) tle (.err m, t') heq
    simp only [Prod.mk.injEq] at this
    obtain ⟨h1, h2⟩ := this
    simp [SRes.addN] at h1

/-! ## Claim C5: kind safety -/

/-- Claim C5: for every embedded node kind that can contain a type
occurrence of a type-kind parameter `P` (types, expressions, generic
arguments, and type-level match expressions), substituting a
lifetime-kind argument for `P` fails with the kind-mismatch error
`non-type arg for type param` whenever an occurrence of `P` is present
in the node (for a type-level match: whenever the terminating occurrence
check reports a reference). -/
theorem claim_C5 (pn : String) (bs : List Path) (ln : String) :
    (∀ t : Ty, referencesParamTy (.tyP pn bs) t = .ok true →
      substituteTy (.tyP pn bs) (.arg (.lt ln)) t
        = .error "non-type arg for type param")
    ∧ (∀ e : Expr, referencesParamExpr (.tyP pn bs) e = .ok true →
      substituteExpr (.tyP pn bs) (.arg (.lt ln)) e
        = .error "non-type arg for type param")
    ∧ (∀ g : GArg, referencesParamGArg (.tyP pn bs) g = .ok true →
      substituteGArg (.tyP pn bs) (.arg (.lt ln)) g
        = .error "non-type arg for type param")
    ∧ (∀ (tle : TyLE) (f1 f2 : Nat) (r : Except String (Bool × TyLE)),
      referencesParamTyLE (.tyP pn bs) f1 tle = some (.ok true) →
      substituteTyLE (.tyP pn bs) (.arg (.lt ln)) f2 tle = some r →
      r = .error "non-type arg for type param") := by
  refine ⟨fun t hr => ?_, fun e hr => ?_, fun g hr => ?_,
    fun tle f1 f2 r hr hs => ?_⟩
  · rw [referencesParamTy_eq] at hr
    have hc : cntTy (.tyP pn bs) t ≠ 0 := by
      by_contra hcon
      simp [hcon] at hr
    have h := (kindErr_bundle pn bs ln (sizeOf t + 1)).1 t (by omega) (.ok 0)
    simp [substituteTy, h, SRes.kindErr, hc, SRes.pushErr]
  · rw [referencesParamExpr_eq] at hr
    have hc : cntExpr (.tyP pn bs) e ≠ 0 := by
      by_contra hcon
      simp [hcon] at hr
    have h := (kindErr_bundle pn bs ln (sizeOf e + 1)).2.2.2.2.2.2.1 e
      (by omega) (.ok 0)
    simp [substituteExpr, h, SRes.kindErr, hc, SRes.pushErr]
  · rw [referencesParamGArg_eq] at hr
    have hc : cntGArg (.tyP pn bs) g ≠ 0 := by
      by_contra hcon
      simp [hcon] at hr
    have h := (kindErr_bundle pn bs ln (sizeOf g + 1)).2.2.2.2.2.1 g
      (by omega) (.ok 0)
    simp [substituteGArg, h, SRes.kindErr, hc, SRes.pushErr]
  · have hcnt : cntTyLE (.tyP pn bs) tle ≠ 0 := by
      simp only [referencesParamTyLE] at hr
      split at hr
      · exact absurd hr (by simp)
      · rename_i n heq
        have hn := getParamRefsTyLE_eq (.tyP pn bs) f1 tle (.ok n) heq
        injection hn with hn
        simp only [Option.some.injEq, Except.ok.injEq,
          decide_eq_true_eq] at hr
        rw [← hn]
        exact hr
      · rename_i m heq
        exact absurd hr (by simp)
    simp only [substituteTyLE] at hs
    split at hs
    · exact absurd hs (by simp)
    · rename_i n t' heq
      have hB := ((kindErrTyLE_bundle f2).1 pn bs ln (.ok 0) tle (.ok n) t'
        heq).2 0 rfl
      have := hB.2 hcnt
      simp at this
    · rename_i m t' heq
      have hB := ((kindErrTyLE_bundle f2).1 pn bs ln (.ok 0) tle (.err m) t'
        heq).2 0 rfl
      have hm := hB.2 hcnt
      injection hm with hm
      simp only [Option.some.injEq] at hs
      rw [← hs, hm]

/-- Witness for claim C5: substituting lifetime `'x` for type parameter
`A` fails on type `A`, expression `A::C`, generic argument `A`, and the
type-level match `match <A> {}`. -/
theorem claim_C5_witness :
    substituteTy (.tyP "A" []) (.arg (.lt "x")) (.pathN (identPath "A"))
      = .error "non-type arg for type param"
    ∧ substituteExpr (.tyP "A" []) (.arg (.lt "x"))
        (.pathN (.mk false (.cons "A" .nil (.cons "C" .nil .nil))))
      = .error "non-type arg for type param"
    ∧ substituteGArg (.tyP "A" []) (.arg (.lt "x")) (.ty (.pathN (identPath "A")))
      = .error "non-type arg for type param"
    ∧ referencesParamTyLE (.tyP "A" []) 2
        (.matchE [.pathN (identPath "A")] []) = some (.ok true)
    ∧ substituteTyLE (.tyP "A" []) (.arg (.lt "x")) 2
        (.matchE [.pathN (identPath "A")] [])
      = some (.error "non-type arg for type param") :=
  ⟨(claim_C5 "A" [] "x").1 (.pathN (identPath "A")) rfl,
    (claim_C5 "A" [] "x").2.1
      (.pathN (.mk false (.cons "A" .nil (.cons "C" .nil .nil)))) rfl,
    (claim_C5 "A" [] "x").2.2.1 (.ty (.pathN (identPath "A"))) rfl,
    rfl,
    by
      have h := (claim_C5 "A" [] "x").2.2.2
        (.matchE [.pathN (identPath "A")] []) 2 2
      cases hs : substituteTyLE (.tyP "A" []) (.arg (.lt "x")) 2
          (.matchE [.pathN (identPath "A")] []) with
      | none =>
        rw [show substituteTyLE (.tyP "A" []) (.arg (.lt "x")) 2
            (.matchE [.pathN (identPath "A")] [])
          = some (.error "non-type arg for type param") from rfl] at hs
        exact absurd hs (by simp)
      | some r => rw [h r rfl hs]⟩

end EnumTrait
